import Mathlib

/-!
# beebjit: the sn76489 sound chip emulation of `sound.c` and the floppy disc controller

A shallow embedding of the sn76489 state of `struct sound_struct`, of the
register write decoder `sound_sn_write`, of one iteration of the synthesizer
loop of `sound_fill_sn76489_buffer`, of `sound_create` and of the snapshot
calls `sound_get_state` / `sound_set_state`; of the buffer length computed by
`sound_set_driver` and the indices read by the resampler of `sound_fill_buffer`;
and of the command register protocol of `intel_fdc.c` (`intel_fdc_create`,
`intel_fdc_write`, `intel_fdc_do_command`).

Conventions.
* `uint8_t` / `uint16_t` values are `Nat`, `int8_t` / `int16_t` / `int` values
  are `Int`; where the C code converts to a narrower signed type the wrap is
  written out (`to_int8`, `to_int16`), where it masks the mask is kept.
* The four-element arrays are functions on `Fin 4`; an access with an index
  outside `0..3` (undefined behaviour in C) makes the operation return `none`.
* `char` is taken to be signed, as on the x86 targets of the emulator.
-/

namespace Beebjit

/-! ## Machine integers -/

/-- Conversion of a C `int` to `int8_t` (or signed `char`): two's complement wrap. -/
def to_int8 (x : Int) : Int := (x + 128) % 256 - 128

/-- Conversion of a C `int` to `int16_t`: two's complement wrap. -/
def to_int16 (x : Int) : Int := (x + 32768) % 65536 - 32768

/-- The expression `(counter - 1) & 0x3ff` of the synthesizer: `counter` is a `uint16_t`
promoted to `int`, so `counter - 1` may be `-1`, and masking a two's complement `int`
with `0x3ff` is reduction modulo 1024. -/
def dec_0x3ff (counter : Nat) : Nat := (((counter : Int) - 1) % 1024).toNat

/-! ## State -/

/-- The "sn76489 state" block of `struct sound_struct`. -/
structure sound_struct where
  counter : Fin 4 → Nat
  output : Fin 4 → Int
  noise_rng : Nat
  volume : Fin 4 → Int
  period : Fin 4 → Nat
  noise_frequency : Int
  noise_type : Int
  last_channel : Int

/-- The attenuation table `volumes[16]` filled by the `do ... while` loop of `sound_create`:
`volumes[0]` is `32767 * 0.0 / 4.0 = 0` and, for `1 <= i <= 15`, `volumes[i]` is the
truncation to `int16_t` of `32767 * r^(15 - i) / 4.0` with `r = pow(10.0, -0.1)`.
The loop runs in double precision; its sixteen results are recorded here, and
`volumes_exact` checks each of them against the exact real value. The table is written
once, at construction, and is the same for every engine. -/
def volumes (i : Fin 16) : Int :=
  [0, 326, 410, 516, 650, 819, 1031, 1298, 1634, 2057, 2590, 3261, 4105, 5168, 6506,
    8191].getD i.val 0

/-- The sn76489 state set up by `sound_create`. -/
def sound_create : sound_struct where
  counter := fun _ => 0
  output := fun _ => -1
  noise_rng := 0
  volume := fun _ => volumes 0xf
  period := fun i => if i = 3 then 0x40 else 0
  noise_frequency := 2
  noise_type := 0
  last_channel := 0

/-! ## Register write decoder -/

/-- The chain of branches of `sound_sn_write` that computes `new_period` for a write that
is not a volume write; the noise branch also stores `noise_frequency`, `noise_type` and
`noise_rng`. The C sentinel `new_period == -1` never survives these branches. -/
def sn_write_period (p : sound_struct) (data : Nat) (channel : Fin 4) : sound_struct × Nat :=
  if channel = 3 then
    let noise_frequency := data &&& 0x03
    let new_period :=
      if noise_frequency = 0 then 0x10
      else if noise_frequency = 1 then 0x20
      else if noise_frequency = 2 then 0x40
      else p.period 2
    ({ p with
        noise_frequency := (noise_frequency : Int)
        noise_type := (((data &&& 0x04) >>> 2 : Nat) : Int)
        noise_rng := 1 <<< 14 }, new_period)
  else if data &&& 0x80 ≠ 0 then
    let old_period := p.period channel
    (p, (data &&& 0x0f) ||| (old_period &&& 0x3f0))
  else
    let old_period := p.period channel
    (p, ((data &&& 0x3f) <<< 4) ||| (old_period &&& 0x0f))

/-- Lines 328-333 of `sound_sn_write`: a latch byte (bit 7 set) selects the channel in its
bits 6-5 and stores it in `last_channel`; a data byte applies to `last_channel`. -/
def sn_write_select (p : sound_struct) (data : Nat) : sound_struct × Int :=
  if data &&& 0x80 ≠ 0 then
    let channel : Int := (((data >>> 5) &&& 0x03 : Nat) : Int)
    ({ p with last_channel := channel }, channel)
  else
    (p, p.last_channel)

/-- Lines 335-369 of `sound_sn_write`, for a `channel` inside the arrays: the volume write,
or the period write followed by the copy to the noise period when `channel == 2` and
`noise_frequency == 3`. -/
def sn_write_update (p : sound_struct) (data : Nat) (channel : Fin 4) : sound_struct :=
  if data &&& 0x90 = 0x90 then
    { p with
      volume := Function.update p.volume channel (volumes ⟨0x0f - (data &&& 0x0f), by omega⟩) }
  else
    let r := sn_write_period p data channel
    let new_period := r.2
    let p3 : sound_struct := { r.1 with period := Function.update r.1.period channel new_period }
    if channel = 2 ∧ p3.noise_frequency = 3 then
      { p3 with period := Function.update p3.period 3 new_period }
    else
      p3

/-- The function `sound_sn_write(p_sound, data)`: one byte written to the chip. The result
is `none` when `channel` (the stale `last_channel` of a data byte) is outside `0..3`,
where the C code indexes `period[channel]` out of bounds. -/
def sound_sn_write (p_sound : sound_struct) (data : Nat) : Option sound_struct :=
  let r := sn_write_select p_sound data
  if h : 0 ≤ r.2 ∧ r.2 < 4 then
    some (sn_write_update r.1 data ⟨r.2.toNat, by omega⟩)
  else
    none

/-! ## Chip-rate synthesizer -/

/-- Lines 93-101 of `sound_fill_sn76489_buffer`: one advance of the noise shift register,
periodic when `noise_type == 0` and white otherwise. For a `uint16_t` argument the result
is below `1 << 15`, so storing it back into the `uint16_t` loses nothing. -/
def noise_rng_advance (noise_type : Int) (noise_rng : Nat) : Nat :=
  if noise_type = 0 then
    let r := noise_rng >>> 1
    if r = 0 then 1 <<< 14 else r
  else
    let bit := (noise_rng &&& 1) ^^^ ((noise_rng &&& 2) >>> 1)
    (noise_rng >>> 1) ||| (bit <<< 14)

/-- The locals `counter`, `output` and `noise_rng` of the channel loop body, after the
`if (counter == 0)` block (lines 73-109), next to the state with the stores made so far. -/
structure channel_locals where
  p_sound : sound_struct
  counter : Nat
  output : Int
  noise_rng : Nat

/-- Lines 73-109 of `sound_fill_sn76489_buffer`: the counter is decremented modulo 1024;
when it reaches zero it is reloaded from `period`, the flip-flop is negated and stored,
and then either the noise register is advanced (noise channel, flip to `+1`) or, when the
reloaded value is 1, the local `output` is forced to `1`. -/
def sn_channel_expire (p : sound_struct) (channel : Fin 4) : channel_locals :=
  let counter := dec_0x3ff (p.counter channel)
  if counter = 0 then
    let counter := p.period channel
    let output := to_int8 (-(p.output channel))
    let p1 : sound_struct := { p with output := Function.update p.output channel output }
    if channel = 3 ∧ output = 1 then
      let noise_rng := noise_rng_advance p1.noise_type p1.noise_rng
      { p_sound := { p1 with noise_rng := noise_rng }
        counter := counter, output := output, noise_rng := noise_rng }
    else if counter = 1 then
      { p_sound := p1, counter := counter, output := 1, noise_rng := p.noise_rng }
    else
      { p_sound := p1, counter := counter, output := output, noise_rng := p.noise_rng }
  else
    { p_sound := p, counter := counter, output := p.output channel, noise_rng := p.noise_rng }

/-- The emitted polarity (lines 111-116): for the noise channel it is taken from bit 0 of
the local `noise_rng`, for a tone channel it is the local `output`. -/
def sn_channel_polarity (l : channel_locals) (channel : Fin 4) : Int :=
  if channel = 3 then
    if l.noise_rng &&& 1 = 0 then -1 else 1
  else
    l.output

/-- The body of the channel loop of `sound_fill_sn76489_buffer` (lines 72-123) for one
channel: the state after it, and the signed `sample_component` added to the sample. -/
def sn_channel_tick (p : sound_struct) (channel : Fin 4) : sound_struct × Int :=
  let sample_component := p.volume channel
  let l := sn_channel_expire p channel
  let output := sn_channel_polarity l channel
  let p2 : sound_struct :=
    { l.p_sound with counter := Function.update l.p_sound.counter channel l.counter }
  (p2, if output = -1 then to_int16 (-sample_component) else sample_component)

/-- One iteration of the outer loop of `sound_fill_sn76489_buffer` (lines 67-125): the four
channels in order, and the `int16_t` sample accumulated from their components. -/
def sn_tick (p : sound_struct) : sound_struct × Int :=
  let r0 := sn_channel_tick p 0
  let r1 := sn_channel_tick r0.1 1
  let r2 := sn_channel_tick r1.1 2
  let r3 := sn_channel_tick r2.1 3
  (r3.1, to_int16 (to_int16 (to_int16 (to_int16 (0 + r0.2) + r1.2) + r2.2) + r3.2))

/-- The state in which the channel loop of the tick started in `p` reaches `channel`: the
channels before it have run. -/
def sn_tick_before (p : sound_struct) (channel : Fin 4) : sound_struct :=
  let r0 := sn_channel_tick p 0
  let r1 := sn_channel_tick r0.1 1
  let r2 := sn_channel_tick r1.1 2
  if channel = 0 then p else if channel = 1 then r0.1 else if channel = 2 then r1.1 else r2.1

/-- The `sample_component` that `channel` adds to the sample of the tick started in `p`. -/
def sn_tick_component (p : sound_struct) (channel : Fin 4) : Int :=
  (sn_channel_tick (sn_tick_before p channel) channel).2

/-- The polarity (the local `output` at line 120) that `channel` emits in the tick started
in `p`. -/
def sn_tick_polarity (p : sound_struct) (channel : Fin 4) : Int :=
  sn_channel_polarity (sn_channel_expire (sn_tick_before p channel) channel) channel

/-- The function `sound_fill_sn76489_buffer`, with `sn_frames_per_driver_chunk_size` as the
argument `n`: `n` ticks, giving the state after them and the `n` samples written to
`p_sn_frames`. -/
def sound_fill_sn76489_buffer (p : sound_struct) : Nat → sound_struct × List Int
  | 0 => (p, [])
  | n + 1 =>
    let r := sn_tick p
    let rest := sound_fill_sn76489_buffer r.1 n
    (rest.1, r.2 :: rest.2)

/-! ## Snapshot interface -/

/-- The function `sound_inverse_volume_lookup`: the first index `i` of the table with
`volumes[i] == volume`; `none` stands for the `assert(0)` reached when there is none. -/
def sound_inverse_volume_lookup (volume : Int) : Option Nat :=
  ((List.finRange 16).find? (fun i => decide (volumes i = volume))).map Fin.val

/-- The values written by `sound_get_state` through its eight pointers. -/
structure sound_state where
  p_volumes : Fin 4 → Nat
  p_periods : Fin 4 → Nat
  p_counters : Fin 4 → Nat
  p_outputs : Fin 4 → Int
  last_channel : Nat
  noise_type : Int
  noise_frequency : Nat
  noise_rng : Nat

/-- Conversion of a C `int` to `uint8_t`: reduction modulo 256. -/
def to_uint8 (x : Int) : Nat := (x % 256).toNat

/-- The function `sound_get_state`; `none` when one of the four reverse volume lookups
fails its assertion. `last_channel` and `noise_frequency` are `int` fields exported
through `uint8_t` pointers. -/
def sound_get_state (p_sound : sound_struct) : Option sound_state :=
  match sound_inverse_volume_lookup (p_sound.volume 0),
      sound_inverse_volume_lookup (p_sound.volume 1),
      sound_inverse_volume_lookup (p_sound.volume 2),
      sound_inverse_volume_lookup (p_sound.volume 3) with
  | some v0, some v1, some v2, some v3 =>
    some
      { p_volumes := fun i => if i = 0 then v0 else if i = 1 then v1 else if i = 2 then v2 else v3
        p_periods := p_sound.period
        p_counters := p_sound.counter
        p_outputs := p_sound.output
        last_channel := to_uint8 p_sound.last_channel
        noise_type := p_sound.noise_type
        noise_frequency := to_uint8 p_sound.noise_frequency
        noise_rng := p_sound.noise_rng }
  | _, _, _, _ => none

/-- The function `sound_set_state`; `none` when a volume index is outside the table
`volumes[16]`, which the C code would read out of bounds. -/
def sound_set_state (p_sound : sound_struct) (p_volumes : Fin 4 → Nat)
    (p_periods : Fin 4 → Nat) (p_counters : Fin 4 → Nat) (p_outputs : Fin 4 → Int)
    (last_channel : Nat) (noise_type : Int) (noise_frequency : Nat) (noise_rng : Nat) :
    Option sound_struct :=
  if h : ∀ i, p_volumes i < 16 then
    some
      { p_sound with
        volume := fun i => volumes ⟨p_volumes i, h i⟩
        period := p_periods
        counter := p_counters
        output := p_outputs
        last_channel := (last_channel : Int)
        noise_type := noise_type
        noise_frequency := (noise_frequency : Int)
        noise_rng := noise_rng }
  else
    none

/-! ## Executions -/

/-- The two actors on the chip state: a byte written by the CPU, or one synthesizer tick. -/
inductive sn_event where
  | write (data : Fin 256)
  | tick

/-- One event: the state after it and the samples it produced. -/
def sn_step (s : sound_struct) : sn_event → Option (sound_struct × List Int)
  | sn_event.write data => (sound_sn_write s data.val).map (fun s1 => (s1, []))
  | sn_event.tick => some ((sn_tick s).1, [(sn_tick s).2])

/-- A sequence of register writes and ticks: the final state and all samples produced. -/
def sn_run (s : sound_struct) : List sn_event → Option (sound_struct × List Int)
  | [] => some (s, [])
  | e :: es =>
    match sn_step s e with
    | none => none
    | some r =>
      match sn_run r.1 es with
      | none => none
      | some r2 => some (r2.1, r.2 ++ r2.2)

/-- The states reachable from the power-on state of `sound_create` by register writes and
synthesizer ticks. -/
inductive Reachable : sound_struct → Prop where
  | init : Reachable sound_create
  | step (s : sound_struct) (e : sn_event) (r : sound_struct × List Int) :
      Reachable s → sn_step s e = some r → Reachable r.1

/-! ## The next value of each field under a tick -/

/-- The counter of a channel after its tick: decremented modulo 1024, reloaded from the
period on reaching zero. -/
def next_counter (counter period : Nat) : Nat :=
  if dec_0x3ff counter = 0 then period else dec_0x3ff counter

/-- The stored flip-flop of a channel after its tick: negated when the counter expires. -/
def next_output (counter : Nat) (output : Int) : Int :=
  if dec_0x3ff counter = 0 then to_int8 (-output) else output

/-- The noise register after the tick of a channel: advanced when the channel is the noise
channel, its counter expires and its flip-flop flips to `+1`. -/
def next_noise_rng (p : sound_struct) (ch : Fin 4) : Nat :=
  if dec_0x3ff (p.counter ch) = 0 ∧ ch = 3 ∧ to_int8 (-(p.output ch)) = 1 then
    noise_rng_advance p.noise_type p.noise_rng
  else p.noise_rng

/-- The period loaded into the noise channel by a noise write with byte `d`. -/
def noise_period (p : sound_struct) (d : Nat) : Nat :=
  if d % 4 = 0 then 0x10 else if d % 4 = 1 then 0x20 else if d % 4 = 2 then 0x40
  else p.period 2

/-! ## Auxiliary notions used in the statements -/

/-- The state reached from power-on by a sequence of events (power-on itself when a write
of the sequence is rejected). -/
def sn_after (evs : List sn_event) : sound_struct :=
  match sn_run sound_create evs with
  | some r => r.1
  | none => sound_create

/-- The states that `sound_get_state` can export faithfully: every volume is an entry of
the attenuation table, and the `int` fields `last_channel` and `noise_frequency`, which are
exported through `uint8_t`, hold values of that type. The data model of the chip has
`last_channel` and `noise_frequency` in `0..3`. -/
def snapshot_domain (s : sound_struct) : Prop :=
  (∀ i, ∃ j, s.volume i = volumes j) ∧
    (0 ≤ s.last_channel ∧ s.last_channel < 256) ∧
    (0 ≤ s.noise_frequency ∧ s.noise_frequency < 256)

/-- The state after `n` ticks without a write in between. -/
def sn_ticks (s : sound_struct) (n : Nat) : sound_struct :=
  (sound_fill_sn76489_buffer s n).1

/-- The number of ticks, among the next `n`, on which the stored flip-flop `output[c]`
changes. -/
def output_toggles (s : sound_struct) (c : Fin 4) : Nat → Nat
  | 0 => 0
  | n + 1 =>
    (if (sn_tick s).1.output c = s.output c then 0 else 1) +
      output_toggles (sn_tick s).1 c n

/-- A reachable state used to instantiate the statements: channel 1 addressed last, with
period `0x035`, the noise channel following tone 2, and a few ticks run. -/
def sn_example : sound_struct :=
  sn_after [sn_event.write 0xC3, sn_event.write 0x12, sn_event.write 0xE7, sn_event.tick,
    sn_event.write 0x95, sn_event.write 0xA5, sn_event.write 0x03, sn_event.tick,
    sn_event.tick]

/-- A state in which tone channel 0 runs with period 1, its counter about to expire and
its stored flip-flop at `+1`. -/
def period_one_example : sound_struct :=
  { sound_create with
    counter := fun _ => 1
    period := fun i => if i = 3 then 0x40 else 1
    output := fun _ => 1 }

/-! ## Notions used for the noise register -/

/-- The tick started in `s` advances the noise shift register: the noise counter reaches
zero and the noise flip-flop flips to `+1` (the condition of line 87 for channel 3). -/
def lfsr_advances (s : sound_struct) : Prop :=
  dec_0x3ff (s.counter 3) = 0 ∧ to_int8 (-(s.output 3)) = 1

/-- The byte `d` written in state `s` is a noise-control write: a latch byte for channel 3
with bit 4 clear, or a data byte while `last_channel` is 3. -/
def noise_write_byte (s : sound_struct) (d : Nat) : Prop :=
  (128 ≤ d ∧ d / 32 % 4 = 3 ∧ d / 16 % 2 = 0) ∨ (d < 128 ∧ s.last_channel = 3)

/-- The events that set the noise register: a noise-control write, or a tick that advances
the shift register. -/
def noise_trigger (s : sound_struct) : sn_event → Prop
  | sn_event.write data => noise_write_byte s data.val
  | sn_event.tick => lfsr_advances s

/-- The power-on state with every counter at `1024 - k`: the state `k` ticks after power-on
while no counter has expired (`k = 0` is the power-on state itself). -/
def power_on_idle (k : Nat) : sound_struct :=
  { sound_create with counter := fun _ => (1024 - k) % 1024 }

/-- The states reachable from the power-on state by register writes, synthesizer ticks and
calls of `sound_set_state` whose four volume indices are inside the attenuation table
(the calls on which `sound_set_state` returns a state). A data byte written while
`last_channel` is outside `0..3`, which indexes out of bounds, has no successor. -/
inductive ReachableRestore : sound_struct → Prop where
  | init : ReachableRestore sound_create
  | step (s : sound_struct) (e : sn_event) (r : sound_struct × List Int) :
      ReachableRestore s → sn_step s e = some r → ReachableRestore r.1
  | restore (s : sound_struct) (p_volumes p_periods p_counters : Fin 4 → Nat)
      (p_outputs : Fin 4 → Int) (last_channel : Nat) (noise_type : Int)
      (noise_frequency noise_rng : Nat) (r : sound_struct) :
      ReachableRestore s →
      sound_set_state s p_volumes p_periods p_counters p_outputs last_channel noise_type
        noise_frequency noise_rng = some r → ReachableRestore r

/-- The states the code can be in: those reachable from the power-on state by register
writes, synthesizer ticks and calls of `sound_set_state` whose arguments are values of
their C types, `last_channel` and `noise_frequency` being `uint8_t` parameters, and whose
four volume indices are inside the attenuation table. The struct is private to `sound.c`
and these are the only stores into it. -/
inductive ReachableTyped : sound_struct → Prop where
  | init : ReachableTyped sound_create
  | step (s : sound_struct) (e : sn_event) (r : sound_struct × List Int) :
      ReachableTyped s → sn_step s e = some r → ReachableTyped r.1
  | restore (s : sound_struct) (p_volumes p_periods p_counters : Fin 4 → Nat)
      (p_outputs : Fin 4 → Int) (last_channel : Nat) (noise_type : Int)
      (noise_frequency noise_rng : Nat) (r : sound_struct) :
      ReachableTyped s → last_channel < 256 → noise_frequency < 256 →
      sound_set_state s p_volumes p_periods p_counters p_outputs last_channel noise_type
        noise_frequency noise_rng = some r → ReachableTyped r

/-- A restored state used to instantiate the statements: volume indices 0, 5, 10 and 15 and
a `last_channel` of 200. -/
def restore_example : Option sound_struct :=
  sound_set_state sound_create
    (fun i => if i = 0 then 0 else if i = 1 then 5 else if i = 2 then 10 else 15)
    (fun _ => 0x123) (fun _ => 7) (fun _ => 1) 200 1 3 0x4000

/-! ## Double precision in `sound_set_driver`

The two `double` operations of `sound_set_driver` are modelled with their IEEE 754 binary64
rounding (round to nearest, ties to even). A positive `double` is written `m / 2^k`, kept
as the pair `(m, k)`; all values that occur are below `2^53`, so `k` is never negative. -/

/-- The integer nearest to `a / b`, ties to the even one. -/
def round_half_even (a b : Nat) : Nat :=
  if 2 * (a % b) < b then a / b
  else if b < 2 * (a % b) then a / b + 1
  else if a / b % 2 = 0 then a / b else a / b + 1

/-- The least `k` (searched up to `fuel`) with `2^52 <= a * 2^k / b`: the scale at which
the quotient `a / b` has a 53-bit integer part. -/
def double_exponent (a b : Nat) : Nat → Nat
  | 0 => 0
  | fuel + 1 => if 2 ^ 52 * b ≤ a then 0 else 1 + double_exponent (2 * a) b fuel

/-- The `double` nearest to the quotient `a / b`, as `(m, k)` with value `m / 2^k`, for
`2^(-76) <= a / b < 2^53` (at most 128 doublings are searched): the quotient scaled by
`2^k` lies in `[2^52, 2^53)` and is rounded to an integer. -/
def double_of_quotient (a b : Nat) : Nat × Nat :=
  let k := double_exponent a b 128
  (round_half_even (a * 2 ^ k) b, k)

/-- The field `sn_frames_per_driver_frame` set by `sound_set_driver`: the `double` quotient
`250000.0 / (double) sample_rate`. -/
def sn_frames_per_driver_frame (sample_rate : Nat) : Nat × Nat :=
  double_of_quotient 250000 sample_rate

/-- The field `sn_frames_per_driver_chunk_size` set by `sound_set_driver` (lines 274-283):
`ceil` of the `double` product of `driver_chunk_size` and `sn_frames_per_driver_frame`,
stored in a `uint32_t`. The result is `none` when `assert(driver_chunk_size > 0)` fails,
when `sample_rate` is 0 (the quotient is infinite) and when the value does not fit the
`uint32_t`. -/
def sn_frames_per_driver_chunk_size (driver_chunk_size sample_rate : Nat) : Option Nat :=
  if driver_chunk_size = 0 ∨ sample_rate = 0 then none
  else
    let f := sn_frames_per_driver_frame sample_rate
    let p := double_of_quotient (driver_chunk_size * f.1) (2 ^ f.2)
    let n := (p.1 + 2 ^ p.2 - 1) / 2 ^ p.2
    if n < 2 ^ 32 then some n else none

/-- The ceiling of `driver_chunk_size * 250000 / sample_rate` in exact arithmetic, as the
specification words it. -/
def exact_ticks_per_chunk (driver_chunk_size sample_rate : Nat) : Int :=
  ⌈((driver_chunk_size : ℚ) * 250000) / (sample_rate : ℚ)⌉

/-- The value of a `double` kept as `(m, k)`. -/
def double_value (d : Nat × Nat) : ℚ := (d.1 : ℚ) / 2 ^ d.2

/-! ## The floppy disc controller of `intel_fdc.c` -/

/-- The fields of `struct intel_fdc_struct`; all of them are `uint8_t`. -/
structure intel_fdc_struct where
  status : Nat
  result : Nat
  drive_0_or_1 : Nat
  drive_select : Nat
  current_track : Fin 2 → Nat
  command : Nat
  parameters_needed : Nat
  parameters_index : Nat
  parameters : Fin 5 → Nat

/-- The state set up by `intel_fdc_create`: the struct is cleared by `memset`. -/
def intel_fdc_create : intel_fdc_struct where
  status := 0
  result := 0
  drive_0_or_1 := 0
  drive_select := 0
  current_track := fun _ => 0
  command := 0
  parameters_needed := 0
  parameters_index := 0
  parameters := fun _ => 0

/-- The store `current_track[drive_0_or_1] = param0`; `none` when the index is outside the
two-element array. -/
def fdc_set_track (p : intel_fdc_struct) (param0 : Nat) : Option intel_fdc_struct :=
  if h : p.drive_0_or_1 < 2 then
    some { p with current_track := Function.update p.current_track ⟨p.drive_0_or_1, h⟩ param0 }
  else none

/-- The function `intel_fdc_do_command`; `none` when one of its assertions fails (parameters
still needed, a command or a special register it does not handle) or when
`current_track` is indexed out of bounds. -/
def intel_fdc_do_command (p : intel_fdc_struct) : Option intel_fdc_struct :=
  if p.parameters_needed ≠ 0 then none
  else
    let param0 := p.parameters 0
    if p.command = 0x13 then fdc_set_track p param0
    else if p.command = 0x29 then
      (fdc_set_track p param0).map (fun q => { q with status := 0x18, result := 0x00 })
    else if p.command = 0x2C then
      if h : p.drive_0_or_1 < 2 then
        let r0 := 0x88
        let r1 := if p.current_track ⟨p.drive_0_or_1, h⟩ = 0 then r0 ||| 0x02 else r0
        let r2 := if p.drive_select &&& 0x01 ≠ 0 then r1 ||| 0x04 else r1
        let r3 := if p.drive_select &&& 0x02 ≠ 0 then r2 ||| 0x40 else r2
        some { p with status := 0x10, result := r3 }
      else none
    else if p.command = 0x35 then some { p with status := 0 }
    else if p.command = 0x3A then
      if p.parameters 0 = 0x17 ∨ p.parameters 0 = 0x23 then some { p with status := 0 }
      else none
    else none

/-- The `switch` of `intel_fdc_write` that gives the number of parameters of a command;
`none` is its `default: assert(0)`. -/
def intel_fdc_num_params (command : Nat) : Option Nat :=
  if command = 0x2C then some 0
  else if command = 0x29 ∨ command = 0x3D then some 1
  else if command = 0x3A then some 2
  else if command = 0x0B ∨ command = 0x13 ∨ command = 0x1B ∨ command = 0x1F then some 3
  else if command = 0x35 then some 4
  else if command = 0x23 then some 5
  else none

/-- The part of `intel_fdc_write(p_intel_fdc, addr, val)` that precedes the call of
`intel_fdc_do_command`: the state at that point, and whether the call is made. `none`
stands for a failed assertion (unknown command, unknown register) and for a parameter
stored outside `parameters[5]`. -/
def intel_fdc_write_pre (p : intel_fdc_struct) (addr val : Nat) :
    Option (intel_fdc_struct × Bool) :=
  if addr &&& 0x07 = 0 then
    if p.status &&& 0x80 ≠ 0 then some (p, false)
    else
      let p1 : intel_fdc_struct :=
        { p with
          status := 0x80
          command := val &&& 0x3F
          drive_select := val >>> 6
          drive_0_or_1 := if val &&& 0x80 ≠ 0 then 1 else 0 }
      match intel_fdc_num_params p1.command with
      | none => none
      | some num_params =>
        let p2 : intel_fdc_struct :=
          { p1 with parameters_needed := num_params, parameters_index := 0 }
        some (p2, decide (p2.parameters_needed = 0))
  else if addr &&& 0x07 = 1 then
    if 0 < p.parameters_needed then
      if h : p.parameters_index < 5 then
        let p1 : intel_fdc_struct :=
          { p with
            parameters := Function.update p.parameters ⟨p.parameters_index, h⟩ val
            parameters_index := (p.parameters_index + 1) % 256
            parameters_needed := p.parameters_needed - 1 }
        some (p1, decide (p1.parameters_needed = 0))
      else none
    else some (p, decide (p.parameters_needed = 0))
  else none

/-- The function `intel_fdc_write`. -/
def intel_fdc_write (p : intel_fdc_struct) (addr val : Nat) : Option intel_fdc_struct :=
  match intel_fdc_write_pre p addr val with
  | none => none
  | some (q, true) => intel_fdc_do_command q
  | some (q, false) => some q

/-- A run of writes to the parameter register during none of which the command handler is
called; `none` as soon as one of them calls it or fails. -/
def fdc_param_writes (p : intel_fdc_struct) : List Nat → Option intel_fdc_struct
  | [] => some p
  | v :: vs =>
    match intel_fdc_write_pre p 1 v with
    | some (q, false) => fdc_param_writes q vs
    | _ => none

/-- The power-on state with period and counter of tone channel 0 set to 2. -/
def square_wave_example : sound_struct :=
  { sound_create with
    period := Function.update sound_create.period 0 2
    counter := Function.update sound_create.counter 0 2 }

/-! ## Iteration of the shift register -/

/-- The iterate `f^[n] x`, written so that the argument is evaluated at every step: the
match forces the value of `f x` before the next step starts. It equals `f^[n] x`
(`strict_iterate_eq`) and serves to evaluate long runs of `noise_rng_advance`. -/
def strict_iterate (f : Nat → Nat) : Nat → Nat → Nat
  | 0, x => x
  | n + 1, x =>
    match f x with
    | 0 => strict_iterate f n 0
    | y + 1 => strict_iterate f n (y + 1)

/-! ## The failing assertions of the floppy disc controller -/

/-- The ways in which `intel_fdc_do_command` can fail: the assertion of line 89
(`parameters_needed == 0`), the `default: assert(0)` of the special-register switch, the
`default: assert(0)` of the command switch, and an index outside `current_track[2]`. -/
inductive fdc_failure where
  | parameters_needed
  | unknown_register
  | unknown_command
  | track_index

/-- The function `intel_fdc_do_command` once more, with the failure told apart: the same
branches as `intel_fdc_do_command`, each `none` replaced by the failure it stands for. -/
def intel_fdc_do_command_checked (p : intel_fdc_struct) : Except fdc_failure intel_fdc_struct :=
  if p.parameters_needed ≠ 0 then Except.error fdc_failure.parameters_needed
  else
    let param0 := p.parameters 0
    if p.command = 0x13 then
      match fdc_set_track p param0 with
      | some q => Except.ok q
      | none => Except.error fdc_failure.track_index
    else if p.command = 0x29 then
      match fdc_set_track p param0 with
      | some q => Except.ok { q with status := 0x18, result := 0x00 }
      | none => Except.error fdc_failure.track_index
    else if p.command = 0x2C then
      if h : p.drive_0_or_1 < 2 then
        let r0 := 0x88
        let r1 := if p.current_track ⟨p.drive_0_or_1, h⟩ = 0 then r0 ||| 0x02 else r0
        let r2 := if p.drive_select &&& 0x01 ≠ 0 then r1 ||| 0x04 else r1
        let r3 := if p.drive_select &&& 0x02 ≠ 0 then r2 ||| 0x40 else r2
        Except.ok { p with status := 0x10, result := r3 }
      else Except.error fdc_failure.track_index
    else if p.command = 0x35 then Except.ok { p with status := 0 }
    else if p.command = 0x3A then
      if p.parameters 0 = 0x17 ∨ p.parameters 0 = 0x23 then Except.ok { p with status := 0 }
      else Except.error fdc_failure.unknown_register
    else Except.error fdc_failure.unknown_command

/-- A controller with the "specify" command `0x35` latched, four parameters stored and none
pending. -/
def fdc_idle_example : intel_fdc_struct :=
  { intel_fdc_create with
    command := 0x35
    parameters_index := 4
    parameters := fun i => i.val + 1 }

/-! ## The resampler of `sound_fill_buffer` -/

/-- The `double` sum `x + y` of two non-negative doubles: the exact sum
`x.1 / 2^x.2 + y.1 / 2^y.2`, rounded to the nearest `double`. -/
def double_add (x y : Nat × Nat) : Nat × Nat :=
  double_of_quotient (x.1 * 2 ^ y.2 + y.1 * 2 ^ x.2) (2 ^ (x.2 + y.2))

/-- The expression `(uint32_t) round(x)` for a non-negative `double`: the nearest integer,
halfway cases away from zero; `none` when it does not fit the `uint32_t`. -/
def double_round_uint32 (x : Nat × Nat) : Option Nat :=
  let n := (2 * x.1 + 2 ^ x.2) / 2 ^ (x.2 + 1)
  if n < 2 ^ 32 then some n else none

/-- The loop of `sound_fill_buffer` (lines 145-148): the indices
`(uint32_t) round(resample_index)` at which `p_sn_frames` is read, for `n` driver frames,
with the `double` addition `resample_index += resample_step` after each read. -/
def resample_reads (resample_step : Nat × Nat) : Nat → Nat × Nat → List (Option Nat)
  | 0, _ => []
  | n + 1, resample_index =>
    double_round_uint32 resample_index ::
      resample_reads resample_step n (double_add resample_index resample_step)

/-- The indices read by `sound_fill_buffer` for a driver chunk of `driver_chunk_size` frames
at `sample_rate`: the step is the stored `double` `sn_frames_per_driver_frame` and
`resample_index` starts at 0. -/
def sound_fill_buffer_reads (driver_chunk_size sample_rate : Nat) : List (Option Nat) :=
  resample_reads (sn_frames_per_driver_frame sample_rate) driver_chunk_size (0, 0)

/-- The C library function `round` on exact values: the nearest integer, halfway cases
away from zero. -/
def c_round (x : ℚ) : Int :=
  if 0 ≤ x then ⌊x + 1 / 2⌋ else ⌈x - 1 / 2⌉

/-- The resample index `round(i * 250000 / sample_rate)` in exact arithmetic, as the
specification words it. -/
def exact_resample_index (i sample_rate : Nat) : Int :=
  c_round ((i : ℚ) * 250000 / sample_rate)

/-! ## Bit operations as arithmetic -/

theorem and_mod_two_pow_left (x m n : Nat) (h : m < 2 ^ n) : x &&& m = (x % 2 ^ n) &&& m := by
  rw [← Nat.and_pow_two_sub_one_eq_mod, Nat.and_assoc, Nat.and_comm (2 ^ n - 1) m,
    Nat.and_pow_two_sub_one_of_lt_two_pow h]

theorem and_0x0f (x : Nat) : x &&& 0x0f = x % 16 := Nat.and_pow_two_sub_one_eq_mod x 4

theorem and_0x3f (x : Nat) : x &&& 0x3f = x % 64 := Nat.and_pow_two_sub_one_eq_mod x 6

theorem and_0x03 (x : Nat) : x &&& 0x03 = x % 4 := Nat.and_pow_two_sub_one_eq_mod x 2

set_option maxRecDepth 100000 in
theorem and_0x3f0_small : ∀ y < 1024, y &&& 0x3f0 = 16 * (y / 16) := by decide

theorem and_0x3f0 (x : Nat) : x &&& 0x3f0 = 16 * (x / 16 % 64) := by
  rw [and_mod_two_pow_left x 0x3f0 10 (by norm_num),
    and_0x3f0_small (x % 2 ^ 10) (Nat.mod_lt _ (by norm_num))]
  omega

theorem or_low_nibble (a b : Nat) (h : a < 16) : a ||| 16 * b = 16 * b + a := by
  rw [Nat.or_comm]
  exact (@Nat.mul_add_lt_is_or 4 a h b).symm

theorem or_ne_zero_of_left (a b : Nat) (h : a ≠ 0) : a ||| b ≠ 0 := by
  intro h0
  obtain ⟨i, hi⟩ := Nat.ne_zero_implies_bit_true h
  have : (a ||| b).testBit i = true := by rw [Nat.testBit_or, hi]; rfl
  rw [h0, Nat.zero_testBit] at this
  exact absurd this (by decide)

set_option maxRecDepth 100000 in
theorem byte_and_0x80 : ∀ d < 256, d &&& 0x80 = 128 * (d / 128) := by decide

set_option maxRecDepth 100000 in
theorem byte_and_0x90 : ∀ d < 256, d &&& 0x90 = 128 * (d / 128) + 16 * (d / 16 % 2) := by
  decide

set_option maxRecDepth 100000 in
theorem byte_channel : ∀ d < 256, (d >>> 5) &&& 0x03 = d / 32 % 4 := by decide

set_option maxRecDepth 100000 in
theorem byte_noise_type : ∀ d < 256, (d &&& 0x04) >>> 2 = d / 4 % 2 := by decide

theorem volume_latch_byte :
    ∀ c < 4, ∀ v < 16, 0x90 ||| (c <<< 5) ||| v = 144 + 32 * c + v := by
  decide

theorem period_latch_byte :
    ∀ c < 4, ∀ q < 16, 0x80 ||| (c <<< 5) ||| q = 128 + 32 * c + q := by
  decide

/-- The new period of a tone latch byte: low nibble from the byte, bits 9-4 kept. -/
theorem tone_latch_period (d old : Nat) :
    (d &&& 0x0f) ||| (old &&& 0x3f0) = 16 * (old / 16 % 64) + d % 16 := by
  rw [and_0x0f, and_0x3f0, or_low_nibble _ _ (Nat.mod_lt _ (by norm_num))]

/-- The new period of a tone data byte: bits 9-4 from the byte, low nibble kept. -/
theorem tone_data_period (d old : Nat) :
    ((d &&& 0x3f) <<< 4) ||| (old &&& 0x0f) = 16 * (d % 64) + old % 16 := by
  rw [and_0x0f, and_0x3f, Nat.shiftLeft_eq, Nat.or_comm, Nat.mul_comm,
    or_low_nibble _ _ (Nat.mod_lt _ (by norm_num))]

/-- The byte `0x80 | (c << 5) | (p & 0x0F)` and the byte `(p >> 4) & 0x3F` in arithmetic. -/
theorem tone_bytes (c : Fin 4) (p : Nat) :
    0x80 ||| (c.val <<< 5) ||| (p &&& 0x0F) = 128 + 32 * c.val + p % 16 ∧
      (p >>> 4) &&& 0x3F = p / 16 % 64 := by
  constructor
  · rw [and_0x0f]
    exact period_latch_byte c.val c.isLt (p % 16) (Nat.mod_lt _ (by norm_num))
  · rw [and_0x3f, Nat.shiftRight_eq_div_pow]

/-! ## The attenuation table -/

/-- The entries of `volumes` are the truncations of the exact values
`32767 / 4 * 10^(-(15 - i) / 10)`: with `v = volumes[i]` and `k = 15 - i`,
`(4 v)^10 * 10^k <= 32767^10 < (4 (v + 1))^10 * 10^k`; and `volumes[0]` is 0. -/
theorem volumes_exact :
    volumes 0 = 0 ∧
      ∀ i : Fin 16, i ≠ 0 →
        (4 * volumes i) ^ 10 * 10 ^ (15 - i.val) ≤ 32767 ^ 10 ∧
          32767 ^ 10 < (4 * (volumes i + 1)) ^ 10 * 10 ^ (15 - i.val) := by
  refine ⟨rfl, ?_⟩
  intro i hi
  fin_cases i
  · exact absurd rfl hi
  all_goals exact ⟨by decide, by decide⟩

/-- The reverse lookup returns an index whose table entry is the volume looked up. -/
theorem inverse_volume_lookup_some (v : Int) (k : Nat)
    (h : sound_inverse_volume_lookup v = some k) : ∃ hk : k < 16, volumes ⟨k, hk⟩ = v := by
  simp only [sound_inverse_volume_lookup, Option.map_eq_some'] at h
  obtain ⟨i, hi, hik⟩ := h
  have := List.find?_some hi
  simp only [decide_eq_true_eq] at this
  subst hik
  exact ⟨i.isLt, this⟩

/-- The reverse lookup succeeds on every entry of the table. -/
theorem inverse_volume_lookup_total (v : Int) (h : ∃ j, v = volumes j) :
    ∃ k, sound_inverse_volume_lookup v = some k := by
  obtain ⟨j, hj⟩ := h
  cases hf : (List.finRange 16).find? (fun i => decide (volumes i = v)) with
  | none =>
    rw [List.find?_eq_none] at hf
    have := hf j (List.mem_finRange j)
    simp only [decide_eq_true_eq] at this
    exact absurd hj.symm this
  | some i =>
    exact ⟨i.val, by simp only [sound_inverse_volume_lookup, hf, Option.map_some']⟩

/-! ## The register write decoder, branch by branch -/

/-- A latch byte is applied to the channel in its bits 6-5, which becomes `last_channel`. -/
theorem sn_write_latch (s : sound_struct) (d : Nat) (h1 : 128 ≤ d) (h2 : d < 256) :
    sound_sn_write s d =
      some (sn_write_update { s with last_channel := ((d / 32 % 4 : Nat) : Int) }
        d ⟨d / 32 % 4, Nat.mod_lt _ (by norm_num)⟩) := by
  have h80 : d &&& 0x80 ≠ 0 := by rw [byte_and_0x80 d h2]; omega
  have hch := byte_channel d h2
  simp only [sound_sn_write, sn_write_select, if_pos h80, hch]
  rw [dif_pos (by omega)]
  rfl

/-- A data byte is applied to `last_channel`. -/
theorem sn_write_data (s : sound_struct) (d : Nat) (c : Fin 4) (h1 : d < 128)
    (hl : s.last_channel = (c.val : Int)) :
    sound_sn_write s d = some (sn_write_update s d c) := by
  have h80 : ¬ (d &&& 0x80 ≠ 0) := by rw [byte_and_0x80 d (by omega)]; omega
  simp only [sound_sn_write, sn_write_select, if_neg h80, hl]
  rw [dif_pos (by omega)]
  rfl

/-- A data byte with `last_channel` outside `0..3` indexes the arrays out of bounds. -/
theorem sn_write_data_none (s : sound_struct) (d : Nat) (h1 : d < 128)
    (hl : ¬ (0 ≤ s.last_channel ∧ s.last_channel < 4)) :
    sound_sn_write s d = none := by
  have h80 : ¬ (d &&& 0x80 ≠ 0) := by rw [byte_and_0x80 d (by omega)]; omega
  simp only [sound_sn_write, sn_write_select, if_neg h80]
  rw [dif_neg hl]

/-- The volume branch of the decoder. -/
theorem sn_write_update_volume (s : sound_struct) (d : Nat) (ch : Fin 4) (h1 : 128 ≤ d)
    (h2 : d < 256) (h4 : d / 16 % 2 = 1) :
    sn_write_update s d ch =
      { s with volume := Function.update s.volume ch (volumes ⟨15 - d % 16, by omega⟩) } := by
  have h90 : d &&& 0x90 = 0x90 := by rw [byte_and_0x90 d h2]; omega
  simp only [sn_write_update, if_pos h90, and_0x0f]

/-- The period branches of the decoder: the state and period of `sn_write_period` are
stored, and the noise period follows a write to channel 2 when `noise_frequency` is 3. -/
theorem sn_write_update_period (s : sound_struct) (d : Nat) (ch : Fin 4) (h2 : d < 256)
    (h4 : ¬ (128 ≤ d ∧ d / 16 % 2 = 1)) :
    sn_write_update s d ch =
      if ch = 2 ∧ (sn_write_period s d ch).1.noise_frequency = 3 then
        { (sn_write_period s d ch).1 with
          period := Function.update
            (Function.update (sn_write_period s d ch).1.period ch (sn_write_period s d ch).2)
            3 (sn_write_period s d ch).2 }
      else
        { (sn_write_period s d ch).1 with
          period := Function.update (sn_write_period s d ch).1.period ch
            (sn_write_period s d ch).2 } := by
  have h90 : ¬ (d &&& 0x90 = 0x90) := by rw [byte_and_0x90 d h2]; omega
  simp only [sn_write_update, if_neg h90]

/-- The noise branch of `sn_write_period`. -/
theorem sn_write_period_noise (s : sound_struct) (d : Nat) (h2 : d < 256) :
    sn_write_period s d 3 =
      ({ s with
          noise_frequency := ((d % 4 : Nat) : Int)
          noise_type := ((d / 4 % 2 : Nat) : Int)
          noise_rng := 16384 },
        noise_period s d) := by
  simp only [sn_write_period, if_true, and_0x03, byte_noise_type d h2]
  rfl

/-- The tone latch branch of `sn_write_period`. -/
theorem sn_write_period_latch (s : sound_struct) (d : Nat) (ch : Fin 4) (hch : ch ≠ 3)
    (h1 : 128 ≤ d) (h2 : d < 256) :
    sn_write_period s d ch = (s, 16 * (s.period ch / 16 % 64) + d % 16) := by
  have h80 : d &&& 0x80 ≠ 0 := by rw [byte_and_0x80 d h2]; omega
  simp only [sn_write_period, if_neg hch, if_pos h80, tone_latch_period]

/-- The tone data branch of `sn_write_period`. -/
theorem sn_write_period_data (s : sound_struct) (d : Nat) (ch : Fin 4) (hch : ch ≠ 3)
    (h1 : d < 128) :
    sn_write_period s d ch = (s, 16 * (d % 64) + s.period ch % 16) := by
  have h80 : ¬ (d &&& 0x80 ≠ 0) := by rw [byte_and_0x80 d (by omega)]; omega
  simp only [sn_write_period, if_neg hch, if_neg h80, tone_data_period]

/-- The period of a tone channel after a write to it (the copy to the noise period does
not touch it). -/
theorem sn_write_update_tone_period (s : sound_struct) (d : Nat) (ch : Fin 4) (hch : ch ≠ 3)
    (h2 : d < 256) (h4 : ¬ (128 ≤ d ∧ d / 16 % 2 = 1)) :
    (sn_write_update s d ch).period ch = (sn_write_period s d ch).2 := by
  rw [sn_write_update_period s d ch h2 h4]
  split
  · simp only [Function.update_noteq hch, Function.update_same]
  · simp only [Function.update_same]

/-- Every accepted write is the update of one channel: the channel of a latch byte, or
`last_channel` for a data byte. -/
theorem sn_write_cases (s s1 : sound_struct) (d : Nat) (hd : d < 256)
    (h : sound_sn_write s d = some s1) :
    (128 ≤ d ∧ s1 = sn_write_update { s with last_channel := ((d / 32 % 4 : Nat) : Int) }
      d ⟨d / 32 % 4, Nat.mod_lt _ (by norm_num)⟩) ∨
    (d < 128 ∧ ∃ c : Fin 4, s.last_channel = (c.val : Int) ∧ s1 = sn_write_update s d c) := by
  by_cases h1 : 128 ≤ d
  · left
    rw [sn_write_latch s d h1 hd] at h
    exact ⟨h1, (Option.some.inj h).symm⟩
  · right
    have h2 : d < 128 := by omega
    by_cases hr : 0 ≤ s.last_channel ∧ s.last_channel < 4
    · have hc : s.last_channel = ((⟨s.last_channel.toNat, by omega⟩ : Fin 4).val : Int) := by
        simp only; omega
      rw [sn_write_data s d _ h2 hc] at h
      exact ⟨h2, _, hc, (Option.some.inj h).symm⟩
    · rw [sn_write_data_none s d h2 hr] at h
      exact absurd h (by simp)

/-- The three kinds of update: a volume write, a noise write, or a tone period write with
a new period below 1024 that is copied to the noise period when the channel is 2 and
`noise_frequency` is 3. -/
theorem sn_write_update_cases (t : sound_struct) (d : Nat) (ch : Fin 4) (hd : d < 256) :
    (128 ≤ d ∧ d / 16 % 2 = 1 ∧ sn_write_update t d ch =
      { t with volume := Function.update t.volume ch (volumes ⟨15 - d % 16, by omega⟩) }) ∨
    (ch = 3 ∧ sn_write_update t d ch =
      { t with
        noise_frequency := ((d % 4 : Nat) : Int)
        noise_type := ((d / 4 % 2 : Nat) : Int)
        noise_rng := 16384
        period := Function.update t.period 3 (noise_period t d) }) ∨
    (ch ≠ 3 ∧ ∃ np, np < 1024 ∧ sn_write_update t d ch =
      if ch = 2 ∧ t.noise_frequency = 3 then
        { t with period := Function.update (Function.update t.period ch np) 3 np }
      else
        { t with period := Function.update t.period ch np }) := by
  by_cases hv : 128 ≤ d ∧ d / 16 % 2 = 1
  · left
    exact ⟨hv.1, hv.2, sn_write_update_volume t d ch hv.1 hd hv.2⟩
  · right
    by_cases hch : ch = 3
    · left
      subst hch
      have h32 : ¬ ((3 : Fin 4) = 2 ∧ (sn_write_period t d 3).1.noise_frequency = 3) := by
        intro hh; exact absurd hh.1 (by decide)
      refine ⟨rfl, ?_⟩
      rw [sn_write_update_period t d 3 hd hv, if_neg h32, sn_write_period_noise t d hd]
    · right
      by_cases h1 : 128 ≤ d
      · refine ⟨hch, 16 * (t.period ch / 16 % 64) + d % 16, by omega, ?_⟩
        rw [sn_write_update_period t d ch hd hv, sn_write_period_latch t d ch hch h1 hd]
      · refine ⟨hch, 16 * (d % 64) + t.period ch % 16, by omega, ?_⟩
        rw [sn_write_update_period t d ch hd hv, sn_write_period_data t d ch hch (by omega)]

/-- Register writes touch neither the counters nor the stored outputs. -/
theorem sn_write_counter_output (s s1 : sound_struct) (d : Nat) (hd : d < 256)
    (h : sound_sn_write s d = some s1) : s1.counter = s.counter ∧ s1.output = s.output := by
  have key : ∀ (t : sound_struct) (ch : Fin 4), t.counter = s.counter → t.output = s.output →
      s1 = sn_write_update t d ch → s1.counter = s.counter ∧ s1.output = s.output := by
    intro t ch h1 h2 h3
    rcases sn_write_update_cases t d ch hd with ⟨_, _, hu⟩ | ⟨_, hu⟩ | ⟨_, np, _, hu⟩
    · rw [h3, hu]; exact ⟨h1, h2⟩
    · rw [h3, hu]; exact ⟨h1, h2⟩
    · rw [h3, hu]; split <;> exact ⟨h1, h2⟩
  rcases sn_write_cases s s1 d hd h with ⟨_, h1⟩ | ⟨_, c, _, h1⟩
  · exact key _ _ (by rfl) (by rfl) h1
  · exact key _ _ (by rfl) (by rfl) h1

/-- A tone latch byte for channel `c` with low nibble `p % 16`. -/
theorem tone_latch_write (t : sound_struct) (c : Fin 4) (hc : c.val < 3) (p : Nat) :
    ∃ s1, sound_sn_write t (128 + 32 * c.val + p % 16) = some s1 ∧
      s1.period c = 16 * (t.period c / 16 % 64) + p % 16 ∧
      s1.last_channel = (c.val : Int) := by
  have hc3 : c ≠ 3 := by
    intro h; rw [h] at hc; exact absurd hc (by decide)
  have hLlt : 128 + 32 * c.val + p % 16 < 256 := by omega
  have hch : (⟨(128 + 32 * c.val + p % 16) / 32 % 4, Nat.mod_lt _ (by norm_num)⟩ : Fin 4)
      = c := by
    apply Fin.ext; simp only; omega
  refine ⟨_, sn_write_latch t _ (by omega) hLlt, ?_, ?_⟩
  · rw [hch, sn_write_update_tone_period _ _ c hc3 hLlt (by omega),
      sn_write_period_latch _ _ c hc3 (by omega) hLlt]
    simp only
    omega
  · rw [hch, sn_write_update_period _ _ c hLlt (by omega),
      sn_write_period_latch _ _ c hc3 (by omega) hLlt]
    split
    · simp only; congr 1; omega
    · simp only; congr 1; omega

/-- A tone data byte `q < 64` while `last_channel` is the tone channel `c`. -/
theorem tone_data_write (t : sound_struct) (c : Fin 4) (hc : c.val < 3) (q : Nat)
    (hq : q < 64) (ht : t.last_channel = (c.val : Int)) :
    ∃ s2, sound_sn_write t q = some s2 ∧ s2.period c = 16 * q + t.period c % 16 := by
  have hc3 : c ≠ 3 := by
    intro h; rw [h] at hc; exact absurd hc (by decide)
  refine ⟨_, sn_write_data t _ c (by omega) ht, ?_⟩
  rw [sn_write_update_tone_period _ _ c hc3 (by omega) (by omega),
    sn_write_period_data _ _ c hc3 (by omega)]
  simp only
  omega

/-- The latch byte followed by the data byte of a period `p < 1024` store `p`. -/
theorem tone_latch_data_write (s : sound_struct) (c : Fin 4) (hc : c.val < 3) (p : Nat)
    (hp : p < 1024) :
    ∃ s1 s2, sound_sn_write s (0x80 ||| (c.val <<< 5) ||| (p &&& 0x0F)) = some s1 ∧
      sound_sn_write s1 ((p >>> 4) &&& 0x3F) = some s2 ∧ s2.period c = p := by
  rw [(tone_bytes c p).1, (tone_bytes c p).2]
  obtain ⟨s1, h1, hp1, hl1⟩ := tone_latch_write s c hc p
  obtain ⟨s2, h2, hp2⟩ := tone_data_write s1 c hc (p / 16 % 64) (Nat.mod_lt _ (by norm_num)) hl1
  refine ⟨s1, s2, h1, h2, ?_⟩
  rw [hp2, hp1]
  omega

/-- After any accepted write that leaves `noise_frequency = 3`, either the noise period
equals the period of channel 2, or the write touched neither of them (nor the selector). -/
theorem sn_write_follow (s s1 : sound_struct) (d : Nat) (hd : d < 256)
    (h : sound_sn_write s d = some s1) (hnf : s1.noise_frequency = 3) :
    s1.period 3 = s1.period 2 ∨
      (s1.period 3 = s.period 3 ∧ s1.period 2 = s.period 2 ∧ s.noise_frequency = 3) := by
  have h23 : (2 : Fin 4) ≠ 3 := by decide
  have key : ∀ (t : sound_struct) (ch : Fin 4), t.period = s.period →
      t.noise_frequency = s.noise_frequency → s1 = sn_write_update t d ch →
      s1.period 3 = s1.period 2 ∨
        (s1.period 3 = s.period 3 ∧ s1.period 2 = s.period 2 ∧ s.noise_frequency = 3) := by
    intro t ch hp hn h1
    rcases sn_write_update_cases t d ch hd with ⟨_, _, hu⟩ | ⟨_, hu⟩ | ⟨hch, np, _, hu⟩
    · right
      rw [h1, hu] at hnf ⊢
      exact ⟨by rw [← hp], by rw [← hp], by rw [← hn]; exact hnf⟩
    · left
      rw [h1, hu] at hnf ⊢
      simp only at hnf
      have h3 : d % 4 = 3 := by omega
      simp only [Function.update_same, Function.update_noteq h23, noise_period, h3]
      norm_num
    · by_cases h2 : ch = 2
      · left
        subst h2
        rw [h1, hu] at hnf ⊢
        by_cases hn3 : t.noise_frequency = 3
        · simp only [hn3, and_self, if_true, Function.update_same, Function.update_noteq h23]
        · simp only [hn3, and_false, if_false] at hnf
      · right
        have hc2 : ¬ (ch = 2 ∧ t.noise_frequency = 3) := fun hh => h2 hh.1
        rw [if_neg hc2] at hu
        rw [h1, hu] at hnf ⊢
        simp only at hnf
        refine ⟨?_, ?_, by rw [← hn]; exact hnf⟩
        · simp only [Function.update_noteq (Ne.symm hch), hp]
        · simp only [Function.update_noteq (Ne.symm h2), hp]
  rcases sn_write_cases s s1 d hd h with ⟨_, h1⟩ | ⟨_, c, _, h1⟩
  · exact key _ _ (by rfl) (by rfl) h1
  · exact key _ _ (by rfl) (by rfl) h1

/-- The period loaded by a noise write is at most 1023 when `period[2]` is. -/
theorem noise_period_le (t : sound_struct) (d : Nat) (h : t.period 2 ≤ 1023) :
    noise_period t d ≤ 1023 := by
  unfold noise_period
  split_ifs <;> omega

/-- Storing a bounded value keeps an array bounded. -/
theorem update_le_of_le (f : Fin 4 → Nat) (a : Fin 4) (v B : Nat) (hf : ∀ j, f j ≤ B)
    (hv : v ≤ B) (i : Fin 4) : Function.update f a v i ≤ B := by
  by_cases h : i = a
  · subst h; rw [Function.update_same]; exact hv
  · rw [Function.update_noteq h]; exact hf i

/-! ## The synthesizer tick, field by field -/

theorem dec_0x3ff_eq (c : Nat) : dec_0x3ff c = (c + 1023) % 1024 := by
  unfold dec_0x3ff
  omega

theorem sn_channel_expire_state (p : sound_struct) (ch : Fin 4) :
    (sn_channel_expire p ch).p_sound =
      { p with
        output := Function.update p.output ch (next_output (p.counter ch) (p.output ch))
        noise_rng := next_noise_rng p ch } ∧
    (sn_channel_expire p ch).counter = next_counter (p.counter ch) (p.period ch) := by
  unfold sn_channel_expire next_counter next_output next_noise_rng
  by_cases h0 : dec_0x3ff (p.counter ch) = 0
  · simp only [h0, if_true, true_and]
    by_cases h1 : ch = 3 ∧ to_int8 (-(p.output ch)) = 1
    · rw [if_pos h1, if_pos h1]
      exact ⟨rfl, rfl⟩
    · rw [if_neg h1, if_neg h1]
      split <;> exact ⟨rfl, rfl⟩
  · simp only [h0, if_false, false_and, Function.update_eq_self, and_self]

theorem sn_channel_tick_state (p : sound_struct) (ch : Fin 4) :
    (sn_channel_tick p ch).1 =
      { p with
        counter := Function.update p.counter ch (next_counter (p.counter ch) (p.period ch))
        output := Function.update p.output ch (next_output (p.counter ch) (p.output ch))
        noise_rng := next_noise_rng p ch } := by
  simp only [sn_channel_tick, (sn_channel_expire_state p ch).1,
    (sn_channel_expire_state p ch).2]

theorem next_noise_rng_tone (p : sound_struct) (ch : Fin 4) (h : ch ≠ 3) :
    next_noise_rng p ch = p.noise_rng := by
  simp only [next_noise_rng, h, false_and, and_false, if_false]

/-- The state after one tick: every channel's counter and flip-flop take their next value,
the noise register is advanced by the noise channel only, nothing else changes. -/
theorem sn_tick_state (p : sound_struct) :
    (sn_tick p).1 =
      { p with
        counter := fun i => next_counter (p.counter i) (p.period i)
        output := fun i => next_output (p.counter i) (p.output i)
        noise_rng := next_noise_rng p 3 } := by
  have h0 : (0 : Fin 4) ≠ 3 := by decide
  have h1 : (1 : Fin 4) ≠ 3 := by decide
  have h2 : (2 : Fin 4) ≠ 3 := by decide
  simp only [sn_tick, sn_channel_tick_state, next_noise_rng_tone _ _ h0,
    next_noise_rng_tone _ _ h1, next_noise_rng_tone _ _ h2]
  congr 1
  · funext i
    fin_cases i <;> simp [Function.update]
  · funext i
    fin_cases i <;> simp [Function.update]

/-- A tick changes neither the periods nor the noise frequency selector. -/
theorem sn_tick_period (p : sound_struct) :
    (sn_tick p).1.period = p.period ∧ (sn_tick p).1.noise_frequency = p.noise_frequency := by
  rw [sn_tick_state]
  exact ⟨rfl, rfl⟩

theorem sn_tick_counter (s : sound_struct) (i : Fin 4) :
    (sn_tick s).1.counter i = next_counter (s.counter i) (s.period i) := by
  rw [sn_tick_state]

theorem sn_tick_output (s : sound_struct) (i : Fin 4) :
    (sn_tick s).1.output i = next_output (s.counter i) (s.output i) := by
  rw [sn_tick_state]

theorem sn_tick_volume (s : sound_struct) : (sn_tick s).1.volume = s.volume := by
  rw [sn_tick_state]

/-- The next counter of a channel is at most 1023 when its period is. -/
theorem next_counter_le (counter period : Nat) (hp : period ≤ 1023) :
    next_counter counter period ≤ 1023 := by
  unfold next_counter
  split
  · exact hp
  · rw [dec_0x3ff_eq]; omega

/-- An advance of the noise register gives a non-zero value, provided the register is
non-zero whenever the noise is white. -/
theorem noise_rng_advance_ne_zero (noise_type : Int) (noise_rng : Nat)
    (h : noise_rng = 0 → noise_type = 0) : noise_rng_advance noise_type noise_rng ≠ 0 := by
  unfold noise_rng_advance
  by_cases ht : noise_type = 0
  · rw [if_pos ht]
    simp only
    split
    · decide
    · assumption
  · rw [if_neg ht]
    have hne : noise_rng ≠ 0 := fun h0 => ht (h h0)
    by_cases hr : noise_rng >>> 1 = 0
    · have h1 : noise_rng = 1 := by
        rw [Nat.shiftRight_eq_div_pow] at hr
        omega
      subst h1
      decide
    · exact or_ne_zero_of_left _ _ hr

/-- The channels that run before a tone channel in a tick leave its fields alone. -/
theorem sn_tick_before_tone (p : sound_struct) (c : Fin 4) :
    (sn_tick_before p c).counter c = p.counter c ∧ (sn_tick_before p c).output c = p.output c ∧
      (sn_tick_before p c).period = p.period ∧ (sn_tick_before p c).volume = p.volume := by
  fin_cases c <;> simp [sn_tick_before, sn_channel_tick_state, Function.update]

/-- The local `output` of a tone channel after the expiry block. -/
theorem sn_channel_expire_output_tone (p : sound_struct) (c : Fin 4) (hc : c ≠ 3) :
    (sn_channel_expire p c).output =
      if dec_0x3ff (p.counter c) = 0 then
        (if p.period c = 1 then 1 else to_int8 (-(p.output c)))
      else p.output c := by
  unfold sn_channel_expire
  by_cases h0 : dec_0x3ff (p.counter c) = 0
  · simp only [h0, if_true, hc, false_and, if_false]
    split <;> rfl
  · simp only [h0, if_false]

/-- The polarity emitted by a tone channel in a tick, from the fields of the channel. -/
theorem sn_tick_polarity_tone (p : sound_struct) (c : Fin 4) (hc : c ≠ 3) :
    sn_tick_polarity p c =
      if dec_0x3ff (p.counter c) = 0 then
        (if p.period c = 1 then 1 else to_int8 (-(p.output c)))
      else p.output c := by
  obtain ⟨h1, h2, h3, _⟩ := sn_tick_before_tone p c
  simp only [sn_tick_polarity, sn_channel_polarity, if_neg hc,
    sn_channel_expire_output_tone _ c hc, h1, h2, h3]

/-- The component of a channel is its volume, negated (in `int16_t`) when the emitted
polarity is `-1`. -/
theorem sn_tick_component_eq (p : sound_struct) (c : Fin 4) :
    sn_tick_component p c =
      if sn_tick_polarity p c = -1 then to_int16 (-(p.volume c)) else p.volume c := by
  simp only [sn_tick_component, sn_tick_polarity, sn_channel_tick, (sn_tick_before_tone p c).2.2.2]

/-! ## Runs of ticks on one channel -/

theorem sn_ticks_succ (s : sound_struct) (n : Nat) :
    sn_ticks s (n + 1) = sn_ticks (sn_tick s).1 n := rfl

theorem sn_ticks_add (m n : Nat) : ∀ s, sn_ticks s (m + n) = sn_ticks (sn_ticks s m) n := by
  induction m with
  | zero => intro s; rw [Nat.zero_add]; rfl
  | succ m ih =>
    intro s
    rw [Nat.add_right_comm, sn_ticks_succ, sn_ticks_succ, ih]

theorem output_toggles_add (c : Fin 4) (m n : Nat) :
    ∀ s, output_toggles s c (m + n) = output_toggles s c m + output_toggles (sn_ticks s m) c n := by
  induction m with
  | zero => intro s; rw [Nat.zero_add]; simp only [output_toggles, Nat.zero_add]; rfl
  | succ m ih =>
    intro s
    rw [Nat.add_right_comm, sn_ticks_succ]
    simp only [output_toggles]
    rw [ih, Nat.add_assoc]

theorem sn_ticks_period (n : Nat) :
    ∀ s, (sn_ticks s n).period = s.period ∧ (sn_ticks s n).volume = s.volume := by
  induction n with
  | zero => intro s; exact ⟨rfl, rfl⟩
  | succ n ih =>
    intro s
    rw [sn_ticks_succ, (ih _).1, (ih _).2, (sn_tick_period s).1, sn_tick_volume]
    exact ⟨rfl, rfl⟩

/-- While the counter of a channel stays above 1 it only counts down: `n` ticks from a
counter above `n` (and at most 1023) leave `counter - n`, the same stored output, and no
toggle. -/
theorem ticks_no_expiry (c : Fin 4) (n : Nat) :
    ∀ s : sound_struct, n < s.counter c → s.counter c ≤ 1023 →
      (sn_ticks s n).counter c = s.counter c - n ∧ (sn_ticks s n).output c = s.output c ∧
        output_toggles s c n = 0 := by
  induction n with
  | zero => intro s _ _; exact ⟨rfl, rfl, rfl⟩
  | succ n ih =>
    intro s h1 h2
    have hd : dec_0x3ff (s.counter c) = s.counter c - 1 := by rw [dec_0x3ff_eq]; omega
    have hd0 : ¬ (s.counter c - 1 = 0) := by omega
    have hc : (sn_tick s).1.counter c = s.counter c - 1 := by
      rw [sn_tick_counter, next_counter, hd, if_neg hd0]
    have ho : (sn_tick s).1.output c = s.output c := by
      rw [sn_tick_output, next_output, hd, if_neg hd0]
    obtain ⟨i1, i2, i3⟩ := ih (sn_tick s).1 (by omega) (by omega)
    rw [sn_ticks_succ]
    refine ⟨by rw [i1, hc]; omega, by rw [i2, ho], ?_⟩
    simp only [output_toggles, ho, if_true, i3]

/-- The tick on which the counter of a channel reaches zero reloads it from the period and
negates the stored output. -/
theorem tick_expiry (c : Fin 4) (s : sound_struct) (h : s.counter c = 1) :
    (sn_tick s).1.counter c = s.period c ∧ (sn_tick s).1.output c = to_int8 (-(s.output c)) := by
  have hd : dec_0x3ff (s.counter c) = 0 := by rw [dec_0x3ff_eq, h]
  rw [sn_tick_counter, sn_tick_output, next_counter, next_output, hd]
  exact ⟨rfl, rfl⟩

/-- One half-period of a tone: from `counter = period = p` with `2 <= p <= 1023`, `p` ticks
leave the counter at `p` again and negate the stored output once, on the last tick. -/
theorem ticks_half_period (c : Fin 4) (s : sound_struct) (p : Nat) (hp : 2 ≤ p)
    (hp2 : p ≤ 1023) (hc : s.counter c = p) (hper : s.period c = p)
    (ho : s.output c = 1 ∨ s.output c = -1) :
    (sn_ticks s p).counter c = p ∧ (sn_ticks s p).output c = -(s.output c) ∧
      output_toggles s c p = 1 ∧ output_toggles s c (p - 1) = 0 := by
  obtain ⟨a1, a2, a3⟩ := ticks_no_expiry c (p - 1) s (by omega) (by omega)
  have hper1 : (sn_ticks s (p - 1)).period c = p := by rw [(sn_ticks_period _ s).1, hper]
  obtain ⟨b1, b2⟩ := tick_expiry c (sn_ticks s (p - 1)) (by rw [a1, hc]; omega)
  have hsplit : p = (p - 1) + 1 := by omega
  have hneg : to_int8 (-(s.output c)) = -(s.output c) := by
    rcases ho with h | h <;> rw [h] <;> decide
  have hst : sn_ticks s p = (sn_tick (sn_ticks s (p - 1))).1 := by
    conv_lhs => rw [hsplit, sn_ticks_add]
    rfl
  refine ⟨by rw [hst, b1, hper1], by rw [hst, b2, a2, hneg], ?_, a3⟩
  conv_lhs => rw [hsplit, output_toggles_add, a3]
  simp only [output_toggles, b2, a2, hneg]
  rcases ho with h | h <;> rw [h] <;> decide

/-- From a counter of 0 the decrement wraps to 1023 and the channel then counts down:
for `1 <= n <= 1023`, `n` ticks leave `counter = 1024 - n`, the same stored output and no
toggle. -/
theorem ticks_from_zero (c : Fin 4) (s : sound_struct) (h0 : s.counter c = 0) (n : Nat)
    (h1 : 1 ≤ n) (h2 : n ≤ 1023) :
    (sn_ticks s n).counter c = 1024 - n ∧ (sn_ticks s n).output c = s.output c ∧
      output_toggles s c n = 0 := by
  have hd : dec_0x3ff (s.counter c) = 1023 := by rw [dec_0x3ff_eq, h0]
  have hc : (sn_tick s).1.counter c = 1023 := by
    rw [sn_tick_counter, next_counter, hd, if_neg (by decide)]
  have ho : (sn_tick s).1.output c = s.output c := by
    rw [sn_tick_output, next_output, hd, if_neg (by decide)]
  obtain ⟨a1, a2, a3⟩ := ticks_no_expiry c (n - 1) (sn_tick s).1 (by omega) (by omega)
  have hst : sn_ticks s n = sn_ticks (sn_tick s).1 (n - 1) := by
    have hsplit : n = (n - 1) + 1 := by omega
    conv_lhs => rw [hsplit, sn_ticks_succ]
  have htg : output_toggles s c n =
      (if (sn_tick s).1.output c = s.output c then 0 else 1) +
        output_toggles (sn_tick s).1 c (n - 1) := by
    have hsplit : n = (n - 1) + 1 := by omega
    conv_lhs => rw [hsplit]
    rfl
  refine ⟨by rw [hst, a1, hc]; omega, by rw [hst, a2, ho], ?_⟩
  rw [htg, a3, ho]
  simp only [if_true]

/-- After the first expiry (tick 1024 from a counter of 0, output `-1`) the channel runs
half-periods of `p` ticks: after `1024 + k * p` ticks its counter is `p` and its stored
output is `+1` or `-1`. -/
theorem ticks_after_first_expiry (c : Fin 4) (s : sound_struct) (p : Nat) (hp : 2 ≤ p)
    (hp2 : p ≤ 1023) (h0 : s.counter c = 0) (hper : s.period c = p)
    (ho : s.output c = -1) (k : Nat) :
    (sn_ticks s (1024 + k * p)).counter c = p ∧
      ((sn_ticks s (1024 + k * p)).output c = 1 ∨ (sn_ticks s (1024 + k * p)).output c = -1) := by
  induction k with
  | zero =>
    obtain ⟨a1, a2, _⟩ := ticks_from_zero c s h0 1023 (by omega) (by omega)
    obtain ⟨b1, b2⟩ := tick_expiry c (sn_ticks s 1023) (by rw [a1])
    have hst : sn_ticks s (1024 + 0 * p) = (sn_tick (sn_ticks s 1023)).1 := by
      rw [Nat.zero_mul, Nat.add_zero, show 1024 = 1023 + 1 from rfl, sn_ticks_add]
      rfl
    rw [hst, b1, b2, a2, ho, (sn_ticks_period _ s).1, hper]
    exact ⟨rfl, Or.inl (by decide)⟩
  | succ k ih =>
    obtain ⟨i1, i2⟩ := ih
    have hper1 : (sn_ticks s (1024 + k * p)).period c = p := by
      rw [(sn_ticks_period _ s).1, hper]
    obtain ⟨a1, a2, _, _⟩ := ticks_half_period c (sn_ticks s (1024 + k * p)) p hp hp2 i1 hper1 i2
    have hst : sn_ticks s (1024 + (k + 1) * p) = sn_ticks (sn_ticks s (1024 + k * p)) p := by
      rw [← sn_ticks_add]
      congr 1
      rw [Nat.succ_mul, Nat.add_assoc]
    rw [hst, a1, a2]
    refine ⟨rfl, ?_⟩
    rcases i2 with h | h <;> rw [h]
    · exact Or.inr rfl
    · exact Or.inl rfl

/-- With `counter = period = 1` a tick leaves `counter = 1`. -/
theorem ticks_period_one (c : Fin 4) (s : sound_struct) (hp : s.period c = 1)
    (hk : s.counter c = 1) (k : Nat) :
    (sn_ticks s k).counter c = 1 ∧ (sn_ticks s k).period c = 1 ∧
      (sn_ticks s k).volume c = s.volume c := by
  induction k with
  | zero => exact ⟨hk, hp, rfl⟩
  | succ k ih =>
    obtain ⟨i1, i2, _⟩ := ih
    have hst : sn_ticks s (k + 1) = (sn_tick (sn_ticks s k)).1 := by
      rw [sn_ticks_add]; rfl
    rw [hst, (tick_expiry c _ i1).1, (sn_tick_period _).1, sn_tick_volume, i2,
      (sn_ticks_period k s).2]
    exact ⟨rfl, rfl, rfl⟩

/-! ## Executions and reachability -/

/-- An accepted event is a write or a tick. -/
theorem sn_step_cases (s : sound_struct) (e : sn_event) (r : sound_struct × List Int)
    (h : sn_step s e = some r) :
    (∃ d, d < 256 ∧ sound_sn_write s d = some r.1) ∨ r.1 = (sn_tick s).1 := by
  cases e with
  | write data =>
    left
    simp only [sn_step, Option.map_eq_some'] at h
    obtain ⟨s1, h1, h2⟩ := h
    exact ⟨data.val, data.isLt, by rw [h1, ← h2]⟩
  | tick =>
    right
    simp only [sn_step] at h
    rw [← Option.some.inj h]

theorem reachable_run (evs : List sn_event) :
    ∀ (s : sound_struct) (r : sound_struct × List Int), Reachable s →
      sn_run s evs = some r → Reachable r.1 := by
  induction evs with
  | nil =>
    intro s r hs h
    simp only [sn_run] at h
    rw [← Option.some.inj h]
    exact hs
  | cons e es ih =>
    intro s r hs h
    simp only [sn_run] at h
    cases h1 : sn_step s e with
    | none => rw [h1] at h; exact absurd h (by simp)
    | some r1 =>
      rw [h1] at h
      simp only at h
      cases h2 : sn_run r1.1 es with
      | none => rw [h2] at h; exact absurd h (by simp)
      | some r2 =>
        rw [h2] at h
        simp only at h
        rw [← Option.some.inj h]
        exact ih r1.1 r2 (Reachable.step s e r1 hs h1) h2

/-- A run of a single tick. -/
theorem sn_run_tick (s : sound_struct) :
    sn_run s [sn_event.tick] = some ((sn_tick s).1, [(sn_tick s).2]) := by
  simp only [sn_run, sn_step, List.append_nil]

/-- Every state computed by `sn_after` is reachable. -/
theorem reachable_after (evs : List sn_event) : Reachable (sn_after evs) := by
  unfold sn_after
  cases h : sn_run sound_create evs with
  | none => exact Reachable.init
  | some r => exact reachable_run evs sound_create r Reachable.init h

/-- A tick from a reachable state ends in a reachable state. -/
theorem reachable_tick (s : sound_struct) (hs : Reachable s) : Reachable (sn_tick s).1 :=
  Reachable.step s sn_event.tick ((sn_tick s).1, [(sn_tick s).2]) hs rfl

/-- Every run of ticks from a reachable state ends in a reachable state. -/
theorem reachable_ticks (n : Nat) : ∀ s, Reachable s → Reachable (sn_ticks s n) := by
  induction n with
  | zero => intro s hs; exact hs
  | succ n ih =>
    intro s hs
    rw [sn_ticks_succ]
    exact ih _ (reachable_tick s hs)

/-- In every reachable state the volumes are table entries and `last_channel` and
`noise_frequency` are in `0..3`. -/
theorem reachable_snapshot_domain (s : sound_struct) (hs : Reachable s) :
    (∀ i, ∃ j, s.volume i = volumes j) ∧
      (0 ≤ s.last_channel ∧ s.last_channel < 4) ∧
      (0 ≤ s.noise_frequency ∧ s.noise_frequency < 4) := by
  induction hs with
  | init =>
    refine ⟨fun i => ⟨0xf, rfl⟩, by decide, by decide⟩
  | step s e r _ hstep ih =>
    obtain ⟨ihv, ihl, ihn⟩ := ih
    rcases sn_step_cases s e r hstep with ⟨d, hd, hw⟩ | ht
    · have key : ∀ (t : sound_struct) (ch : Fin 4), t.volume = s.volume →
          t.noise_frequency = s.noise_frequency →
          (0 ≤ t.last_channel ∧ t.last_channel < 4) → r.1 = sn_write_update t d ch →
          (∀ i, ∃ j, r.1.volume i = volumes j) ∧
            (0 ≤ r.1.last_channel ∧ r.1.last_channel < 4) ∧
            (0 ≤ r.1.noise_frequency ∧ r.1.noise_frequency < 4) := by
        intro t ch hv hn hl h1
        rcases sn_write_update_cases t d ch hd with ⟨_, _, hu⟩ | ⟨_, hu⟩ | ⟨hch, np, _, hu⟩
        · rw [h1, hu]
          refine ⟨?_, hl, by rw [← hn] at ihn; exact ihn⟩
          intro i
          by_cases hi : i = ch
          · subst hi
            exact ⟨⟨15 - d % 16, by omega⟩, by simp only [Function.update_same]⟩
          · simp only [Function.update_noteq hi, hv]
            exact ihv i
        · rw [h1, hu]
          refine ⟨by rw [← hv] at ihv; exact ihv, hl, ?_⟩
          simp only
          omega
        · rw [h1, hu]
          split
          · exact ⟨by rw [← hv] at ihv; exact ihv, hl, by rw [← hn] at ihn; exact ihn⟩
          · exact ⟨by rw [← hv] at ihv; exact ihv, hl, by rw [← hn] at ihn; exact ihn⟩
      rcases sn_write_cases s r.1 d hd hw with ⟨_, h1⟩ | ⟨_, c, hc, h1⟩
      · exact key _ _ (by rfl) (by rfl) (by simp only; omega) h1
      · exact key _ _ (by rfl) (by rfl) ihl h1
    · rw [ht, sn_tick_state]
      exact ⟨ihv, ihl, ihn⟩

/-- In every reachable state the counters and the periods are at most 1023. -/
theorem reachable_ten_bits (s : sound_struct) (hs : Reachable s) :
    ∀ i, s.counter i ≤ 1023 ∧ s.period i ≤ 1023 := by
  induction hs with
  | init =>
    intro i
    fin_cases i <;> decide
  | step s e r _ hstep ih =>
    rcases sn_step_cases s e r hstep with ⟨d, hd, hw⟩ | ht
    · have hco := (sn_write_counter_output s r.1 d hd hw).1
      have key : ∀ (t : sound_struct) (ch : Fin 4), t.period = s.period →
          r.1 = sn_write_update t d ch → ∀ i, r.1.period i ≤ 1023 := by
        intro t ch hp h1 i
        have ihp : ∀ j, t.period j ≤ 1023 := fun j => by rw [hp]; exact (ih j).2
        rcases sn_write_update_cases t d ch hd with ⟨_, _, hu⟩ | ⟨_, hu⟩ | ⟨_, np, hnp, hu⟩
        · rw [h1, hu]; exact ihp i
        · rw [h1, hu]
          exact update_le_of_le _ _ _ _ ihp (noise_period_le t d (ihp 2)) i
        · rw [h1, hu]
          split
          · exact update_le_of_le _ _ _ _
              (update_le_of_le _ _ _ _ ihp (by omega)) (by omega) i
          · exact update_le_of_le _ _ _ _ ihp (by omega) i
      intro i
      refine ⟨by rw [hco]; exact (ih i).1, ?_⟩
      rcases sn_write_cases s r.1 d hd hw with ⟨_, h1⟩ | ⟨_, c, _, h1⟩
      · exact key _ _ (by rfl) h1 i
      · exact key _ _ (by rfl) h1 i
    · intro i
      rw [ht, sn_tick_counter, (sn_tick_period s).1]
      exact ⟨next_counter_le _ _ (ih i).2, (ih i).2⟩

/-- In every reachable state a zero noise register goes with periodic noise: the noise type
changes only in a noise write, which re-seeds the register. -/
theorem reachable_noise_seeded (s : sound_struct) (hs : Reachable s) :
    s.noise_rng = 0 → s.noise_type = 0 := by
  induction hs with
  | init => intro _; rfl
  | step s e r _ hstep ih =>
    rcases sn_step_cases s e r hstep with ⟨d, hd, hw⟩ | ht
    · have key : ∀ (t : sound_struct) (ch : Fin 4), t.noise_rng = s.noise_rng →
          t.noise_type = s.noise_type → r.1 = sn_write_update t d ch →
          r.1.noise_rng = 0 → r.1.noise_type = 0 := by
        intro t ch h1 h2 h3
        rcases sn_write_update_cases t d ch hd with ⟨_, _, hu⟩ | ⟨_, hu⟩ | ⟨_, np, _, hu⟩
        · rw [h3, hu]; simp only; rw [h1, h2]; exact ih
        · rw [h3, hu]; simp only; intro h; exact absurd h (by decide)
        · rw [h3, hu]; split <;> (simp only; rw [h1, h2]; exact ih)
      rcases sn_write_cases s r.1 d hd hw with ⟨_, h1⟩ | ⟨_, c, _, h1⟩
      · exact key _ _ (by rfl) (by rfl) h1
      · exact key _ _ (by rfl) (by rfl) h1
    · rw [ht, sn_tick_state]
      simp only [next_noise_rng]
      split
      · intro h
        exact absurd h (noise_rng_advance_ne_zero _ _ ih)
      · exact ih

/-- A write or a tick from a reachable state keeps a non-zero noise register non-zero, and
leaves it non-zero whenever it changes it. -/
theorem step_noise_rng (s : sound_struct) (hs : Reachable s) (e : sn_event)
    (r : sound_struct × List Int) (hstep : sn_step s e = some r) :
    r.1.noise_rng = s.noise_rng ∨ r.1.noise_rng ≠ 0 := by
  rcases sn_step_cases s e r hstep with ⟨d, hd, hw⟩ | ht
  · have key : ∀ (t : sound_struct) (ch : Fin 4), t.noise_rng = s.noise_rng →
        r.1 = sn_write_update t d ch → r.1.noise_rng = s.noise_rng ∨ r.1.noise_rng ≠ 0 := by
      intro t ch h1 h3
      rcases sn_write_update_cases t d ch hd with ⟨_, _, hu⟩ | ⟨_, hu⟩ | ⟨_, np, _, hu⟩
      · left; rw [h3, hu]; exact h1
      · right; rw [h3, hu]; simp only; exact (by decide : (16384 : Nat) ≠ 0)
      · left; rw [h3, hu]; split <;> exact h1
    rcases sn_write_cases s r.1 d hd hw with ⟨_, h1⟩ | ⟨_, c, _, h1⟩
    · exact key _ _ (by rfl) h1
    · exact key _ _ (by rfl) h1
  · rw [ht, sn_tick_state]
    simp only [next_noise_rng]
    split
    · right
      exact noise_rng_advance_ne_zero _ _ (reachable_noise_seeded s hs)
    · left; rfl

/-- From a reachable state in which channel 0 has `counter = 0`, `period = 1` and
`output = -1`, 1024 ticks reach a state with `counter = period = 1` and `output = +1`,
and the next tick stores `output = -1`. -/
theorem period_one_reachable (s : sound_struct) (hr : Reachable s) (h0 : s.counter 0 = 0)
    (hp : s.period 0 = 1) (ho : s.output 0 = -1) :
    ∃ t, Reachable t ∧ t.counter 0 = 1 ∧ t.period 0 = 1 ∧ t.output 0 = 1 ∧
      (sn_tick t).1.output 0 = -1 := by
  obtain ⟨a1, a2, _⟩ := ticks_from_zero 0 s h0 1023 (by decide) (by decide)
  obtain ⟨b1, b2⟩ := tick_expiry 0 _ a1
  have hper := (sn_ticks_period 1023 s).1
  have hper1 := (sn_tick_period (sn_ticks s 1023)).1
  rw [a2, ho] at b2
  rw [hper, hp] at b1
  refine ⟨(sn_tick (sn_ticks s 1023)).1, reachable_tick _ (reachable_ticks 1023 s hr), b1,
    by rw [hper1, hper, hp], b2, ?_⟩
  rw [(tick_expiry 0 _ b1).2, b2]
  decide

/-! ## Claims C1 - C3: the register write decoder -/

/-- C1. For every state, tone channel `c` in `0..2` and period `p` in `0..1023`: writing the
latch byte `0x80 | (c << 5) | (p & 0x0F)` and then the data byte `(p >> 4) & 0x3F` succeeds
and leaves `period[c] = p`. The latch byte alone leaves `period[c]` with the byte's low
nibble in bits 3-0 and the old bits 9-4; the data byte alone (in a state whose
`last_channel` is `c`) leaves it with the byte's six bits in bits 9-4 and the old bits
3-0. -/
theorem C1_latch_data_period (s : sound_struct) (c : Fin 4) (hc : c.val < 3) (p : Nat)
    (hp : p < 1024) :
    (∃ s1 s2, sound_sn_write s (0x80 ||| (c.val <<< 5) ||| (p &&& 0x0F)) = some s1 ∧
      sound_sn_write s1 ((p >>> 4) &&& 0x3F) = some s2 ∧ s2.period c = p) ∧
    (∃ s1, sound_sn_write s (0x80 ||| (c.val <<< 5) ||| (p &&& 0x0F)) = some s1 ∧
      s1.period c = 16 * (s.period c / 16 % 64) + p % 16) ∧
    (s.last_channel = (c.val : Int) →
      ∃ s2, sound_sn_write s ((p >>> 4) &&& 0x3F) = some s2 ∧
        s2.period c = 16 * (p / 16) + s.period c % 16) := by
  refine ⟨tone_latch_data_write s c hc p hp, ?_, ?_⟩
  · rw [(tone_bytes c p).1]
    obtain ⟨s1, h1, hp1, _⟩ := tone_latch_write s c hc p
    exact ⟨s1, h1, hp1⟩
  · intro hl
    rw [(tone_bytes c p).2]
    have hq : p / 16 % 64 = p / 16 := by omega
    obtain ⟨s2, h2, hp2⟩ := tone_data_write s c hc (p / 16 % 64) (Nat.mod_lt _ (by norm_num)) hl
    rw [hq] at h2 hp2 ⊢
    exact ⟨s2, h2, hp2⟩

/-- Witness for C1: channel 1 and period 677 on the state `sn_example`. -/
theorem C1_latch_data_period_witness :
    (1 : Fin 4).val < 3 ∧ 677 < 1024 ∧ sn_example.last_channel = 1 ∧
      (∃ s1 s2, sound_sn_write sn_example (0x80 ||| (1 <<< 5) ||| (677 &&& 0x0F)) = some s1 ∧
        sound_sn_write s1 ((677 >>> 4) &&& 0x3F) = some s2 ∧ s2.period 1 = 677) ∧
      (∃ s2, sound_sn_write sn_example ((677 >>> 4) &&& 0x3F) = some s2 ∧
        s2.period 1 = 16 * (677 / 16) + sn_example.period 1 % 16) :=
  ⟨by decide, by decide, by decide,
    (C1_latch_data_period sn_example 1 (by decide) 677 (by decide)).1,
    (C1_latch_data_period sn_example 1 (by decide) 677 (by decide)).2.2 (by decide)⟩

/-- C2. For every state, channel `c` in `0..3` and `v` in `0..15`: the volume-latch byte
`0x90 | (c << 5) | v` is accepted, stores `volumes[15 - v]` in `volume[c]` and `c` in
`last_channel`; for `v = 15` the stored volume is 0. -/
theorem C2_volume_latch (s : sound_struct) (c : Fin 4) (v : Fin 16) :
    ∃ s1, sound_sn_write s (0x90 ||| (c.val <<< 5) ||| v.val) = some s1 ∧
      s1.volume c = volumes ⟨15 - v.val, by omega⟩ ∧ s1.last_channel = (c.val : Int) ∧
      (v = 15 → s1.volume c = 0) := by
  have hd := volume_latch_byte c.val c.isLt v.val v.isLt
  have hlt : 144 + 32 * c.val + v.val < 256 := by omega
  have hc : (⟨(144 + 32 * c.val + v.val) / 32 % 4, Nat.mod_lt _ (by norm_num)⟩ : Fin 4)
      = c := by
    apply Fin.ext; simp only; omega
  have hv : (144 + 32 * c.val + v.val) % 16 = v.val := by omega
  rw [hd, sn_write_latch _ _ (by omega) hlt, hc,
    sn_write_update_volume _ _ c (by omega) hlt (by omega)]
  refine ⟨_, rfl, ?_, ?_, ?_⟩
  · simp only [Function.update_same, hv]
  · simp only; congr 1; omega
  · intro hv15
    subst hv15
    simp only [Function.update_same, hv]
    rfl

/-- C3. For every state and every byte `d` that addresses the noise channel without being a
volume latch (a latch byte with bits 6-5 equal to 3 and bit 4 clear, or a data byte while
`last_channel` is 3): the write is accepted and leaves `noise_frequency` equal to bits 1-0
of `d`, `noise_type` equal to bit 2 of `d`, `noise_rng = 1 << 14`, and `period[3]` equal to
`0x10`, `0x20`, `0x40` for frequency 0, 1, 2 and to `period[2]` for frequency 3. -/
theorem C3_noise_write (s : sound_struct) (d : Nat) (hd : d < 256)
    (h : (128 ≤ d ∧ d / 32 % 4 = 3 ∧ d / 16 % 2 = 0) ∨ (d < 128 ∧ s.last_channel = 3)) :
    ∃ s1, sound_sn_write s d = some s1 ∧
      s1.noise_frequency = ((d % 4 : Nat) : Int) ∧
      s1.noise_type = ((d / 4 % 2 : Nat) : Int) ∧
      s1.noise_rng = 1 <<< 14 ∧
      (d % 4 = 0 → s1.period 3 = 0x10) ∧
      (d % 4 = 1 → s1.period 3 = 0x20) ∧
      (d % 4 = 2 → s1.period 3 = 0x40) ∧
      (d % 4 = 3 → s1.period 3 = s.period 2 ∧ s1.period 3 = s1.period 2) := by
  have key : ∀ t : sound_struct, t.period = s.period →
      (sn_write_update t d 3).noise_frequency = ((d % 4 : Nat) : Int) ∧
      (sn_write_update t d 3).noise_type = ((d / 4 % 2 : Nat) : Int) ∧
      (sn_write_update t d 3).noise_rng = 1 <<< 14 ∧
      (d % 4 = 0 → (sn_write_update t d 3).period 3 = 0x10) ∧
      (d % 4 = 1 → (sn_write_update t d 3).period 3 = 0x20) ∧
      (d % 4 = 2 → (sn_write_update t d 3).period 3 = 0x40) ∧
      (d % 4 = 3 → (sn_write_update t d 3).period 3 = s.period 2 ∧
        (sn_write_update t d 3).period 3 = (sn_write_update t d 3).period 2) := by
    intro t ht
    have h4 : ¬ (128 ≤ d ∧ d / 16 % 2 = 1) := by omega
    have h32 : ¬ ((3 : Fin 4) = 2 ∧ (sn_write_period t d 3).1.noise_frequency = 3) := by
      intro hh; exact absurd hh.1 (by decide)
    have h23 : (2 : Fin 4) ≠ 3 := by decide
    rw [sn_write_update_period t d 3 hd h4, if_neg h32, sn_write_period_noise t d hd]
    simp only [Function.update_same, Function.update_noteq h23, ht, noise_period]
    refine ⟨trivial, trivial, by decide, ?_, ?_, ?_, ?_⟩
    · intro h0; simp [h0]
    · intro h0; simp [h0]
    · intro h0; simp [h0]
    · intro h0; simp [h0]
  rcases h with ⟨h1, h2, _⟩ | ⟨h1, h2⟩
  · have hch : (⟨d / 32 % 4, Nat.mod_lt _ (by norm_num)⟩ : Fin 4) = 3 := by
      apply Fin.ext; simp only; omega
    refine ⟨_, sn_write_latch s d h1 hd, ?_⟩
    rw [hch]
    exact key _ rfl
  · exact ⟨_, sn_write_data s d 3 h1 h2, key s rfl⟩

/-- Witness for C3: the noise latch byte `0xE7` on the state `sn_example`. -/
theorem C3_noise_write_witness :
    (128 ≤ 0xE7 ∧ 0xE7 / 32 % 4 = 3 ∧ 0xE7 / 16 % 2 = 0) ∧
      ∃ s1, sound_sn_write sn_example 0xE7 = some s1 ∧ s1.noise_frequency = 3 ∧
        s1.noise_type = 1 ∧ s1.noise_rng = 16384 ∧ s1.period 3 = sn_example.period 2 := by
  refine ⟨by decide, ?_⟩
  obtain ⟨s1, h, hf, ht, hr, _, _, _, h3⟩ :=
    C3_noise_write sn_example 0xE7 (by decide) (Or.inl (by decide))
  exact ⟨s1, h, hf, ht, hr, (h3 (by decide)).1⟩

/-! ## Claim C4: the noise period follows tone channel 2 -/

/-- C4. In every state reachable from power-on by register writes and ticks,
`noise_frequency = 3` implies `period[3] = period[2]`. Moreover, from any state with
`noise_frequency = 3`, every accepted write that changes `period[2]`, and every period
write addressed to channel 2 (latch byte with bits 6-5 equal to 2 and bit 4 clear, or data
byte while `last_channel` is 2), leaves `period[3]` equal to the new `period[2]`. -/
theorem C4_noise_follows_tone2 :
    (∀ s, Reachable s → s.noise_frequency = 3 → s.period 3 = s.period 2) ∧
    (∀ (s s1 : sound_struct) (d : Nat), d < 256 → s.noise_frequency = 3 →
      sound_sn_write s d = some s1 → s1.period 2 ≠ s.period 2 → s1.period 3 = s1.period 2) ∧
    (∀ (s : sound_struct) (d : Nat), d < 256 → s.noise_frequency = 3 →
      ((128 ≤ d ∧ d / 32 % 4 = 2 ∧ d / 16 % 2 = 0) ∨ (d < 128 ∧ s.last_channel = 2)) →
      ∃ s1, sound_sn_write s d = some s1 ∧ s1.noise_frequency = 3 ∧
        s1.period 3 = s1.period 2) := by
  refine ⟨?_, ?_, ?_⟩
  · intro s hs
    induction hs with
    | init => intro h; exact absurd h (by decide)
    | step s e r _ hstep ih =>
      intro hnf
      rcases sn_step_cases s e r hstep with ⟨d, hd, hw⟩ | ht
      · rcases sn_write_follow s r.1 d hd hw hnf with h1 | ⟨h3, h2, hn⟩
        · exact h1
        · rw [h3, h2]; exact ih hn
      · rw [ht] at hnf ⊢
        rw [(sn_tick_period s).1]
        rw [(sn_tick_period s).2] at hnf
        exact ih hnf
  · intro s s1 d hd hnf hw hne
    have hn1 : s1.noise_frequency = 3 ∨ s1.period 3 = s1.period 2 := by
      have h23 : (2 : Fin 4) ≠ 3 := by decide
      have key : ∀ (t : sound_struct) (ch : Fin 4), t.noise_frequency = s.noise_frequency →
          t.period = s.period → s1 = sn_write_update t d ch →
          s1.noise_frequency = 3 ∨ s1.period 3 = s1.period 2 := by
        intro t ch hn hp h1
        rcases sn_write_update_cases t d ch hd with ⟨_, _, hu⟩ | ⟨_, hu⟩ | ⟨hch, np, _, hu⟩
        · left; rw [h1, hu]; simp only; rw [hn]; exact hnf
        · by_cases h3 : d % 4 = 3
          · right
            rw [h1, hu]
            simp only [Function.update_same, Function.update_noteq h23, noise_period, h3]
            norm_num
          · exfalso
            apply hne
            rw [h1, hu]
            simp only [Function.update_noteq h23, hp]
        · left
          rw [h1, hu]
          split <;> (simp only; rw [hn]; exact hnf)
      rcases sn_write_cases s s1 d hd hw with ⟨_, h1⟩ | ⟨_, c, _, h1⟩
      · exact key _ _ (by rfl) (by rfl) h1
      · exact key _ _ (by rfl) (by rfl) h1
    rcases hn1 with hn1 | hn1
    · rcases sn_write_follow s s1 d hd hw hn1 with h1 | ⟨_, h2, _⟩
      · exact h1
      · exact absurd h2 hne
    · exact hn1
  · intro s d hd hnf hcase
    have h23 : (2 : Fin 4) ≠ 3 := by decide
    have key : ∀ t : sound_struct, t.noise_frequency = 3 → ¬ (128 ≤ d ∧ d / 16 % 2 = 1) →
        (sn_write_update t d 2).noise_frequency = 3 ∧
          (sn_write_update t d 2).period 3 = (sn_write_update t d 2).period 2 := by
      intro t hn hv
      rcases sn_write_update_cases t d 2 hd with ⟨h1, h2, _⟩ | ⟨h1, _⟩ | ⟨_, np, _, hu⟩
      · exact absurd ⟨h1, h2⟩ hv
      · exact absurd h1 h23
      · rw [hu]
        simp only [hn, and_self, if_true, Function.update_same, Function.update_noteq h23]
    rcases hcase with ⟨h1, h2, h3⟩ | ⟨h1, h2⟩
    · have hch : (⟨d / 32 % 4, Nat.mod_lt _ (by norm_num)⟩ : Fin 4) = 2 := by
        apply Fin.ext; simp only; omega
      refine ⟨_, sn_write_latch s d h1 hd, ?_⟩
      rw [hch]
      exact key _ hnf (by omega)
    · exact ⟨_, sn_write_data s d 2 h1 h2, key s hnf (by omega)⟩

/-- Witness for C4: `sn_example` is reachable with `noise_frequency = 3`. -/
theorem C4_noise_follows_tone2_witness :
    Reachable sn_example ∧ sn_example.noise_frequency = 3 ∧
      sn_example.period 3 = sn_example.period 2 :=
  ⟨reachable_after _, by decide,
    C4_noise_follows_tone2.1 sn_example (reachable_after _) (by decide)⟩

/-! ## Claim C5: snapshot round trip -/

/-- A write or a tick keeps a state inside the snapshot domain. -/
theorem step_snapshot_domain (s : sound_struct) (e : sn_event) (r : sound_struct × List Int)
    (hdom : snapshot_domain s) (hstep : sn_step s e = some r) : snapshot_domain r.1 := by
  obtain ⟨ihv, ihl, ihn⟩ := hdom
  rcases sn_step_cases s e r hstep with ⟨d, hd, hw⟩ | ht
  · have key : ∀ (t : sound_struct) (ch : Fin 4), t.volume = s.volume →
        t.noise_frequency = s.noise_frequency →
        (0 ≤ t.last_channel ∧ t.last_channel < 256) → r.1 = sn_write_update t d ch →
        snapshot_domain r.1 := by
      intro t ch hv hn hl h1
      rcases sn_write_update_cases t d ch hd with ⟨_, _, hu⟩ | ⟨_, hu⟩ | ⟨hch, np, _, hu⟩
      · rw [h1, hu]
        refine ⟨?_, hl, by rw [← hn] at ihn; exact ihn⟩
        intro i
        by_cases hi : i = ch
        · subst hi
          exact ⟨⟨15 - d % 16, by omega⟩, by simp only [Function.update_same]⟩
        · simp only [Function.update_noteq hi, hv]
          exact ihv i
      · rw [h1, hu]
        refine ⟨by rw [← hv] at ihv; exact ihv, hl, ?_⟩
        simp only
        omega
      · rw [h1, hu]
        split
        · exact ⟨by rw [← hv] at ihv; exact ihv, hl, by rw [← hn] at ihn; exact ihn⟩
        · exact ⟨by rw [← hv] at ihv; exact ihv, hl, by rw [← hn] at ihn; exact ihn⟩
    rcases sn_write_cases s r.1 d hd hw with ⟨_, h1⟩ | ⟨_, c, hc, h1⟩
    · exact key _ _ (by rfl) (by rfl) (by simp only; omega) h1
    · exact key _ _ (by rfl) (by rfl) ihl h1
  · rw [ht, sn_tick_state]
    exact ⟨ihv, ihl, ihn⟩

/-- Every state the code can be in is in the snapshot domain: its volumes are entries of
the attenuation table and its `last_channel` and `noise_frequency` are within `0..255`. -/
theorem reachable_typed_snapshot_domain (s : sound_struct) (hs : ReachableTyped s) :
    snapshot_domain s := by
  induction hs with
  | init => exact ⟨fun i => ⟨0xf, rfl⟩, by decide, by decide⟩
  | step s e r _ hstep ih => exact step_snapshot_domain s e r ih hstep
  | restore s pv pp pc po lc nt nf rng r _ hl hn hset _ =>
    unfold sound_set_state at hset
    by_cases h : ∀ i, pv i < 16
    · rw [dif_pos h] at hset
      rw [← Option.some.inj hset]
      exact ⟨fun i => ⟨⟨pv i, h i⟩, rfl⟩, ⟨by simp only; omega, by simp only; omega⟩,
        ⟨by simp only; omega, by simp only; omega⟩⟩
    · rw [dif_neg h] at hset
      exact absurd hset (by simp)

/-- Every state reachable by writes and ticks alone is a state the code can be in. -/
theorem reachable_typed_of_reachable (s : sound_struct) (hs : Reachable s) :
    ReachableTyped s := by
  induction hs with
  | init => exact ReachableTyped.init
  | step s e r _ hstep ih => exact ReachableTyped.step s e r ih hstep

/-- The round trip through `sound_get_state` and `sound_set_state` on a state of the
snapshot domain: both calls succeed and the restored engine is the exported one. -/
theorem snapshot_roundtrip_of_domain (s : sound_struct) (hd : snapshot_domain s) :
    ∃ st r, sound_get_state s = some st ∧
      sound_set_state sound_create st.p_volumes st.p_periods st.p_counters st.p_outputs
        st.last_channel st.noise_type st.noise_frequency st.noise_rng = some r ∧
      (r.counter = s.counter ∧ r.output = s.output ∧ r.volume = s.volume ∧
        r.period = s.period ∧ r.last_channel = s.last_channel ∧
        r.noise_type = s.noise_type ∧ r.noise_frequency = s.noise_frequency ∧
        r.noise_rng = s.noise_rng) ∧
      ∀ evs, sn_run r evs = sn_run s evs := by
  obtain ⟨hv, hl, hn⟩ := hd
  obtain ⟨k0, h0⟩ := inverse_volume_lookup_total _ (hv 0)
  obtain ⟨k1, h1⟩ := inverse_volume_lookup_total _ (hv 1)
  obtain ⟨k2, h2⟩ := inverse_volume_lookup_total _ (hv 2)
  obtain ⟨k3, h3⟩ := inverse_volume_lookup_total _ (hv 3)
  obtain ⟨b0, e0⟩ := inverse_volume_lookup_some _ _ h0
  obtain ⟨b1, e1⟩ := inverse_volume_lookup_some _ _ h1
  obtain ⟨b2, e2⟩ := inverse_volume_lookup_some _ _ h2
  obtain ⟨b3, e3⟩ := inverse_volume_lookup_some _ _ h3
  have hget : sound_get_state s = some
      { p_volumes := fun i =>
          if i = 0 then k0 else if i = 1 then k1 else if i = 2 then k2 else k3
        p_periods := s.period
        p_counters := s.counter
        p_outputs := s.output
        last_channel := to_uint8 s.last_channel
        noise_type := s.noise_type
        noise_frequency := to_uint8 s.noise_frequency
        noise_rng := s.noise_rng } := by
    simp only [sound_get_state, h0, h1, h2, h3]
  have hidx : ∀ i : Fin 4,
      (if i = 0 then k0 else if i = 1 then k1 else if i = 2 then k2 else k3) < 16 := by
    intro i
    fin_cases i <;> simp <;> assumption
  have hvol : (fun i : Fin 4 => volumes
      ⟨if i = 0 then k0 else if i = 1 then k1 else if i = 2 then k2 else k3, hidx i⟩)
      = s.volume := by
    funext i
    fin_cases i
    · simpa using e0
    · simpa using e1
    · simpa using e2
    · simpa using e3
  have hlc : ((to_uint8 s.last_channel : Nat) : Int) = s.last_channel := by
    unfold to_uint8; omega
  have hnf : ((to_uint8 s.noise_frequency : Nat) : Int) = s.noise_frequency := by
    unfold to_uint8; omega
  have hset : sound_set_state sound_create
      (fun i => if i = 0 then k0 else if i = 1 then k1 else if i = 2 then k2 else k3)
      s.period s.counter s.output (to_uint8 s.last_channel) s.noise_type
      (to_uint8 s.noise_frequency) s.noise_rng = some s := by
    unfold sound_set_state
    rw [dif_pos hidx]
    simp only [hvol, hlc, hnf]
  refine ⟨_, s, hget, hset, ⟨rfl, rfl, rfl, rfl, rfl, rfl, rfl, rfl⟩, fun _ => rfl⟩

/-- C5. Snapshot round trip. Every state the code can be in (reachable from power-on by
register writes, ticks and `sound_set_state` calls; in particular every state reachable by
writes and ticks alone) has each channel's volume in the attenuation table, and for every
such state `s`, `sound_get_state` succeeds, `sound_set_state` of the exported values on a
freshly created engine succeeds, and the restored engine equals `s` in all of `counter`,
`output`, `volume`, `period`, `last_channel`, `noise_type`, `noise_frequency` and
`noise_rng`; hence every subsequent sequence of writes and ticks gives the same samples
(and states) from both. The same holds of every value of the struct whose volumes are
table entries and whose `last_channel` and `noise_frequency` are within `0..255`, the
only values the code stores in these two fields. -/
theorem C5_snapshot_roundtrip :
    (∀ s, Reachable s → ReachableTyped s) ∧
    (∀ s, ReachableTyped s →
      (∀ i, ∃ j, s.volume i = volumes j) ∧
      ∃ st r, sound_get_state s = some st ∧
        sound_set_state sound_create st.p_volumes st.p_periods st.p_counters st.p_outputs
          st.last_channel st.noise_type st.noise_frequency st.noise_rng = some r ∧
        (r.counter = s.counter ∧ r.output = s.output ∧ r.volume = s.volume ∧
          r.period = s.period ∧ r.last_channel = s.last_channel ∧
          r.noise_type = s.noise_type ∧ r.noise_frequency = s.noise_frequency ∧
          r.noise_rng = s.noise_rng) ∧
        ∀ evs, sn_run r evs = sn_run s evs) ∧
    (∀ s, snapshot_domain s →
      ∃ st r, sound_get_state s = some st ∧
        sound_set_state sound_create st.p_volumes st.p_periods st.p_counters st.p_outputs
          st.last_channel st.noise_type st.noise_frequency st.noise_rng = some r ∧
        (r.counter = s.counter ∧ r.output = s.output ∧ r.volume = s.volume ∧
          r.period = s.period ∧ r.last_channel = s.last_channel ∧
          r.noise_type = s.noise_type ∧ r.noise_frequency = s.noise_frequency ∧
          r.noise_rng = s.noise_rng) ∧
        ∀ evs, sn_run r evs = sn_run s evs) :=
  ⟨reachable_typed_of_reachable,
    fun s hs => ⟨(reachable_typed_snapshot_domain s hs).1,
      snapshot_roundtrip_of_domain s (reachable_typed_snapshot_domain s hs)⟩,
    snapshot_roundtrip_of_domain⟩

/-- Witness for C5: the round trip at the reachable state `sn_example`. -/
theorem C5_snapshot_roundtrip_witness :
    ReachableTyped sn_example ∧
      ∃ st r, sound_get_state sn_example = some st ∧
        sound_set_state sound_create st.p_volumes st.p_periods st.p_counters st.p_outputs
          st.last_channel st.noise_type st.noise_frequency st.noise_rng = some r ∧
        r.last_channel = sn_example.last_channel ∧ r.volume = sn_example.volume :=
  ⟨C5_snapshot_roundtrip.1 sn_example (reachable_after _), by
    obtain ⟨_, st, r, h1, h2, h3, _⟩ :=
      C5_snapshot_roundtrip.2.1 sn_example
        (C5_snapshot_roundtrip.1 sn_example (reachable_after _))
    exact ⟨st, r, h1, h2, h3.2.2.2.2.1, h3.2.2.1⟩⟩

/-! ## Claim C6: the first toggle after power-on -/

/-- C6 (amended). For every `p` in `[2, 1023]` and tone channel `c`: on the power-on state,
after the latch byte and the data byte that write `p` to channel `c`, the first `p` ticks
do not toggle `output[c]` (the counter, 0 at power-on, wraps to 1023 and is `1024 - p`
after them); the first toggle is on tick 1024, which reloads the counter with `p`; and
from then on (after `1024 + k * p` ticks, any `k`) every `p` ticks toggle `output[c]`
exactly once. -/
theorem C6_first_toggle_after_power_on (c : Fin 4) (hc : c.val < 3) (p : Nat) (hp : 2 ≤ p)
    (hp2 : p ≤ 1023) :
    ∃ s1 s2, sound_sn_write sound_create (0x80 ||| (c.val <<< 5) ||| (p &&& 0x0F)) = some s1 ∧
      sound_sn_write s1 ((p >>> 4) &&& 0x3F) = some s2 ∧
      output_toggles s2 c p = 0 ∧ (sn_ticks s2 p).counter c = 1024 - p ∧
      output_toggles s2 c 1023 = 0 ∧ output_toggles s2 c 1024 = 1 ∧
      (sn_ticks s2 1024).counter c = p ∧
      ∀ k, output_toggles (sn_ticks s2 (1024 + k * p)) c p = 1 := by
  obtain ⟨s1, s2, h1, h2, hper⟩ := tone_latch_data_write sound_create c hc p (by omega)
  have hb := tone_bytes c p
  have hw1 := sn_write_counter_output sound_create s1 _ (by rw [hb.1]; omega) h1
  have hw2 := sn_write_counter_output s1 s2 _ (by rw [hb.2]; omega) h2
  have h0 : s2.counter c = 0 := by rw [hw2.1, hw1.1]; rfl
  have ho : s2.output c = -1 := by rw [hw2.2, hw1.2]; rfl
  obtain ⟨a1, _, a3⟩ := ticks_from_zero c s2 h0 p (by omega) hp2
  obtain ⟨b1, b2, b3⟩ := ticks_from_zero c s2 h0 1023 (by omega) (by omega)
  obtain ⟨e1, e2⟩ := tick_expiry c (sn_ticks s2 1023) (by rw [b1])
  have key := ticks_after_first_expiry c s2 p hp hp2 h0 hper ho
  refine ⟨s1, s2, h1, h2, a3, a1, b3, ?_, ?_, ?_⟩
  · rw [show 1024 = 1023 + 1 from rfl, output_toggles_add, b3]
    simp only [output_toggles, e2, b2, ho]
    decide
  · have := (key 0).1
    rw [Nat.zero_mul, Nat.add_zero] at this
    exact this
  · intro k
    have hper1 : (sn_ticks s2 (1024 + k * p)).period c = p := by
      rw [(sn_ticks_period _ s2).1, hper]
    exact (ticks_half_period c _ p hp hp2 (key k).1 hper1 (key k).2).2.2.1

/-- Witness for C6 (amended): channel 0 and period 2. -/
theorem C6_first_toggle_after_power_on_witness :
    (0 : Fin 4).val < 3 ∧ 2 ≤ 2 ∧ 2 ≤ 1023 ∧
      ∃ s1 s2, sound_sn_write sound_create (0x80 ||| (0 <<< 5) ||| (2 &&& 0x0F)) = some s1 ∧
        sound_sn_write s1 ((2 >>> 4) &&& 0x3F) = some s2 ∧
        output_toggles s2 0 1024 = 1 ∧ (sn_ticks s2 1024).counter 0 = 2 := by
  refine ⟨by decide, by decide, by decide, ?_⟩
  obtain ⟨s1, s2, h1, h2, _, _, _, h3, h4, _⟩ :=
    C6_first_toggle_after_power_on 0 (by decide) 2 (by decide) (by decide)
  exact ⟨s1, s2, h1, h2, h3, h4⟩

/-- C6, as stated, fails: on the power-on state, after period 2 is written to channel 0
with a latch byte and a data byte, clocking 2 ticks toggles `output[0]` zero times, not
once (the counter goes 0, 1023, 1022; the stored and the emitted polarity stay `-1`). -/
theorem C6_counterexample :
    ∃ s1 s2, sound_sn_write sound_create (0x80 ||| (0 <<< 5) ||| (2 &&& 0x0F)) = some s1 ∧
      sound_sn_write s1 ((2 >>> 4) &&& 0x3F) = some s2 ∧ s2.period 0 = 2 ∧
      output_toggles s2 0 2 = 0 ∧ output_toggles s2 0 2 ≠ 1 ∧
      (sn_ticks s2 2).counter 0 = 1022 ∧ (sn_ticks s2 2).output 0 = -1 ∧
      sn_tick_polarity s2 0 = -1 ∧ sn_tick_polarity (sn_ticks s2 1) 0 = -1 := by
  refine ⟨_, _, rfl, rfl, by decide, by decide, by decide, by decide, by decide, by decide,
    by decide⟩

/-! ## Claims C7 and C8: a period of 1 -/

/-- C7. Period 1 holds the emitted output at `+1`: for a tone channel `c` in a state with
`period[c] = 1` and `counter[c] = 1`, and every number `n` of further ticks without a
write, on each of the `n` ticks (tick `k + 1` for `k < n`, which starts in the state after
`k` ticks) the polarity emitted by channel `c` is `+1` and its contribution to the sample
is `+volume[c]`. -/
theorem C7_period_one_holds_high (s : sound_struct) (c : Fin 4) (hc : c.val < 3)
    (hp : s.period c = 1) (hk : s.counter c = 1) (n : Nat) :
    ∀ k, k < n → sn_tick_polarity (sn_ticks s k) c = 1 ∧
      sn_tick_component (sn_ticks s k) c = s.volume c := by
  intro k _
  have hc3 : c ≠ 3 := by
    intro h; rw [h] at hc; exact absurd hc (by decide)
  obtain ⟨h1, h2, h3⟩ := ticks_period_one c s hp hk k
  have hd : dec_0x3ff ((sn_ticks s k).counter c) = 0 := by rw [h1]; rfl
  have hpol : sn_tick_polarity (sn_ticks s k) c = 1 := by
    rw [sn_tick_polarity_tone _ c hc3, hd, h2]
    rfl
  refine ⟨hpol, ?_⟩
  rw [sn_tick_component_eq, hpol, h3]
  rfl

/-- Witness for C7: channel 0 of `period_one_example`, five ticks. -/
theorem C7_period_one_holds_high_witness :
    (0 : Fin 4).val < 3 ∧ period_one_example.period 0 = 1 ∧ period_one_example.counter 0 = 1 ∧
      4 < 5 ∧ sn_tick_component (sn_ticks period_one_example 4) 0 = 8191 :=
  ⟨by decide, by decide, by decide, by decide,
    (C7_period_one_holds_high period_one_example 0 (by decide) (by decide) (by decide) 5
      4 (by decide)).2⟩

/-- C8 (amended). When the counter of a tone channel `c` reaches zero on a tick and the
value reloaded from `period[c]` is 1, the polarity emitted on that tick is `+1` and the
contribution is `+volume[c]`, whatever the prior `output[c]` in `{+1, -1}`; the stored
`output[c]` is toggled as on every expiry, and the counter is 1 again. -/
theorem C8_period_one_emits_high (s : sound_struct) (c : Fin 4) (hc : c.val < 3)
    (hz : dec_0x3ff (s.counter c) = 0) (hp : s.period c = 1)
    (ho : s.output c = 1 ∨ s.output c = -1) :
    sn_tick_polarity s c = 1 ∧ sn_tick_component s c = s.volume c ∧
      (sn_tick s).1.output c = -(s.output c) ∧ (sn_tick s).1.counter c = 1 := by
  have hc3 : c ≠ 3 := by
    intro h; rw [h] at hc; exact absurd hc (by decide)
  have hpol : sn_tick_polarity s c = 1 := by
    rw [sn_tick_polarity_tone _ c hc3, hz, hp]
    rfl
  have hneg : to_int8 (-(s.output c)) = -(s.output c) := by
    rcases ho with h | h <;> rw [h] <;> decide
  refine ⟨hpol, ?_, ?_, ?_⟩
  · rw [sn_tick_component_eq, hpol]
    rfl
  · rw [sn_tick_output, next_output, hz, hneg]
    rfl
  · rw [sn_tick_counter, next_counter, hz, hp]
    rfl

/-- Witness for C8 (amended): channel 0 of `period_one_example`. -/
theorem C8_period_one_emits_high_witness :
    (0 : Fin 4).val < 3 ∧ dec_0x3ff (period_one_example.counter 0) = 0 ∧
      period_one_example.period 0 = 1 ∧ period_one_example.output 0 = 1 ∧
      sn_tick_polarity period_one_example 0 = 1 ∧
      (sn_tick period_one_example).1.output 0 = -(period_one_example.output 0) := by
  have h := C8_period_one_emits_high period_one_example 0 (by decide) (by decide) (by decide)
    (Or.inl (by decide))
  exact ⟨by decide, by decide, by decide, by decide, h.1, h.2.2.1⟩

/-- C8, as stated, fails: in `period_one_example` the counter of channel 0 reaches zero on
the tick, the value reloaded is 1 and the prior `output[0]` is `+1`, and the stored
`output[0]` after the tick is `-1`, not `+1`. Such a state is reachable: period 1 written
to channel 0 at power-on, then 1024 ticks. -/
theorem C8_counterexample :
    (dec_0x3ff (period_one_example.counter 0) = 0 ∧ period_one_example.period 0 = 1 ∧
      period_one_example.output 0 = 1 ∧ (sn_tick period_one_example).1.counter 0 = 1 ∧
      (sn_tick period_one_example).1.output 0 = -1 ∧
      (sn_tick period_one_example).1.output 0 ≠ 1) ∧
    (∃ s, Reachable s ∧ s.counter 0 = 1 ∧ s.period 0 = 1 ∧ s.output 0 = 1 ∧
      (sn_tick s).1.output 0 = -1) := by
  refine ⟨⟨by decide, by decide, by decide, by decide, by decide, by decide⟩, ?_⟩
  exact period_one_reachable (sn_after [sn_event.write 0x81, sn_event.write 0x00])
    (reachable_after _) (by decide) (by decide) (by decide)

/-! ## Claim C9: counters and periods stay within ten bits -/

/-- C9 (amended). In every state reachable from power-on by register writes and ticks,
`counter[i] <= 1023` and `period[i] <= 1023` for every channel. A tick replaces the counter
by `(counter - 1) mod 1024` when that value is not zero, and by `period[i]` when it is
zero; so a counter of 0 wraps to 1023. -/
theorem C9_ten_bit_range :
    (∀ s, Reachable s → ∀ i, s.counter i ≤ 1023 ∧ s.period i ≤ 1023) ∧
    (∀ (s : sound_struct) (i : Fin 4),
      (((s.counter i : Int) - 1) % 1024 ≠ 0 →
        (((sn_tick s).1.counter i : Nat) : Int) = ((s.counter i : Int) - 1) % 1024) ∧
      (((s.counter i : Int) - 1) % 1024 = 0 → (sn_tick s).1.counter i = s.period i)) ∧
    (∀ (s : sound_struct) (i : Fin 4), s.counter i = 0 → (sn_tick s).1.counter i = 1023) := by
  refine ⟨reachable_ten_bits, ?_, ?_⟩
  · intro s i
    rw [sn_tick_counter, next_counter]
    constructor
    · intro h
      have hd : ¬ (dec_0x3ff (s.counter i) = 0) := by unfold dec_0x3ff; omega
      rw [if_neg hd]
      unfold dec_0x3ff
      omega
    · intro h
      have hd : dec_0x3ff (s.counter i) = 0 := by unfold dec_0x3ff; omega
      rw [if_pos hd]
  · intro s i h
    rw [sn_tick_counter, next_counter, h]
    rfl

/-- Witness for C9 (amended): the reachable state `sn_example` and its successor under a tick. -/
theorem C9_ten_bit_range_witness :
    Reachable sn_example ∧ (sn_example.counter 0 ≤ 1023 ∧ sn_example.period 0 ≤ 1023) ∧
      sound_create.counter 0 = 0 ∧ (sn_tick sound_create).1.counter 0 = 1023 :=
  ⟨reachable_after _, C9_ten_bit_range.1 sn_example (reachable_after _) 0, rfl,
    C9_ten_bit_range.2.2 sound_create 0 rfl⟩

/-- C9, as stated, fails in its tick clause: 1023 ticks after power-on the noise counter is
1, so `(counter - 1) mod 1024` is 0, and the next tick leaves `counter[3] = 0x40`, the
value reloaded from `period[3]`, not 0. -/
theorem C9_counterexample :
    Reachable (sn_ticks sound_create 1023) ∧ (sn_ticks sound_create 1023).counter 3 = 1 ∧
      ((((sn_ticks sound_create 1023).counter 3 : Nat) : Int) - 1) % 1024 = 0 ∧
      (sn_tick (sn_ticks sound_create 1023)).1.counter 3 = 0x40 ∧
      ((((sn_tick (sn_ticks sound_create 1023)).1.counter 3 : Nat) : Int) ≠
        ((((sn_ticks sound_create 1023).counter 3 : Nat) : Int) - 1) % 1024) := by
  obtain ⟨a1, _, _⟩ := ticks_from_zero 3 sound_create rfl 1023 (by decide) (by decide)
  have b1 := (tick_expiry 3 _ a1).1
  rw [(sn_ticks_period 1023 sound_create).1] at b1
  have hp : sound_create.period 3 = 0x40 := rfl
  rw [hp] at b1
  refine ⟨reachable_ticks 1023 _ Reachable.init, a1, by rw [a1]; decide, b1, ?_⟩
  rw [b1, a1]
  decide

/-! ## Claim C10: when the noise register is non-zero -/

/-- C10 (amended). The noise register is 0 at power-on; from then on, in the states
reachable by register writes and ticks: a write or a tick that changes `noise_rng` leaves
it non-zero and one that finds it non-zero leaves it non-zero; every advance of the shift
register gives a non-zero value; and once `noise_rng` is non-zero it is non-zero after
every further sequence of writes and ticks. -/
theorem C10_noise_rng_nonzero_once_changed :
    (∀ (s : sound_struct) (e : sn_event) (r : sound_struct × List Int), Reachable s →
      sn_step s e = some r →
      (s.noise_rng ≠ 0 → r.1.noise_rng ≠ 0) ∧
        (r.1.noise_rng ≠ s.noise_rng → r.1.noise_rng ≠ 0)) ∧
    (∀ s, Reachable s → noise_rng_advance s.noise_type s.noise_rng ≠ 0) ∧
    (∀ (s : sound_struct) (evs : List sn_event) (r : sound_struct × List Int), Reachable s →
      s.noise_rng ≠ 0 → sn_run s evs = some r → r.1.noise_rng ≠ 0) := by
  have hstep : ∀ (s : sound_struct) (e : sn_event) (r : sound_struct × List Int),
      Reachable s → sn_step s e = some r →
      (s.noise_rng ≠ 0 → r.1.noise_rng ≠ 0) ∧
        (r.1.noise_rng ≠ s.noise_rng → r.1.noise_rng ≠ 0) := by
    intro s e r hs h
    rcases step_noise_rng s hs e r h with h1 | h1
    · exact ⟨fun h0 => by rw [h1]; exact h0, fun h0 => absurd h1 h0⟩
    · exact ⟨fun _ => h1, fun _ => h1⟩
  refine ⟨hstep, fun s hs => noise_rng_advance_ne_zero _ _ (reachable_noise_seeded s hs), ?_⟩
  intro s evs
  induction evs generalizing s with
  | nil =>
    intro r _ h0 h
    simp only [sn_run] at h
    rw [← Option.some.inj h]
    exact h0
  | cons e es ih =>
    intro r hs h0 h
    simp only [sn_run] at h
    cases h1 : sn_step s e with
    | none => rw [h1] at h; exact absurd h (by simp)
    | some r1 =>
      rw [h1] at h
      simp only at h
      cases h2 : sn_run r1.1 es with
      | none => rw [h2] at h; exact absurd h (by simp)
      | some r2 =>
        rw [h2] at h
        simp only at h
        rw [← Option.some.inj h]
        exact ih r1.1 r2 (Reachable.step s e r1 hs h1) ((hstep s e r1 hs h1).1 h0) h2

/-- Witness for C10 (amended): the noise write `0xE0` at power-on changes `noise_rng` from
0, and the reachable state `sn_example`, whose `noise_rng` is `1 << 14`, keeps a non-zero
register over a tick. -/
theorem C10_noise_rng_nonzero_once_changed_witness :
    Reachable sound_create ∧
      sn_step sound_create (sn_event.write 0xE0) =
        some (sn_after [sn_event.write 0xE0], []) ∧
      (sn_after [sn_event.write 0xE0]).noise_rng ≠ sound_create.noise_rng ∧
      (sn_after [sn_event.write 0xE0]).noise_rng ≠ 0 ∧
      Reachable sn_example ∧ sn_example.noise_rng ≠ 0 ∧
      (sn_tick sn_example).1.noise_rng ≠ 0 :=
  ⟨Reachable.init, rfl, by decide,
    (C10_noise_rng_nonzero_once_changed.1 sound_create (sn_event.write 0xE0) _ Reachable.init
      rfl).2 (by decide),
    reachable_after _, by decide,
    C10_noise_rng_nonzero_once_changed.2.2 sn_example [sn_event.tick]
      ((sn_tick sn_example).1, [(sn_tick sn_example).2]) (reachable_after _)
      (by decide) (sn_run_tick sn_example)⟩

/-- C10, as stated, fails: the power-on state is reachable and its `noise_rng` is 0, and it
is still 0 after a tick. -/
theorem C10_counterexample :
    Reachable sound_create ∧ sound_create.noise_rng = 0 ∧
      Reachable (sn_tick sound_create).1 ∧ (sn_tick sound_create).1.noise_rng = 0 :=
  ⟨Reachable.init, rfl, reachable_tick _ Reachable.init, by decide⟩

/-! ## Claim C11: the range of the noise register -/

set_option maxRecDepth 100000 in
theorem and_2_small : ∀ y < 4, (y &&& 2) >>> 1 = y / 2 % 2 := by decide

theorem and_2_shift (x : Nat) : (x &&& 2) >>> 1 = x / 2 % 2 := by
  rw [and_mod_two_pow_left x 2 2 (by norm_num), and_2_small (x % 2 ^ 2) (Nat.mod_lt _ (by norm_num))]
  omega

theorem xor_bits : ∀ a < 2, ∀ b < 2, a ^^^ b = (a + b) % 2 := by decide

/-- The white-noise advance in arithmetic, for a register below `1 << 15`: the feedback bit
`bit0 XOR bit1` enters at bit 14 of the register shifted right by one. -/
theorem white_advance_eq (noise_rng : Nat) (h : noise_rng < 32768) :
    (noise_rng >>> 1) ||| ((noise_rng &&& 1 ^^^ (noise_rng &&& 2) >>> 1) <<< 14) =
      16384 * ((noise_rng % 2 + noise_rng / 2 % 2) % 2) + noise_rng / 2 := by
  have hb : noise_rng &&& 1 ^^^ (noise_rng &&& 2) >>> 1 = (noise_rng % 2 + noise_rng / 2 % 2) % 2 := by
    rw [Nat.and_one_is_mod, and_2_shift]
    exact xor_bits _ (Nat.mod_lt _ (by norm_num)) _ (Nat.mod_lt _ (by norm_num))
  have hlt : noise_rng / 2 < 2 ^ 14 := by norm_num; omega
  rw [hb, Nat.shiftRight_eq_div_pow, Nat.shiftLeft_eq, Nat.or_comm, Nat.mul_comm]
  exact (@Nat.mul_add_lt_is_or 14 (noise_rng / 2 ^ 1) (by simpa using hlt) _).symm

/-- An advance keeps the noise register below `1 << 15`. -/
theorem noise_rng_advance_lt (noise_type : Int) (noise_rng : Nat) (h : noise_rng < 32768) :
    noise_rng_advance noise_type noise_rng < 32768 := by
  unfold noise_rng_advance
  by_cases ht : noise_type = 0
  · rw [if_pos ht]
    simp only
    split
    · decide
    · rw [Nat.shiftRight_eq_div_pow]; omega
  · rw [if_neg ht]
    simp only
    rw [white_advance_eq noise_rng h]
    omega

/-- In every reachable state the noise register is below `1 << 15`. -/
theorem reachable_noise_15_bits (s : sound_struct) (hs : Reachable s) : s.noise_rng < 32768 := by
  induction hs with
  | init => decide
  | step s e r _ hstep ih =>
    rcases sn_step_cases s e r hstep with ⟨d, hd, hw⟩ | ht
    · have key : ∀ (t : sound_struct) (ch : Fin 4), t.noise_rng = s.noise_rng →
          r.1 = sn_write_update t d ch → r.1.noise_rng < 32768 := by
        intro t ch h1 h3
        rcases sn_write_update_cases t d ch hd with ⟨_, _, hu⟩ | ⟨_, hu⟩ | ⟨_, np, _, hu⟩
        · rw [h3, hu]; simp only; rw [h1]; exact ih
        · rw [h3, hu]; simp only; exact (by decide : (16384 : Nat) < 32768)
        · rw [h3, hu]; split <;> (simp only; rw [h1]; exact ih)
      rcases sn_write_cases s r.1 d hd hw with ⟨_, h1⟩ | ⟨_, c, _, h1⟩
      · exact key _ _ (by rfl) h1
      · exact key _ _ (by rfl) h1
    · rw [ht, sn_tick_state]
      simp only [next_noise_rng]
      split
      · exact noise_rng_advance_lt _ _ ih
      · exact ih

/-- A non-zero noise register stays non-zero along every run from a reachable state. -/
theorem run_noise_rng_ne_zero (evs : List sn_event) :
    ∀ (s : sound_struct) (r : sound_struct × List Int), Reachable s → s.noise_rng ≠ 0 →
      sn_run s evs = some r → r.1.noise_rng ≠ 0 := by
  induction evs with
  | nil =>
    intro s r _ h0 h
    simp only [sn_run] at h
    rw [← Option.some.inj h]
    exact h0
  | cons e es ih =>
    intro s r hs h0 h
    simp only [sn_run] at h
    cases h1 : sn_step s e with
    | none => rw [h1] at h; exact absurd h (by simp)
    | some r1 =>
      rw [h1] at h
      simp only at h
      cases h2 : sn_run r1.1 es with
      | none => rw [h2] at h; exact absurd h (by simp)
      | some r2 =>
        rw [h2] at h
        simp only at h
        rw [← Option.some.inj h]
        refine ih r1.1 r2 (Reachable.step s e r1 hs h1) ?_ h2
        rcases step_noise_rng s hs e r1 h1 with h3 | h3
        · rw [h3]; exact h0
        · exact h3

/-- The noise register after a tick that advances the shift register. -/
theorem sn_tick_noise_rng_advance (s : sound_struct) (h : lfsr_advances s) :
    (sn_tick s).1.noise_rng = noise_rng_advance s.noise_type s.noise_rng := by
  rw [sn_tick_state]
  show next_noise_rng s 3 = _
  unfold next_noise_rng
  rw [if_pos ⟨h.1, rfl, h.2⟩]

/-- A trigger event from a reachable state leaves a non-zero noise register. -/
theorem noise_trigger_ne_zero (s : sound_struct) (hs : Reachable s) (e : sn_event)
    (r : sound_struct × List Int) (ht : noise_trigger s e) (hstep : sn_step s e = some r) :
    r.1.noise_rng ≠ 0 := by
  cases e with
  | write data =>
    simp only [sn_step, Option.map_eq_some'] at hstep
    obtain ⟨s1, h1, h2⟩ := hstep
    rw [← h2]
    simp only
    have hd : data.val < 256 := data.isLt
    have h3 : (2 : Fin 4) ≠ 3 := by decide
    simp only [noise_trigger, noise_write_byte] at ht
    have key : ∀ t : sound_struct, (sn_write_update t data.val 3).noise_rng ≠ 0 := by
      intro t
      rcases sn_write_update_cases t data.val 3 hd with ⟨_, _, _⟩ | ⟨_, hu⟩ | ⟨hch, _⟩
      · omega
      · rw [hu]; simp only; exact (by decide : (16384 : Nat) ≠ 0)
      · exact absurd rfl hch
    rcases ht with ⟨ha, hb, _⟩ | ⟨ha, hb⟩
    · rw [sn_write_latch s data.val ha hd] at h1
      have hch : (⟨data.val / 32 % 4, Nat.mod_lt _ (by norm_num)⟩ : Fin 4) = 3 := by
        apply Fin.ext; simp only; omega
      rw [hch] at h1
      rw [← Option.some.inj h1]
      exact key _
    · rw [sn_write_data s data.val 3 ha hb] at h1
      rw [← Option.some.inj h1]
      exact key _
  | tick =>
    simp only [sn_step] at hstep
    rw [← Option.some.inj hstep]
    simp only [noise_trigger] at ht
    rw [sn_tick_noise_rng_advance s ht]
    exact noise_rng_advance_ne_zero _ _ (reachable_noise_seeded s hs)

/-- C11. From power-on, under any sequence of register writes and ticks: white noise is
only found with a non-zero register; a tick that advances the shift register leaves
`noise_rng` non-zero, equal to `1 << 14` when it was still 0; `noise_rng` is always below
`1 << 15`; and after any noise-control write or advance of the shift register (the first
one in particular), `noise_rng` is in `1..32767` in every later state. -/
theorem C11_noise_rng_range :
    (∀ s, Reachable s → s.noise_rng = 0 → s.noise_type = 0) ∧
    (∀ s, Reachable s → lfsr_advances s →
      (sn_tick s).1.noise_rng = noise_rng_advance s.noise_type s.noise_rng ∧
      (sn_tick s).1.noise_rng ≠ 0 ∧
      (s.noise_rng = 0 → (sn_tick s).1.noise_rng = 1 <<< 14)) ∧
    (∀ s, Reachable s → s.noise_rng ≤ 32767) ∧
    (∀ (s : sound_struct) (e : sn_event) (r : sound_struct × List Int) (evs : List sn_event)
      (r2 : sound_struct × List Int), Reachable s → noise_trigger s e →
      sn_step s e = some r → sn_run r.1 evs = some r2 →
      1 ≤ r2.1.noise_rng ∧ r2.1.noise_rng ≤ 32767) := by
  refine ⟨reachable_noise_seeded, ?_, ?_, ?_⟩
  · intro s hs ha
    have h1 := sn_tick_noise_rng_advance s ha
    refine ⟨h1, ?_, ?_⟩
    · rw [h1]; exact noise_rng_advance_ne_zero _ _ (reachable_noise_seeded s hs)
    · intro h0
      rw [h1, h0, reachable_noise_seeded s hs h0]
      rfl
  · intro s hs
    have := reachable_noise_15_bits s hs
    omega
  · intro s e r evs r2 hs ht hstep hrun
    have hr : Reachable r.1 := Reachable.step s e r hs hstep
    have h1 := run_noise_rng_ne_zero evs r.1 r2 hr (noise_trigger_ne_zero s hs e r ht hstep) hrun
    have h2 := reachable_noise_15_bits r2.1 (reachable_run evs r.1 r2 hr hrun)
    omega

/-- Witness for C11: the noise write `0xE0` at power-on, followed by a tick. -/
theorem C11_noise_rng_range_witness :
    Reachable sound_create ∧ noise_trigger sound_create (sn_event.write 0xE0) ∧
      1 ≤ (sn_tick (sn_after [sn_event.write 0xE0])).1.noise_rng ∧
      (sn_tick (sn_after [sn_event.write 0xE0])).1.noise_rng ≤ 32767 :=
  ⟨Reachable.init, Or.inl (by decide),
    C11_noise_rng_range.2.2.2 sound_create (sn_event.write 0xE0)
      (sn_after [sn_event.write 0xE0], []) [sn_event.tick]
      ((sn_tick (sn_after [sn_event.write 0xE0])).1,
        [(sn_tick (sn_after [sn_event.write 0xE0])).2])
      Reachable.init (Or.inl (by decide)) rfl (sn_run_tick _)⟩

/-! ## Claims C12 and C13: the sample of a tick -/

/-- The sample of a tick is the `int16_t` accumulation of the four components. -/
theorem sn_tick_sample (s : sound_struct) :
    (sn_tick s).2 =
      to_int16 (to_int16 (to_int16 (to_int16 (0 + sn_tick_component s 0) +
        sn_tick_component s 1) + sn_tick_component s 2) + sn_tick_component s 3) := by
  have h10 : ¬ ((1 : Fin 4) = 0) := by decide
  have h20 : ¬ ((2 : Fin 4) = 0) := by decide
  have h21 : ¬ ((2 : Fin 4) = 1) := by decide
  have h30 : ¬ ((3 : Fin 4) = 0) := by decide
  have h31 : ¬ ((3 : Fin 4) = 1) := by decide
  have h32 : ¬ ((3 : Fin 4) = 2) := by decide
  simp only [sn_tick, sn_tick_component, sn_tick_before, if_true, if_false, h10, h20, h21, h30,
    h31, h32]

/-- The tone channels leave the noise register and the noise type to the noise channel. -/
theorem sn_tick_before_noise (p : sound_struct) :
    (sn_tick_before p 3).noise_rng = p.noise_rng ∧
      (sn_tick_before p 3).noise_type = p.noise_type := by
  have h0 : (0 : Fin 4) ≠ 3 := by decide
  have h1 : (1 : Fin 4) ≠ 3 := by decide
  have h2 : (2 : Fin 4) ≠ 3 := by decide
  have h30 : ¬ ((3 : Fin 4) = 0) := by decide
  have h31 : ¬ ((3 : Fin 4) = 1) := by decide
  have h32 : ¬ ((3 : Fin 4) = 2) := by decide
  simp only [sn_tick_before, if_false, h30, h31, h32, sn_channel_tick_state,
    next_noise_rng_tone _ _ h0, next_noise_rng_tone _ _ h1, next_noise_rng_tone _ _ h2,
    and_self]

/-- The local `noise_rng` after the expiry block of a channel is the stored one. -/
theorem sn_channel_expire_noise_rng (p : sound_struct) (ch : Fin 4) :
    (sn_channel_expire p ch).noise_rng = next_noise_rng p ch := by
  unfold sn_channel_expire next_noise_rng
  by_cases h0 : dec_0x3ff (p.counter ch) = 0
  · simp only [h0, if_true, true_and]
    by_cases h1 : ch = 3 ∧ to_int8 (-(p.output ch)) = 1
    · rw [if_pos h1, if_pos h1]
    · rw [if_neg h1, if_neg h1]
      split <;> rfl
  · simp only [h0, if_false, false_and]

/-- The polarity emitted by the noise channel is bit 0 of the noise register as the tick
leaves it. -/
theorem sn_tick_polarity_noise (s : sound_struct) :
    sn_tick_polarity s 3 = if (sn_tick s).1.noise_rng % 2 = 1 then 1 else -1 := by
  obtain ⟨h1, h2, _, _⟩ := sn_tick_before_tone s 3
  obtain ⟨h3, h4⟩ := sn_tick_before_noise s
  have hn : (sn_tick s).1.noise_rng = next_noise_rng s 3 := by rw [sn_tick_state]
  have hb : next_noise_rng (sn_tick_before s 3) 3 = next_noise_rng s 3 := by
    simp only [next_noise_rng, h1, h2, h3, h4]
  simp only [sn_tick_polarity, sn_channel_polarity, if_true, sn_channel_expire_noise_rng, hb, hn,
    Nat.and_one_is_mod]
  by_cases hbit : next_noise_rng s 3 % 2 = 1
  · rw [if_neg (by omega), if_pos hbit]
  · rw [if_pos (by omega), if_neg hbit]

/-- Negation does not leave `int16_t` except at its least value. -/
theorem to_int16_neg (v : Int) (h1 : -32768 < v) (h2 : v ≤ 32767) : to_int16 (-v) = -v := by
  unfold to_int16
  omega

/-- Every entry of the attenuation table is between 0 and 8191, the entry at index 15. -/
theorem volumes_range : ∀ j : Fin 16, 0 ≤ volumes j ∧ volumes j ≤ 8191 := by decide

/-- C12. The per-tick mix never overflows. Every entry of the attenuation table is between
0 and `volumes[15] = 8191`, and so is every volume of a reachable state. For every state
whose four volumes are between 0 and 8191, each channel contributes `+volume` or `-volume`
to the tick, the `int16_t` sample is the exact integer sum of the four contributions, and
it lies in `[-32764, 32764]`. -/
theorem C12_mix_no_overflow :
    ((∀ j : Fin 16, 0 ≤ volumes j ∧ volumes j ≤ 8191) ∧ volumes 15 = 8191 ∧
      volumes 15 = 32767 / 4) ∧
    (∀ s, Reachable s → ∀ i, 0 ≤ s.volume i ∧ s.volume i ≤ 8191) ∧
    (∀ s : sound_struct, (∀ i, 0 ≤ s.volume i ∧ s.volume i ≤ 8191) →
      (∀ i, sn_tick_component s i = s.volume i ∨ sn_tick_component s i = -(s.volume i)) ∧
      (sn_tick s).2 = sn_tick_component s 0 + sn_tick_component s 1 + sn_tick_component s 2 +
        sn_tick_component s 3 ∧
      -32764 ≤ (sn_tick s).2 ∧ (sn_tick s).2 ≤ 32764) := by
  refine ⟨⟨volumes_range, rfl, rfl⟩, ?_, ?_⟩
  · intro s hs i
    obtain ⟨j, hj⟩ := (reachable_snapshot_domain s hs).1 i
    rw [hj]
    exact volumes_range j
  · intro s hv
    have hc : ∀ i, sn_tick_component s i = s.volume i ∨
        sn_tick_component s i = -(s.volume i) := by
      intro i
      rw [sn_tick_component_eq]
      split
      · right
        exact to_int16_neg _ (by have := hv i; omega) (by have := hv i; omega)
      · left; rfl
    have h0 := hc 0
    have h1 := hc 1
    have h2 := hc 2
    have h3 := hc 3
    have v0 := hv 0
    have v1 := hv 1
    have v2 := hv 2
    have v3 := hv 3
    have hsum : (sn_tick s).2 = sn_tick_component s 0 + sn_tick_component s 1 +
        sn_tick_component s 2 + sn_tick_component s 3 := by
      rw [sn_tick_sample]
      unfold to_int16
      omega
    refine ⟨hc, hsum, ?_, ?_⟩
    · rw [hsum]; omega
    · rw [hsum]; omega

/-- Witness for C12: the tick from the reachable state `sn_example`. -/
theorem C12_mix_no_overflow_witness :
    (∀ i, 0 ≤ sn_example.volume i ∧ sn_example.volume i ≤ 8191) ∧
      -32764 ≤ (sn_tick sn_example).2 ∧ (sn_tick sn_example).2 ≤ 32764 :=
  ⟨C12_mix_no_overflow.2.1 sn_example (reachable_after _),
    (C12_mix_no_overflow.2.2 sn_example
      (C12_mix_no_overflow.2.1 sn_example (reachable_after _))).2.2⟩

/-- C13. For every state, the polarity emitted by the noise channel on a tick is `+1` when
bit 0 of `noise_rng`, taken after the possible advance of that tick, is set and `-1` when
it is clear; its contribution to the sample is `volume[3]` in the first case and the
`int16_t` negation of `volume[3]` in the second, which is `-volume[3]` for every volume
other than `-32768`. The stored flip-flop `output[3]` does not enter. -/
theorem C13_noise_contribution (s : sound_struct) :
    sn_tick_polarity s 3 = (if (sn_tick s).1.noise_rng % 2 = 1 then 1 else -1) ∧
    sn_tick_component s 3 =
      (if (sn_tick s).1.noise_rng % 2 = 1 then s.volume 3 else to_int16 (-(s.volume 3))) ∧
    (-32768 < s.volume 3 → s.volume 3 ≤ 32767 →
      sn_tick_component s 3 =
        if (sn_tick s).1.noise_rng % 2 = 1 then s.volume 3 else -(s.volume 3)) := by
  have hp := sn_tick_polarity_noise s
  have hc : sn_tick_component s 3 =
      (if (sn_tick s).1.noise_rng % 2 = 1 then s.volume 3 else to_int16 (-(s.volume 3))) := by
    rw [sn_tick_component_eq, hp]
    by_cases hbit : (sn_tick s).1.noise_rng % 2 = 1
    · simp only [hbit, if_true]
      rw [if_neg (by decide)]
    · simp only [hbit, if_false, if_true]
  refine ⟨hp, hc, ?_⟩
  intro h1 h2
  rw [hc, to_int16_neg _ h1 h2]

/-- Witness for C13: in the reachable state `sn_example` the register is `1 << 14`, bit 0
is clear and the noise channel contributes `-volume[3]`. -/
theorem C13_noise_contribution_witness :
    (-32768 < sn_example.volume 3 ∧ sn_example.volume 3 ≤ 32767) ∧
      sn_tick_component sn_example 3 =
        if (sn_tick sn_example).1.noise_rng % 2 = 1 then sn_example.volume 3
        else -(sn_example.volume 3) :=
  ⟨by decide, (C13_noise_contribution sn_example).2.2 (by decide) (by decide)⟩

/-! ## Claim C14: the effect of a tick on the noise register -/

/-- The feedback bit of the white-noise advance is `bit0 XOR bit1`. -/
theorem white_feedback_bit (noise_rng : Nat) :
    noise_rng &&& 1 ^^^ (noise_rng &&& 2) >>> 1 = (noise_rng % 2) ^^^ (noise_rng / 2 % 2) := by
  rw [Nat.and_one_is_mod, and_2_shift]

/-- The noise register after a tick that does not advance the shift register. -/
theorem sn_tick_noise_rng_keep (s : sound_struct) (h : ¬ lfsr_advances s) :
    (sn_tick s).1.noise_rng = s.noise_rng := by
  rw [sn_tick_state]
  show next_noise_rng s 3 = _
  unfold next_noise_rng
  rw [if_neg (fun hh => h ⟨hh.1, hh.2.2⟩)]

/-- On `+1` and `-1` the `int8_t` negation is the negation. -/
theorem to_int8_neg_unit (o : Int) (h : o = 1 ∨ o = -1) : to_int8 (-o) = -o := by
  rcases h with h | h <;> rw [h] <;> decide

/-- In every state reachable from power-on by writes and ticks each stored flip-flop is `+1`
or `-1`: a write leaves it alone and a tick keeps or negates it. -/
theorem reachable_output_unit (s : sound_struct) (hs : Reachable s) :
    ∀ i, s.output i = 1 ∨ s.output i = -1 := by
  induction hs with
  | init => intro i; right; rfl
  | step s e r _ hstep ih =>
    rcases sn_step_cases s e r hstep with ⟨d, hd, hw⟩ | ht
    · intro i
      rw [(sn_write_counter_output s r.1 d hd hw).2]
      exact ih i
    · intro i
      rw [ht, sn_tick_output, next_output]
      split
      · rcases ih i with h | h <;> rw [h]
        · right; decide
        · left; decide
      · exact ih i

/-- C14. Effect of one tick on `noise_rng`. On a tick where the noise counter reaches zero
and the noise flip-flop flips to `+1`, the new value is, for periodic noise
(`noise_type = 0`), `noise_rng >> 1`, replaced by `1 << 14` when that is 0, and for white
noise `(noise_rng >> 1) | ((bit0 XOR bit1) << 14)`; on every other tick `noise_rng` is
unchanged. With the flip-flop at `+1` or `-1`, a tick without expiry keeps it, an expiry
negates it, and the expiry advances the register exactly when the flip-flop was `-1`: of
two successive expiries exactly one advances the register. The flip-flop is `+1` or `-1`
in every state reachable from power-on by writes and ticks. -/
theorem C14_noise_rng_tick :
    (∀ s : sound_struct, lfsr_advances s → s.noise_type = 0 →
      (sn_tick s).1.noise_rng =
        if s.noise_rng >>> 1 = 0 then 1 <<< 14 else s.noise_rng >>> 1) ∧
    (∀ s : sound_struct, lfsr_advances s → s.noise_type ≠ 0 →
      (sn_tick s).1.noise_rng =
        (s.noise_rng >>> 1) ||| (((s.noise_rng % 2) ^^^ (s.noise_rng / 2 % 2)) <<< 14)) ∧
    (∀ s : sound_struct, ¬ lfsr_advances s → (sn_tick s).1.noise_rng = s.noise_rng) ∧
    (∀ s : sound_struct, s.output 3 = 1 ∨ s.output 3 = -1 →
      ((sn_tick s).1.output 3 = 1 ∨ (sn_tick s).1.output 3 = -1) ∧
      (dec_0x3ff (s.counter 3) ≠ 0 → (sn_tick s).1.output 3 = s.output 3) ∧
      (dec_0x3ff (s.counter 3) = 0 →
        (sn_tick s).1.output 3 = -(s.output 3) ∧ (lfsr_advances s ↔ s.output 3 = -1))) ∧
    (∀ s t : sound_struct, s.output 3 = 1 ∨ s.output 3 = -1 →
      dec_0x3ff (s.counter 3) = 0 → dec_0x3ff (t.counter 3) = 0 →
      t.output 3 = (sn_tick s).1.output 3 → (lfsr_advances t ↔ ¬ lfsr_advances s)) ∧
    (∀ s, Reachable s → s.output 3 = 1 ∨ s.output 3 = -1) := by
  have hflip : ∀ s : sound_struct, s.output 3 = 1 ∨ s.output 3 = -1 →
      dec_0x3ff (s.counter 3) = 0 →
      (sn_tick s).1.output 3 = -(s.output 3) ∧ (lfsr_advances s ↔ s.output 3 = -1) := by
    intro s ho h0
    have hneg := to_int8_neg_unit _ ho
    refine ⟨by rw [sn_tick_output, next_output, if_pos h0, hneg], ?_⟩
    unfold lfsr_advances
    rw [hneg]
    constructor
    · intro h; omega
    · intro h; exact ⟨h0, by omega⟩
  refine ⟨?_, ?_, sn_tick_noise_rng_keep, ?_, ?_,
    fun s hs => reachable_output_unit s hs 3⟩
  · intro s ha ht
    rw [sn_tick_noise_rng_advance s ha, noise_rng_advance, if_pos ht]
  · intro s ha ht
    rw [sn_tick_noise_rng_advance s ha, noise_rng_advance, if_neg ht, white_feedback_bit]
  · intro s ho
    refine ⟨?_, ?_, hflip s ho⟩
    · rw [sn_tick_output, next_output]
      split
      · rw [to_int8_neg_unit _ ho]; omega
      · exact ho
    · intro h0
      rw [sn_tick_output, next_output, if_neg h0]
  · intro s t ho hs ht hto
    obtain ⟨h1, h2⟩ := hflip s ho hs
    have hot : t.output 3 = 1 ∨ t.output 3 = -1 := by rw [hto, h1]; omega
    obtain ⟨_, h4⟩ := hflip t hot ht
    rw [h4, h2, hto, h1]
    omega

/-- Witness for C14: in `period_one_example` the noise flip-flop is `+1`; with the noise
counter at 1 the tick expires without an advance, and the next expiry advances. -/
theorem C14_noise_rng_tick_witness :
    ¬ lfsr_advances period_one_example ∧
      (sn_tick period_one_example).1.noise_rng = period_one_example.noise_rng ∧
      (period_one_example.output 3 = 1 ∨ period_one_example.output 3 = -1) ∧
      dec_0x3ff (period_one_example.counter 3) = 0 ∧
      (sn_tick period_one_example).1.output 3 = -(period_one_example.output 3) :=
  ⟨by unfold lfsr_advances; decide,
    C14_noise_rng_tick.2.2.1 period_one_example (by unfold lfsr_advances; decide),
    Or.inl (by decide),
    by decide,
    ((C14_noise_rng_tick.2.2.2.1 period_one_example (Or.inl (by decide))).2.2
      (by decide)).1⟩

/-! ## Claims C15 and C16: the power-on state and the first 1000 ticks -/

/-- The result of a noise-control write. -/
theorem noise_write_result (s : sound_struct) (d : Nat) (hd : d < 256)
    (h : noise_write_byte s d) :
    ∃ s1, sound_sn_write s d = some s1 ∧ s1.noise_frequency = ((d % 4 : Nat) : Int) ∧
      s1.noise_type = ((d / 4 % 2 : Nat) : Int) ∧ s1.noise_rng = 16384 ∧
      s1.period 3 = noise_period s d := by
  have key : ∀ t : sound_struct, t.period = s.period →
      (sn_write_update t d 3).noise_frequency = ((d % 4 : Nat) : Int) ∧
      (sn_write_update t d 3).noise_type = ((d / 4 % 2 : Nat) : Int) ∧
      (sn_write_update t d 3).noise_rng = 16384 ∧
      (sn_write_update t d 3).period 3 = noise_period s d := by
    intro t ht
    rcases sn_write_update_cases t d 3 hd with ⟨h1, h2, _⟩ | ⟨_, hu⟩ | ⟨hch, _⟩
    · unfold noise_write_byte at h; omega
    · rw [hu]
      simp only [Function.update_same, noise_period, ht, and_self]
    · exact absurd rfl hch
  rcases h with ⟨h1, h2, _⟩ | ⟨h1, h2⟩
  · have hch : (⟨d / 32 % 4, Nat.mod_lt _ (by norm_num)⟩ : Fin 4) = 3 := by
      apply Fin.ext; simp only; omega
    refine ⟨_, sn_write_latch s d h1 hd, ?_⟩
    rw [hch]
    exact key _ rfl
  · exact ⟨_, sn_write_data s d 3 h1 h2, key s rfl⟩

/-- C15. Power-on state: after `sound_create` every counter is 0, every output is `-1`,
the tone periods are 0 and the noise period is `0x40`, every volume is `volumes[15] = 8191`,
the largest entry of the attenuation table, `noise_type` is 0 (periodic), `last_channel`
is 0, `noise_rng` is 0 and `noise_frequency` is 2, the selector that the register write
decoder maps to the period `0x40` (selector 1 is mapped to `0x20`). -/
theorem C15_power_on_state :
    (∀ i, sound_create.counter i = 0) ∧ (∀ i, sound_create.output i = -1) ∧
    (sound_create.period 0 = 0 ∧ sound_create.period 1 = 0 ∧ sound_create.period 2 = 0 ∧
      sound_create.period 3 = 0x40) ∧
    ((∀ i, sound_create.volume i = volumes 15) ∧ volumes 15 = 8191 ∧
      ∀ j, volumes j ≤ volumes 15) ∧
    sound_create.noise_type = 0 ∧ sound_create.last_channel = 0 ∧
    sound_create.noise_rng = 0 ∧ sound_create.noise_frequency = 2 ∧
    (∀ (s : sound_struct) (d : Nat), d < 256 → noise_write_byte s d →
      ((d % 4 : Nat) : Int) = sound_create.noise_frequency →
      ∃ s1, sound_sn_write s d = some s1 ∧ s1.period 3 = sound_create.period 3 ∧
        s1.noise_frequency = sound_create.noise_frequency) ∧
    (∀ (s : sound_struct) (d : Nat), d < 256 → noise_write_byte s d → d % 4 = 1 →
      ∃ s1, sound_sn_write s d = some s1 ∧ s1.period 3 = 0x20) := by
  refine ⟨fun _ => rfl, fun _ => rfl, ⟨rfl, rfl, rfl, rfl⟩, ⟨fun _ => rfl, rfl, by decide⟩,
    rfl, rfl, rfl, rfl, ?_, ?_⟩
  · intro s d hd hw hsel
    obtain ⟨s1, h1, h2, _, _, h3⟩ := noise_write_result s d hd hw
    have h4 : d % 4 = 2 := by
      have : sound_create.noise_frequency = 2 := rfl
      rw [this] at hsel
      omega
    refine ⟨s1, h1, ?_, by rw [h2, hsel]⟩
    rw [h3, noise_period]
    simp [h4]
    rfl
  · intro s d hd hw hsel
    obtain ⟨s1, h1, _, _, _, h3⟩ := noise_write_result s d hd hw
    refine ⟨s1, h1, ?_⟩
    rw [h3, noise_period]
    simp [hsel]

/-- Witness for C15: the noise latch byte `0xE2` selects frequency 2 like power-on. -/
theorem C15_power_on_state_witness :
    noise_write_byte sound_create 0xE2 ∧
      ∃ s1, sound_sn_write sound_create 0xE2 = some s1 ∧ s1.period 3 = 0x40 ∧
        s1.noise_frequency = 2 :=
  ⟨Or.inl (by decide),
    C15_power_on_state.2.2.2.2.2.2.2.2.1 sound_create 0xE2 (by decide) (Or.inl (by decide))
      (by decide)⟩

/-- The tick from the state `k < 1023` ticks after power-on: no counter expires, every
channel emits `-1` at full volume. -/
theorem power_on_idle_tick (k : Nat) (hk : k < 1023) :
    sn_tick (power_on_idle k) = (power_on_idle (k + 1), -32764) := by
  have hd : dec_0x3ff ((1024 - k) % 1024) = (1024 - (k + 1)) % 1024 := by
    rw [dec_0x3ff_eq]; omega
  have hd0 : ¬ ((1024 - (k + 1)) % 1024 = 0) := by omega
  have hc : ∀ i : Fin 4, dec_0x3ff ((power_on_idle k).counter i) = (1024 - (k + 1)) % 1024 :=
    fun _ => hd
  have hstate : (sn_tick (power_on_idle k)).1 = power_on_idle (k + 1) := by
    rw [sn_tick_state]
    simp only [next_counter, next_output, next_noise_rng, hc, hd0, false_and, if_false]
    rfl
  have hrng : (sn_tick (power_on_idle k)).1.noise_rng = 0 := by rw [hstate]; rfl
  have htone : ∀ c : Fin 4, c ≠ 3 → sn_tick_component (power_on_idle k) c = -8191 := by
    intro c hc3
    rw [sn_tick_component_eq, sn_tick_polarity_tone _ c hc3, hc c, if_neg hd0]
    rfl
  have hnoise : sn_tick_component (power_on_idle k) 3 = -8191 := by
    rw [sn_tick_component_eq, sn_tick_polarity_noise, hrng]
    rfl
  have hsample : (sn_tick (power_on_idle k)).2 = -32764 := by
    rw [sn_tick_sample, htone 0 (by decide), htone 1 (by decide), htone 2 (by decide), hnoise]
    rfl
  exact Prod.ext hstate hsample

/-- The first ticks after power-on, as long as no counter has expired. -/
theorem power_on_idle_fill (n : Nat) :
    ∀ k, k + n ≤ 1023 →
      sound_fill_sn76489_buffer (power_on_idle k) n =
        (power_on_idle (k + n), List.replicate n (-32764)) := by
  induction n with
  | zero => intro k _; rfl
  | succ n ih =>
    intro k hk
    simp only [sound_fill_sn76489_buffer]
    rw [power_on_idle_tick k (by omega)]
    simp only
    rw [ih (k + 1) (by omega)]
    simp only [List.replicate_succ]
    rw [Nat.add_assoc, Nat.add_comm 1 n]

/-- C16. Regression baseline: from the power-on state, with no register write, 1000 ticks
produce 1000 samples all equal to `-32764 = -4 * 8191`; no counter expires (no output
toggles), and after `k` ticks, `1 <= k <= 1000`, every counter is `1024 - k`, every stored
output is `-1` and `noise_rng` is 0. -/
theorem C16_power_on_baseline :
    (sound_fill_sn76489_buffer sound_create 1000).2 = List.replicate 1000 (-32764) ∧
    (-32764 : Int) = -4 * 8191 ∧
    (∀ i, output_toggles sound_create i 1000 = 0) ∧
    (∀ k, 1 ≤ k → k ≤ 1000 →
      (∀ i, (sn_ticks sound_create k).counter i = 1024 - k ∧
        (sn_ticks sound_create k).output i = -1) ∧
      (sn_ticks sound_create k).noise_rng = 0) := by
  have h0 : power_on_idle 0 = sound_create := rfl
  refine ⟨?_, by decide, ?_, ?_⟩
  · have := power_on_idle_fill 1000 0 (by decide)
    rw [h0] at this
    rw [this]
  · intro i
    exact (ticks_from_zero i sound_create rfl 1000 (by decide) (by decide)).2.2
  · intro k hk1 hk2
    have hf := power_on_idle_fill k 0 (by omega)
    rw [h0, Nat.zero_add] at hf
    have hs : sn_ticks sound_create k = power_on_idle k := by
      unfold sn_ticks
      rw [hf]
    rw [hs]
    refine ⟨fun i => ⟨?_, rfl⟩, rfl⟩
    show (1024 - k) % 1024 = 1024 - k
    omega

/-- Witness for C16: the state 1000 ticks after power-on. -/
theorem C16_power_on_baseline_witness :
    (1 ≤ 1000 ∧ 1000 ≤ 1000) ∧ (sn_ticks sound_create 1000).counter 0 = 1024 - 1000 ∧
      (sn_ticks sound_create 1000).noise_rng = 0 :=
  ⟨by decide, ((C16_power_on_baseline.2.2.2 1000 (by decide) (by decide)).1 0).1,
    (C16_power_on_baseline.2.2.2 1000 (by decide) (by decide)).2⟩

/-! ## Claim C17: every volume is an entry of the attenuation table -/

/-- A write or a tick keeps the volumes inside the attenuation table. -/
theorem step_volume_table (s : sound_struct) (e : sn_event) (r : sound_struct × List Int)
    (hv : ∀ i, ∃ j, s.volume i = volumes j) (hstep : sn_step s e = some r) :
    ∀ i, ∃ j, r.1.volume i = volumes j := by
  rcases sn_step_cases s e r hstep with ⟨d, hd, hw⟩ | ht
  · have key : ∀ (t : sound_struct) (ch : Fin 4), t.volume = s.volume →
        r.1 = sn_write_update t d ch → ∀ i, ∃ j, r.1.volume i = volumes j := by
      intro t ch htv h1
      rcases sn_write_update_cases t d ch hd with ⟨_, _, hu⟩ | ⟨_, hu⟩ | ⟨hch, np, _, hu⟩
      · rw [h1, hu]
        intro i
        by_cases hi : i = ch
        · subst hi
          exact ⟨⟨15 - d % 16, by omega⟩, by simp only [Function.update_same]⟩
        · simp only [Function.update_noteq hi, htv]
          exact hv i
      · rw [h1, hu]; simp only; rw [htv]; exact hv
      · rw [h1, hu]
        split <;> (simp only; rw [htv]; exact hv)
    rcases sn_write_cases s r.1 d hd hw with ⟨_, h1⟩ | ⟨_, c, _, h1⟩
    · exact key _ _ (by rfl) h1
    · exact key _ _ (by rfl) h1
  · rw [ht, sn_tick_volume]
    exact hv

/-- `sound_get_state` succeeds when every volume is an entry of the attenuation table. -/
theorem get_state_total (s : sound_struct) (hv : ∀ i, ∃ j, s.volume i = volumes j) :
    ∃ st, sound_get_state s = some st := by
  obtain ⟨k0, h0⟩ := inverse_volume_lookup_total _ (hv 0)
  obtain ⟨k1, h1⟩ := inverse_volume_lookup_total _ (hv 1)
  obtain ⟨k2, h2⟩ := inverse_volume_lookup_total _ (hv 2)
  obtain ⟨k3, h3⟩ := inverse_volume_lookup_total _ (hv 3)
  simp only [sound_get_state, h0, h1, h2, h3]
  exact ⟨_, rfl⟩

/-- Every state reachable by writes, ticks and restores has its volumes in the table. -/
theorem reachable_restore_volume_table (s : sound_struct) (hs : ReachableRestore s) :
    ∀ i, ∃ j, s.volume i = volumes j := by
  induction hs with
  | init => exact fun _ => ⟨0xf, rfl⟩
  | step s e r _ hstep ih => exact step_volume_table s e r ih hstep
  | restore s pv pp pc po lc nt nf rng r _ hset _ =>
    unfold sound_set_state at hset
    by_cases h : ∀ i, pv i < 16
    · rw [dif_pos h] at hset
      rw [← Option.some.inj hset]
      exact fun i => ⟨⟨pv i, h i⟩, rfl⟩
    · rw [dif_neg h] at hset
      exact absurd hset (by simp)

/-- C17. In every state reachable from power-on by register writes, ticks and
`sound_set_state` calls whose four volume indices are in `0..15`, each channel's volume is
one of the 16 entries of the attenuation table; hence the reverse volume lookup finds, for
every channel, an index `k < 16` with `volumes[k] = volume` (it does not reach its
`assert(0)`), and `sound_get_state` returns. -/
theorem C17_volume_in_table :
    ∀ s, ReachableRestore s →
      (∀ i, ∃ j, s.volume i = volumes j) ∧
      (∀ i, ∃ k, sound_inverse_volume_lookup (s.volume i) = some k ∧
        ∃ hk : k < 16, volumes ⟨k, hk⟩ = s.volume i) ∧
      (∃ st, sound_get_state s = some st) := by
  intro s hs
  have hv := reachable_restore_volume_table s hs
  refine ⟨hv, ?_, get_state_total s hv⟩
  intro i
  obtain ⟨k, hk⟩ := inverse_volume_lookup_total _ (hv i)
  exact ⟨k, hk, inverse_volume_lookup_some _ _ hk⟩

/-- Witness for C17: a volume write and a tick after the restore of `restore_example`. -/
theorem C17_volume_in_table_witness :
    ∃ r s1, restore_example = some r ∧ r.last_channel = 200 ∧
      sound_sn_write r 0x9A = some s1 ∧ ReachableRestore (sn_tick s1).1 ∧
      (∃ st, sound_get_state (sn_tick s1).1 = some st) ∧
      ∃ j, (sn_tick s1).1.volume 0 = volumes j := by
  have hr : ∃ r, restore_example = some r ∧ r.last_channel = 200 := ⟨_, rfl, rfl⟩
  obtain ⟨r, h1, h2⟩ := hr
  have hw : ∃ s1, sound_sn_write r 0x9A = some s1 := ⟨_, sn_write_latch r 0x9A (by decide) (by decide)⟩
  obtain ⟨s1, h3⟩ := hw
  have hreach : ReachableRestore (sn_tick s1).1 :=
    ReachableRestore.step s1 sn_event.tick ((sn_tick s1).1, [(sn_tick s1).2])
      (ReachableRestore.step r (sn_event.write 0x9A) (s1, [])
        (ReachableRestore.restore sound_create _ _ _ _ _ _ _ _ r ReachableRestore.init h1)
        (by simp only [sn_step]; rw [show ((0x9A : Fin 256) : Nat) = 0x9A from rfl, h3]; rfl))
      rfl
  exact ⟨r, s1, h1, h2, h3, hreach, (C17_volume_in_table _ hreach).2.2,
    (C17_volume_in_table _ hreach).1 0⟩

/-! ## Claim C18: native ticks per driver chunk -/

/-- The rounded quotient is within one half of `a / b`. -/
theorem round_half_even_bound (a b : Nat) (hb : 0 < b) :
    2 * a ≤ 2 * (round_half_even a b * b) + b ∧ 2 * (round_half_even a b * b) ≤ 2 * a + b := by
  have h1 := Nat.div_add_mod a b
  have h2 := Nat.mod_lt a hb
  have h3 : (a / b + 1) * b = b * (a / b) + b := by ring
  have h4 : a / b * b = b * (a / b) := by ring
  unfold round_half_even
  split_ifs <;> simp only [h3, h4] <;> omega

/-- The scale found by `double_exponent` puts the quotient in `[2^52, 2^53)`. -/
theorem double_exponent_spec (b : Nat) (fuel : Nat) :
    ∀ a, a < 2 ^ 53 * b → 2 ^ 52 * b ≤ a * 2 ^ fuel →
      2 ^ 52 * b ≤ a * 2 ^ double_exponent a b fuel ∧
        a * 2 ^ double_exponent a b fuel < 2 ^ 53 * b := by
  induction fuel with
  | zero =>
    intro a h1 h2
    simp only [double_exponent, pow_zero, Nat.mul_one] at h2 ⊢
    exact ⟨h2, h1⟩
  | succ fuel ih =>
    intro a h1 h2
    unfold double_exponent
    split
    · simp only [pow_zero, Nat.mul_one]
      exact ⟨by assumption, h1⟩
    · rename_i hlt
      have h3 : 2 * a < 2 ^ 53 * b := by
        have : (2 : Nat) ^ 53 = 2 * 2 ^ 52 := by norm_num
        rw [this]; omega
      have h4 : 2 ^ 52 * b ≤ 2 * a * 2 ^ fuel := by
        rw [pow_succ] at h2
        calc 2 ^ 52 * b ≤ a * (2 ^ fuel * 2) := h2
          _ = 2 * a * 2 ^ fuel := by ring
      obtain ⟨i1, i2⟩ := ih (2 * a) h3 h4
      have h5 : a * 2 ^ (1 + double_exponent (2 * a) b fuel) =
          2 * a * 2 ^ double_exponent (2 * a) b fuel := by
        rw [pow_add]; ring
      rw [h5]
      exact ⟨i1, i2⟩



/-- The `double` nearest to `a / b` is within the relative error `2^(-53)` of it. -/
theorem double_of_quotient_error (a b : Nat) (hb : 0 < b) (h1 : a < 2 ^ 53 * b)
    (h2 : 2 ^ 52 * b ≤ a * 2 ^ 128) :
    |double_value (double_of_quotient a b) - (a : ℚ) / b| ≤ (a : ℚ) / b / 2 ^ 53 := by
  obtain ⟨e1, _⟩ := double_exponent_spec b 128 a h1 h2
  obtain ⟨r1, r2⟩ := round_half_even_bound (a * 2 ^ double_exponent a b 128) b hb
  simp only [double_value, double_of_quotient]
  generalize double_exponent a b 128 = k at e1 r1 r2 ⊢
  generalize round_half_even (a * 2 ^ k) b = m at r1 r2 ⊢
  have hk : (0 : ℚ) < 2 ^ k := by positivity
  have hbq : (0 : ℚ) < b := by exact_mod_cast hb
  have q1 : (2 : ℚ) ^ 52 * b ≤ a * 2 ^ k := by exact_mod_cast e1
  have q2 : 2 * ((a : ℚ) * 2 ^ k) ≤ 2 * (m * b) + b := by exact_mod_cast r1
  have q3 : 2 * ((m : ℚ) * b) ≤ 2 * (a * 2 ^ k) + b := by exact_mod_cast r2
  have hd : (m : ℚ) / 2 ^ k - a / b = (m * b - a * 2 ^ k) / (2 ^ k * b) := by
    field_simp
    ring
  have hr : (a : ℚ) / b / 2 ^ 53 = (a * 2 ^ k / 2 ^ 53) / (2 ^ k * b) := by
    field_simp
    ring
  rw [hd, hr, abs_le]
  have hpos : (0 : ℚ) < 2 ^ k * b := by positivity
  constructor
  · rw [← neg_div, div_le_div_iff_of_pos_right hpos]
    linarith
  · rw [div_le_div_iff_of_pos_right hpos]
    linarith


/-- The scale is found within the fuel. -/
theorem double_exponent_le (b : Nat) (fuel : Nat) : ∀ a, double_exponent a b fuel ≤ fuel := by
  induction fuel with
  | zero => intro a; simp [double_exponent]
  | succ fuel ih =>
    intro a
    unfold double_exponent
    split
    · omega
    · have := ih (2 * a); omega

/-- The significand has 53 bits. -/
theorem double_of_quotient_mantissa (a b : Nat) (hb : 0 < b) (h1 : a < 2 ^ 53 * b)
    (h2 : 2 ^ 52 * b ≤ a * 2 ^ 128) :
    2 ^ 52 ≤ (double_of_quotient a b).1 ∧ (double_of_quotient a b).2 ≤ 128 := by
  obtain ⟨e1, _⟩ := double_exponent_spec b 128 a h1 h2
  obtain ⟨r1, _⟩ := round_half_even_bound (a * 2 ^ double_exponent a b 128) b hb
  refine ⟨?_, double_exponent_le b 128 a⟩
  simp only [double_of_quotient]
  generalize double_exponent a b 128 = k at e1 r1 ⊢
  generalize round_half_even (a * 2 ^ k) b = m at r1 ⊢
  have h3 : 2 ^ 53 * b ≤ (2 * m + 1) * b := by
    have : (2 : Nat) ^ 53 = 2 * 2 ^ 52 := by norm_num
    calc 2 ^ 53 * b = 2 * (2 ^ 52 * b) := by rw [this]; ring
      _ ≤ 2 * (a * 2 ^ k) := by omega
      _ ≤ 2 * (m * b) + b := r1
      _ = (2 * m + 1) * b := by ring
  have h4 := Nat.le_of_mul_le_mul_right h3 hb
  have : (2 : Nat) ^ 53 = 2 * 2 ^ 52 := by norm_num
  omega

/-- The ceiling of `m / d` is `N` when `(N - 1) d < m <= N d`. -/
theorem ceil_div_eq (m d N : Nat) (hd : 0 < d) (h1 : (N - 1) * d < m) (h2 : m ≤ N * d) :
    (m + d - 1) / d = N := by
  have hN : 1 ≤ N := by
    rcases Nat.eq_zero_or_pos N with h | h
    · subst h; simp at h2; omega
    · exact h
  apply Nat.div_eq_of_lt_le
  · have : N * d = (N - 1) * d + d := by
      obtain ⟨n, rfl⟩ : ∃ n, N = n + 1 := ⟨N - 1, by omega⟩
      simp [Nat.succ_mul]
    omega
  · have : (N + 1) * d = N * d + d := by ring
    show m + d - 1 < (N + 1) * d
    omega


/-- The two `double` roundings of `sound_set_driver` move the product by a relative error
below `2^(-51)`: when the exact product `x = chunk * 250000 / rate` has `N - 1 < x (1 - 2^(-51))`
and `x (1 + 2^(-51)) <= N`, the stored value is `N`, the exact ceiling. -/
theorem ticks_per_chunk_of_margin (chunk rate N : Nat) (hc : 0 < chunk) (hc2 : chunk < 2 ^ 32)
    (hr : 0 < rate) (hr2 : rate < 2 ^ 32) (hN : N < 2 ^ 32)
    (hlo : (N : ℚ) - 1 < (chunk : ℚ) * 250000 / rate * (1 - 1 / 2 ^ 51))
    (hhi : (chunk : ℚ) * 250000 / rate * (1 + 1 / 2 ^ 51) ≤ N) :
    sn_frames_per_driver_chunk_size chunk rate = some N ∧
      exact_ticks_per_chunk chunk rate = N := by
  have hrq : (0 : ℚ) < rate := by exact_mod_cast hr
  have hcq : (0 : ℚ) < chunk := by exact_mod_cast hc
  have hcq2 : (chunk : ℚ) < 2 ^ 32 := by exact_mod_cast hc2
  have hrq1 : (1 : ℚ) ≤ rate := by exact_mod_cast hr
  have hexact : exact_ticks_per_chunk chunk rate = N := by
    have hxpos : (0 : ℚ) < (chunk : ℚ) * 250000 / rate := by positivity
    unfold exact_ticks_per_chunk
    rw [Int.ceil_eq_iff]
    push_cast
    constructor <;> linarith
  refine ⟨?_, hexact⟩
  -- the quotient
  have a1 : 250000 < 2 ^ 53 * rate := by
    have : (250000 : Nat) < 2 ^ 53 := by norm_num
    calc 250000 < 2 ^ 53 * 1 := by norm_num
      _ ≤ 2 ^ 53 * rate := Nat.mul_le_mul_left _ hr
  have a2 : 2 ^ 52 * rate ≤ 250000 * 2 ^ 128 := by
    calc 2 ^ 52 * rate ≤ 2 ^ 52 * 2 ^ 32 := Nat.mul_le_mul_left _ (le_of_lt hr2)
      _ ≤ 250000 * 2 ^ 128 := by norm_num
  have e1 := double_of_quotient_error 250000 rate hr a1 a2
  obtain ⟨m1, k1le⟩ := double_of_quotient_mantissa 250000 rate hr a1 a2
  have hq1 : (250000 : ℚ) / rate ≤ 250000 := div_le_self (by norm_num) hrq1
  have hq0 : (0 : ℚ) < 250000 / rate := by positivity
  -- the product
  have hdef : sn_frames_per_driver_frame rate = double_of_quotient 250000 rate := rfl
  have hvf : ((double_of_quotient 250000 rate).1 : ℚ) =
      double_value (double_of_quotient 250000 rate) * 2 ^ (double_of_quotient 250000 rate).2 := by
    unfold double_value
    field_simp
  push_cast at e1
  generalize double_value (double_of_quotient 250000 rate) = vf at e1 hvf
  generalize hfe : double_of_quotient 250000 rate = f at hdef m1 k1le hvf
  obtain ⟨e1a, e1b⟩ := abs_le.mp e1
  have hk1 : (0 : ℚ) < 2 ^ f.2 := by positivity
  have b1 : chunk * f.1 < 2 ^ 53 * 2 ^ f.2 := by
    have : ((chunk * f.1 : Nat) : ℚ) < ((2 ^ 53 * 2 ^ f.2 : Nat) : ℚ) := by
      push_cast
      rw [hvf, ← mul_assoc]
      apply mul_lt_mul_of_pos_right _ hk1
      have h1 : vf ≤ 250001 := by linarith
      have h0 : 0 ≤ vf := by linarith
      calc (chunk : ℚ) * vf ≤ chunk * 250001 := mul_le_mul_of_nonneg_left h1 hcq.le
        _ < 2 ^ 32 * 250001 := by linarith
        _ < 2 ^ 53 := by norm_num
    exact_mod_cast this
  have b2 : 2 ^ 52 * 2 ^ f.2 ≤ chunk * f.1 * 2 ^ 128 := by
    have h1 : 2 ^ 52 ≤ chunk * f.1 :=
      calc 2 ^ 52 ≤ f.1 := m1
        _ = 1 * f.1 := (Nat.one_mul _).symm
        _ ≤ chunk * f.1 := Nat.mul_le_mul_right _ hc
    exact Nat.mul_le_mul h1 (Nat.pow_le_pow_right (by norm_num) k1le)
  have e2 := double_of_quotient_error (chunk * f.1) (2 ^ f.2) (by positivity) b1 b2
  have hcf : (((chunk * f.1 : Nat) : ℚ)) / ((2 ^ f.2 : Nat) : ℚ) = chunk * vf := by
    push_cast
    rw [hvf]
    field_simp
    ring
  rw [hcf] at e2
  obtain ⟨e2a, e2b⟩ := abs_le.mp e2
  have hvp : double_value (double_of_quotient (chunk * f.1) (2 ^ f.2)) =
      ((double_of_quotient (chunk * f.1) (2 ^ f.2)).1 : ℚ) /
        2 ^ (double_of_quotient (chunk * f.1) (2 ^ f.2)).2 := rfl
  generalize double_value (double_of_quotient (chunk * f.1) (2 ^ f.2)) = vp at e2a e2b hvp
  generalize hpe : double_of_quotient (chunk * f.1) (2 ^ f.2) = p at hvp
  -- the two roundings together
  have hx : (chunk : ℚ) * 250000 / rate = chunk * (250000 / rate) := by ring
  rw [hx] at hlo hhi
  generalize (250000 : ℚ) / rate = q at hlo hhi e1a e1b hq1 hq0
  have hx0 : 0 ≤ (chunk : ℚ) * q := mul_nonneg hcq.le hq0.le
  have f_hi : vf ≤ q * (1 + 1 / 2 ^ 53) := by linarith
  have f_lo : q * (1 - 1 / 2 ^ 53) ≤ vf := by linarith
  have cf_hi : (chunk : ℚ) * vf ≤ chunk * q * (1 + 1 / 2 ^ 53) := by
    have := mul_le_mul_of_nonneg_left f_hi hcq.le
    linarith
  have cf_lo : (chunk : ℚ) * q * (1 - 1 / 2 ^ 53) ≤ chunk * vf := by
    have := mul_le_mul_of_nonneg_left f_lo hcq.le
    linarith
  have p_hi : vp ≤ chunk * q * (1 + 1 / 2 ^ 51) := by
    have h1 : vp ≤ chunk * vf * (1 + 1 / 2 ^ 53) := by linarith
    have h2 : (chunk : ℚ) * vf * (1 + 1 / 2 ^ 53) ≤
        chunk * q * (1 + 1 / 2 ^ 53) * (1 + 1 / 2 ^ 53) :=
      mul_le_mul_of_nonneg_right cf_hi (by norm_num)
    have h3 := mul_le_mul_of_nonneg_left
      (show (1 + 1 / 2 ^ 53 : ℚ) * (1 + 1 / 2 ^ 53) ≤ 1 + 1 / 2 ^ 51 by norm_num) hx0
    linarith
  have p_lo : (chunk : ℚ) * q * (1 - 1 / 2 ^ 51) ≤ vp := by
    have h1 : chunk * vf * (1 - 1 / 2 ^ 53) ≤ vp := by linarith
    have h2 : (chunk : ℚ) * q * (1 - 1 / 2 ^ 53) * (1 - 1 / 2 ^ 53) ≤
        chunk * vf * (1 - 1 / 2 ^ 53) :=
      mul_le_mul_of_nonneg_right cf_lo (by norm_num)
    have h3 := mul_le_mul_of_nonneg_left
      (show (1 - 1 / 2 ^ 51 : ℚ) ≤ (1 - 1 / 2 ^ 53) * (1 - 1 / 2 ^ 53) by norm_num) hx0
    linarith
  have hpN : vp ≤ N := le_trans p_hi hhi
  have hpN1 : (N : ℚ) - 1 < vp := lt_of_lt_of_le hlo p_lo
  -- the ceiling
  have hk2 : (0 : ℚ) < 2 ^ p.2 := by positivity
  rw [hvp] at hpN hpN1
  have g1 : (p.1 : ℚ) ≤ N * 2 ^ p.2 := (div_le_iff₀ hk2).mp hpN
  have g2 : ((N : ℚ) - 1) * 2 ^ p.2 < p.1 := (lt_div_iff₀ hk2).mp hpN1
  have hN0 : 1 ≤ N := by
    have h1 : (0 : ℚ) < chunk * q * (1 - 1 / 2 ^ 51) :=
      mul_pos (mul_pos hcq hq0) (by norm_num)
    have h2 : (0 : ℚ) < N := by linarith
    exact_mod_cast h2
  obtain ⟨n, rfl⟩ : ∃ n, N = n + 1 := ⟨N - 1, by omega⟩
  have n1 : p.1 ≤ (n + 1) * 2 ^ p.2 := by exact_mod_cast g1
  have n2 : (n + 1 - 1) * 2 ^ p.2 < p.1 := by
    rw [Nat.add_sub_cancel]
    push_cast at g2
    rw [add_sub_cancel_right] at g2
    exact_mod_cast g2
  have hne : ¬ (chunk = 0 ∨ rate = 0) := by omega
  simp only [sn_frames_per_driver_chunk_size, if_neg hne, hdef, hpe]
  rw [ceil_div_eq p.1 (2 ^ p.2) (n + 1) (by positivity) n2 n1, if_pos hN]

/-- C18 (amended). `sound_set_driver` sets `sn_frames_per_driver_chunk_size` to the ceiling
of the `double` product `driver_chunk_size * (250000.0 / sample_rate)`. For 32-bit inputs
this is the exact ceiling `N` of `x = driver_chunk_size * 250000 / sample_rate` whenever
`N - 1 < x (1 - 2^(-51))` and `x (1 + 2^(-51)) <= N`, that is, whenever the two roundings
cannot move the product across an integer; for `sample_rate = 44100` and
`driver_chunk_size = 512` it is `ceil(512 * 250000 / 44100) = 2903`. -/
theorem C18_ticks_per_chunk :
    (sn_frames_per_driver_chunk_size 512 44100 = some 2903 ∧
      exact_ticks_per_chunk 512 44100 = 2903) ∧
    (∀ chunk rate N : Nat, 0 < chunk → chunk < 2 ^ 32 → 0 < rate → rate < 2 ^ 32 →
      N < 2 ^ 32 →
      (N : ℚ) - 1 < (chunk : ℚ) * 250000 / rate * (1 - 1 / 2 ^ 51) →
      (chunk : ℚ) * 250000 / rate * (1 + 1 / 2 ^ 51) ≤ N →
      sn_frames_per_driver_chunk_size chunk rate = some N ∧
        exact_ticks_per_chunk chunk rate = N) := by
  refine ⟨?_, ticks_per_chunk_of_margin⟩
  exact ticks_per_chunk_of_margin 512 44100 2903 (by norm_num) (by norm_num) (by norm_num)
    (by norm_num) (by norm_num) (by norm_num) (by norm_num)

/-- Witness for C18 (amended): 1024 frames at 48000 Hz need 5334 ticks. -/
theorem C18_ticks_per_chunk_witness :
    (0 < 1024 ∧ 1024 < 2 ^ 32 ∧ 0 < 48000 ∧ 48000 < 2 ^ 32 ∧ 5334 < 2 ^ 32) ∧
      sn_frames_per_driver_chunk_size 1024 48000 = some 5334 ∧
      exact_ticks_per_chunk 1024 48000 = 5334 :=
  ⟨by norm_num,
    C18_ticks_per_chunk.2 1024 48000 5334 (by norm_num) (by norm_num) (by norm_num)
      (by norm_num) (by norm_num) (by norm_num) (by norm_num)⟩

/-- C18, as stated, fails in general: for `sample_rate = 7` and `driver_chunk_size = 7` the
quotient `250000.0 / 7` rounds up, the product rounds to `250000 + 2^(-35)`, and the value
stored is 250001, while the exact ceiling of `7 * 250000 / 7` is 250000. -/
theorem C18_counterexample :
    sn_frames_per_driver_frame 7 = (4908534052571429, 37) ∧
      double_of_quotient (7 * 4908534052571429) (2 ^ 37) = (8589934592000001, 35) ∧
      sn_frames_per_driver_chunk_size 7 7 = some 250001 ∧
      exact_ticks_per_chunk 7 7 = 250000 := by
  refine ⟨by rfl, by rfl, by rfl, ?_⟩
  unfold exact_ticks_per_chunk
  rw [Int.ceil_eq_iff]
  norm_num

/-! ## The command and parameter protocol of the floppy disc controller -/

/-- The parameter counts of the command switch: a known command needs at most five. -/
theorem num_params_le {c n : Nat} (h : intel_fdc_num_params c = some n) : n ≤ 5 := by
  unfold intel_fdc_num_params at h
  split_ifs at h <;> simp only [Option.some.injEq, reduceCtorEq] at h <;> omega

/-- One write to the parameter register while parameters are needed: the byte is stored at
the index, the index moves up, one parameter fewer is needed, and the handler is called
exactly when none is needed any more. -/
theorem fdc_param_write (t : intel_fdc_struct) (v : Nat) (hn : 0 < t.parameters_needed)
    (hi : t.parameters_index < 5) :
    ∃ q, intel_fdc_write_pre t 1 v = some (q, decide (t.parameters_needed = 1)) ∧
      q.status = t.status ∧ q.command = t.command ∧
      q.parameters_needed = t.parameters_needed - 1 ∧
      q.parameters_index = t.parameters_index + 1 ∧
      q.parameters = Function.update t.parameters ⟨t.parameters_index, hi⟩ v := by
  have h1 : (1 : Nat) &&& 0x07 = 1 := by decide
  have h0 : ¬ ((1 : Nat) &&& 0x07 = 0) := by decide
  refine ⟨{ t with
      parameters := Function.update t.parameters ⟨t.parameters_index, hi⟩ v
      parameters_index := (t.parameters_index + 1) % 256
      parameters_needed := t.parameters_needed - 1 }, ?_, rfl, rfl, rfl, ?_, rfl⟩
  · unfold intel_fdc_write_pre
    rw [if_neg h0, if_pos h1, if_pos hn, dif_pos hi]
    have : (t.parameters_needed - 1 = 0) = (t.parameters_needed = 1) := by
      apply propext; omega
    simp only [this]
  · show (t.parameters_index + 1) % 256 = _
    omega

/-- A run of fewer parameter writes than are needed never calls the handler; it stores the
bytes at successive indices and leaves status and command alone. -/
theorem fdc_param_writes_run (ws : List Nat) :
    ∀ t : intel_fdc_struct, ws.length < t.parameters_needed →
      t.parameters_index + t.parameters_needed ≤ 5 →
      ∃ q, fdc_param_writes t ws = some q ∧ q.status = t.status ∧ q.command = t.command ∧
        q.parameters_needed = t.parameters_needed - ws.length ∧
        q.parameters_index = t.parameters_index + ws.length ∧
        (∀ j (hj : j < 5), j < t.parameters_index → q.parameters ⟨j, hj⟩ = t.parameters ⟨j, hj⟩) ∧
        (∀ j (hj : t.parameters_index + j < 5), j < ws.length →
          q.parameters ⟨t.parameters_index + j, hj⟩ = ws.getD j 0) := by
  induction ws with
  | nil =>
    intro t _ _
    exact ⟨t, rfl, rfl, rfl, rfl, rfl, fun _ _ _ => rfl,
      fun j _ hj => absurd hj (Nat.not_lt_zero j)⟩
  | cons v vs ih =>
    intro t hlen hsum
    simp only [List.length_cons] at hlen
    have hi : t.parameters_index < 5 := by omega
    obtain ⟨q, hq, hst, hcmd, hneed, hidx, hpar⟩ := fdc_param_write t v (by omega) hi
    have hne : decide (t.parameters_needed = 1) = false := by
      apply decide_eq_false; omega
    rw [hne] at hq
    obtain ⟨r, hr, rst, rcmd, rneed, ridx, rlow, rhigh⟩ :=
      ih q (by rw [hneed]; omega) (by rw [hneed, hidx]; omega)
    refine ⟨r, ?_, rst.trans hst, rcmd.trans hcmd, ?_, ?_, ?_, ?_⟩
    · show (match intel_fdc_write_pre t 1 v with
        | some (q, false) => fdc_param_writes q vs
        | _ => none) = some r
      rw [hq]
      exact hr
    · rw [rneed, hneed, List.length_cons]; omega
    · rw [ridx, hidx, List.length_cons]; omega
    · intro j hj hjt
      rw [rlow j hj (by rw [hidx]; omega), hpar]
      exact Function.update_noteq (fun h => by
        have := congrArg Fin.val h
        simp only at this
        omega) _ _
    · intro j hj hjl
      cases j with
      | zero =>
        rw [rlow _ hj (by rw [hidx]; omega), hpar]
        simp only [Nat.add_zero, Function.update_same, List.getD_cons_zero]
      | succ j =>
        simp only [List.length_cons, Nat.add_lt_add_iff_right] at hjl
        have hj2 : q.parameters_index + j < 5 := by rw [hidx]; omega
        have := rhigh j hj2 hjl
        simp only [List.getD_cons_succ]
        rw [← this]
        congr 1
        apply Fin.ext
        show t.parameters_index + (j + 1) = q.parameters_index + j
        rw [hidx]; omega

/-- The command write on an idle controller: the state handed on has status `0x80`, the
command `val & 0x3F`, the parameter count of the switch and index 0, and the handler is
called exactly when the count is 0. -/
theorem fdc_command_write (s : intel_fdc_struct) (val N : Nat) (hs : s.status &&& 0x80 = 0)
    (hN : intel_fdc_num_params (val &&& 0x3F) = some N) :
    ∃ s0, intel_fdc_write_pre s 0 val = some (s0, decide (N = 0)) ∧ s0.status = 0x80 ∧
      s0.command = val &&& 0x3F ∧ s0.parameters_needed = N ∧ s0.parameters_index = 0 := by
  have h0 : (0 : Nat) &&& 0x07 = 0 := by decide
  refine ⟨{ s with
      status := 0x80
      command := val &&& 0x3F
      drive_select := val >>> 6
      drive_0_or_1 := if val &&& 0x80 ≠ 0 then 1 else 0
      parameters_needed := N
      parameters_index := 0 }, ?_, rfl, rfl, rfl, rfl⟩
  unfold intel_fdc_write_pre
  rw [if_pos h0, if_neg (not_not.mpr hs)]
  simp only [hN]

/-- A write to the command register while status bit 7 is set changes nothing and does not
call the handler. -/
theorem fdc_command_write_busy (t : intel_fdc_struct) (v : Nat) (h : t.status = 0x80) :
    intel_fdc_write t 0 v = some t := by
  have h0 : (0 : Nat) &&& 0x07 = 0 := by decide
  have hb : t.status &&& 0x80 ≠ 0 := by rw [h]; decide
  unfold intel_fdc_write intel_fdc_write_pre
  rw [if_pos h0, if_pos hb]

/-- The function `intel_fdc_write` is its first part followed, when the flag says so, by the
handler. -/
theorem fdc_write_of_pre (p q : intel_fdc_struct) (addr val : Nat) (b : Bool)
    (h : intel_fdc_write_pre p addr val = some (q, b)) :
    intel_fdc_write p addr val = if b = true then intel_fdc_do_command q else some q := by
  unfold intel_fdc_write
  rw [h]
  cases b <;> rfl

/-- C19. Command and parameter protocol of the floppy disc controller. The command switch
gives 0 parameters to 0x2C, 1 to 0x29 and 0x3D, 2 to 0x3A, 3 to 0x0B, 0x13, 0x1B and 0x1F,
4 to 0x35 and 5 to 0x23. For a byte written to the command register while status bit 7 is
clear whose command `val & 0x3F` needs `N` parameters, the command write leaves status
`0x80` and calls `intel_fdc_do_command` exactly when `N = 0`; for any `N` bytes then written
to the parameter register, the first `k < N` of them never call the handler and leave status
`0x80` (so that a write to the command register in between changes nothing), the write of byte `k + 1` calls the handler exactly when `k + 1 = N`, on a state
with status `0x80`, and that state holds byte `j + 1` in `parameters[j]` for every
`j <= k`. -/
theorem C19_fdc_command_protocol (s : intel_fdc_struct) (val N : Nat)
    (hs : s.status &&& 0x80 = 0) (hN : intel_fdc_num_params (val &&& 0x3F) = some N) :
    (intel_fdc_num_params 0x2C = some 0 ∧ intel_fdc_num_params 0x29 = some 1 ∧
      intel_fdc_num_params 0x3D = some 1 ∧ intel_fdc_num_params 0x3A = some 2 ∧
      intel_fdc_num_params 0x0B = some 3 ∧ intel_fdc_num_params 0x13 = some 3 ∧
      intel_fdc_num_params 0x1B = some 3 ∧ intel_fdc_num_params 0x1F = some 3 ∧
      intel_fdc_num_params 0x35 = some 4 ∧ intel_fdc_num_params 0x23 = some 5) ∧
    ∃ s0, intel_fdc_write_pre s 0 val = some (s0, decide (N = 0)) ∧
      intel_fdc_write s 0 val = (if N = 0 then intel_fdc_do_command s0 else some s0) ∧
      s0.status = 0x80 ∧ s0.command = val &&& 0x3F ∧
      ∀ vs : List Nat, vs.length = N → ∀ k, k < N →
        ∃ t q, fdc_param_writes s0 (vs.take k) = some t ∧ t.status = 0x80 ∧
          (∀ v, intel_fdc_write t 0 v = some t) ∧
          intel_fdc_write_pre t 1 (vs.getD k 0) = some (q, decide (k + 1 = N)) ∧
          intel_fdc_write t 1 (vs.getD k 0) =
            (if k + 1 = N then intel_fdc_do_command q else some q) ∧
          q.status = 0x80 ∧ q.command = val &&& 0x3F ∧
          ∀ j (hj : j < 5), j ≤ k → q.parameters ⟨j, hj⟩ = vs.getD j 0 := by
  refine ⟨by decide, ?_⟩
  have hN5 := num_params_le hN
  obtain ⟨s0, hpre, hst, hcmd, hneed, hidx⟩ := fdc_command_write s val N hs hN
  refine ⟨s0, hpre, ?_, hst, hcmd, ?_⟩
  · rw [fdc_write_of_pre s s0 0 val _ hpre]
    simp only [decide_eq_true_eq]
  intro vs hlen k hk
  have hlk : (vs.take k).length = k := by rw [List.length_take, hlen]; omega
  obtain ⟨t, ht, tst, tcmd, tneed, tidx, _, thigh⟩ :=
    fdc_param_writes_run (vs.take k) s0 (by rw [hlk, hneed]; exact hk)
      (by rw [hidx, hneed]; omega)
  rw [hlk] at tneed tidx thigh
  rw [hneed] at tneed
  rw [hidx, Nat.zero_add] at tidx
  have hi : t.parameters_index < 5 := by omega
  obtain ⟨q, hq, qst, qcmd, _, _, qpar⟩ := fdc_param_write t (vs.getD k 0) (by omega) hi
  have hflag : decide (t.parameters_needed = 1) = decide (k + 1 = N) := by
    have : (t.parameters_needed = 1) = (k + 1 = N) := by apply propext; omega
    simp only [this]
  rw [hflag] at hq
  refine ⟨t, q, ht, tst.trans hst, fun v => fdc_command_write_busy t v (tst.trans hst),
    hq, ?_, qst.trans (tst.trans hst),
    qcmd.trans (tcmd.trans hcmd), ?_⟩
  · rw [fdc_write_of_pre t q 1 _ _ hq]
    simp only [decide_eq_true_eq]
  · intro j hj hjk
    rw [qpar]
    rcases Nat.lt_or_eq_of_le hjk with hlt | heq
    · rw [Function.update_noteq (fun h => by
        have := congrArg Fin.val h
        simp only at this
        omega)]
      have := thigh j (by rw [hidx]; omega) hlt
      simp only [hidx, Nat.zero_add] at this
      rw [this]
      simp only [List.getD_eq_getElem?_getD, List.getElem?_take, if_pos hlt]
    · subst heq
      have : (⟨j, hj⟩ : Fin 5) = ⟨t.parameters_index, hi⟩ := Fin.ext tidx.symm
      rw [this, Function.update_same]

/-- Witness for C19: the seek command `0x29` written to a newly created controller needs one
parameter. -/
theorem C19_fdc_command_protocol_witness :
    intel_fdc_create.status &&& 0x80 = 0 ∧ intel_fdc_num_params (0x29 &&& 0x3F) = some 1 ∧
    ∃ s0, intel_fdc_write_pre intel_fdc_create 0 0x29 = some (s0, decide (1 = 0)) ∧
      intel_fdc_write intel_fdc_create 0 0x29 =
        (if 1 = 0 then intel_fdc_do_command s0 else some s0) ∧
      s0.status = 0x80 ∧ s0.command = 0x29 &&& 0x3F ∧
      ∀ vs : List Nat, vs.length = 1 → ∀ k, k < 1 →
        ∃ t q, fdc_param_writes s0 (vs.take k) = some t ∧ t.status = 0x80 ∧
          (∀ v, intel_fdc_write t 0 v = some t) ∧
          intel_fdc_write_pre t 1 (vs.getD k 0) = some (q, decide (k + 1 = 1)) ∧
          intel_fdc_write t 1 (vs.getD k 0) =
            (if k + 1 = 1 then intel_fdc_do_command q else some q) ∧
          q.status = 0x80 ∧ q.command = 0x29 &&& 0x3F ∧
          ∀ j (hj : j < 5), j ≤ k → q.parameters ⟨j, hj⟩ = vs.getD j 0 :=
  ⟨by decide, by decide,
    (C19_fdc_command_protocol intel_fdc_create 0x29 1 (by decide) (by decide)).2⟩

/-! ## The steady-state square wave of a tone channel -/

/-- The polarity emitted by tick `k + 1` of a half-period that starts at
`counter = period = p`: the stored output on the first `p - 1` ticks, its `int8_t`
negation on the last. -/
theorem half_period_polarity (c : Fin 4) (hc : c ≠ 3) (s : sound_struct) (p : Nat)
    (hp : 2 ≤ p) (hp2 : p ≤ 1023) (hcnt : s.counter c = p) (hper : s.period c = p) (k : Nat)
    (hk : k < p) :
    sn_tick_polarity (sn_ticks s k) c =
      if k + 1 = p then to_int8 (-(s.output c)) else s.output c := by
  obtain ⟨a1, a2, _⟩ := ticks_no_expiry c k s (by omega) (by omega)
  have hper1 : (sn_ticks s k).period c = p := by rw [(sn_ticks_period _ s).1, hper]
  rw [sn_tick_polarity_tone _ c hc, dec_0x3ff_eq, a1, a2, hper1, hcnt]
  by_cases h : k + 1 = p
  · have h0 : (p - k + 1023) % 1024 = 0 := by omega
    rw [if_pos h0, if_neg (by omega), if_pos h]
  · have h0 : ¬ ((p - k + 1023) % 1024 = 0) := by omega
    rw [if_neg h0, if_neg h]

/-- C20. Steady-state square wave. For a tone channel `c` and `2 <= p <= 1023`, from any
state with `period[c] = p` and `counter[c] = p`: fewer than `p` ticks only count the counter
down and leave the stored output alone; `p` ticks leave `counter[c] = p` again and the
stored output negated once (as `int8_t`). The polarity emitted is the old stored output on
each of the first `p - 1` ticks and the negated one on tick `p`. With the stored output at
`+1` or `-1` the number of ticks that change it is 0 within `p - 1` ticks and 1 within `p`,
the new output is the opposite one, the polarity emitted `p` ticks later is the opposite
one, and `2 p` ticks bring back both counter and output: the emitted polarity is a square
wave of half-period `p` ticks. The stored output is `+1` or `-1` in every state reachable
from power-on by writes and ticks. -/
theorem C20_steady_square_wave (s : sound_struct) (c : Fin 4) (p : Nat) (hc : c ≠ 3)
    (hp : 2 ≤ p) (hp2 : p ≤ 1023) (hper : s.period c = p) (hcnt : s.counter c = p) :
    (∀ k, k < p → (sn_ticks s k).counter c = p - k ∧ (sn_ticks s k).output c = s.output c) ∧
    (sn_ticks s p).counter c = p ∧ (sn_ticks s p).period c = p ∧
    (sn_ticks s p).output c = to_int8 (-(s.output c)) ∧
    (∀ k, k + 1 < p → sn_tick_polarity (sn_ticks s k) c = s.output c) ∧
    sn_tick_polarity (sn_ticks s (p - 1)) c = to_int8 (-(s.output c)) ∧
    (s.output c = 1 ∨ s.output c = -1 →
      output_toggles s c (p - 1) = 0 ∧ output_toggles s c p = 1 ∧
      (sn_ticks s p).output c = -(s.output c) ∧
      (∀ k, k < p → sn_tick_polarity (sn_ticks s (p + k)) c =
        -(sn_tick_polarity (sn_ticks s k) c)) ∧
      (sn_ticks s (2 * p)).counter c = p ∧ (sn_ticks s (2 * p)).output c = s.output c ∧
      output_toggles s c (2 * p) = 2) ∧
    (Reachable s → s.output c = 1 ∨ s.output c = -1) := by
  have hstep : ∀ t : sound_struct, t.period c = p → t.counter c = p →
      (sn_ticks t p).counter c = p ∧ (sn_ticks t p).period c = p ∧
        (sn_ticks t p).output c = to_int8 (-(t.output c)) := by
    intro t tper tcnt
    obtain ⟨a1, a2, _⟩ := ticks_no_expiry c (p - 1) t (by omega) (by omega)
    have hper1 : (sn_ticks t (p - 1)).period c = p := by rw [(sn_ticks_period _ t).1, tper]
    obtain ⟨b1, b2⟩ := tick_expiry c (sn_ticks t (p - 1)) (by rw [a1, tcnt]; omega)
    have hst : sn_ticks t p = (sn_tick (sn_ticks t (p - 1))).1 := by
      have hsplit : p = (p - 1) + 1 := by omega
      conv_lhs => rw [hsplit, sn_ticks_add]
      rfl
    exact ⟨by rw [hst, b1, hper1], by rw [(sn_ticks_period _ t).1, tper],
      by rw [hst, b2, a2]⟩
  obtain ⟨h1, h2, h3⟩ := hstep s hper hcnt
  refine ⟨?_, h1, h2, h3, ?_, ?_, ?_, fun hs => reachable_output_unit s hs c⟩
  · intro k hk
    obtain ⟨a1, a2, _⟩ := ticks_no_expiry c k s (by omega) (by omega)
    exact ⟨by rw [a1, hcnt], a2⟩
  · intro k hk
    rw [half_period_polarity c hc s p hp hp2 hcnt hper k (by omega), if_neg (by omega)]
  · rw [half_period_polarity c hc s p hp hp2 hcnt hper (p - 1) (by omega), if_pos (by omega)]
  · intro ho
    obtain ⟨_, g2, g3, g4⟩ := ticks_half_period c s p hp hp2 hcnt hper ho
    have ho2 : (sn_ticks s p).output c = 1 ∨ (sn_ticks s p).output c = -1 := by
      rw [g2]; rcases ho with h | h <;> rw [h] <;> decide
    obtain ⟨e1, e2, e3, _⟩ := ticks_half_period c (sn_ticks s p) p hp hp2 h1 h2 ho2
    have h2p : 2 * p = p + p := by omega
    refine ⟨g4, g3, g2, ?_, ?_, ?_, ?_⟩
    · intro k hk
      rw [sn_ticks_add, half_period_polarity c hc _ p hp hp2 h1 h2 k hk,
        half_period_polarity c hc s p hp hp2 hcnt hper k hk, g2]
      rcases ho with h | h <;> rw [h] <;> split_ifs <;> decide
    · rw [h2p, sn_ticks_add, e1]
    · rw [h2p, sn_ticks_add, e2, g2, neg_neg]
    · rw [h2p, output_toggles_add, g3, e3]

/-- Witness for C20: tone channel 0 with period and counter 2 and the power-on output. -/
theorem C20_steady_square_wave_witness :
    (0 : Fin 4) ≠ 3 ∧ square_wave_example.period 0 = 2 ∧ square_wave_example.counter 0 = 2 ∧
    (sn_ticks square_wave_example 2).counter 0 = 2 ∧
    (sn_ticks square_wave_example 2).output 0 = to_int8 (-(square_wave_example.output 0)) ∧
    sn_tick_polarity (sn_ticks square_wave_example (2 - 1)) 0 =
      to_int8 (-(square_wave_example.output 0)) :=
  have h := C20_steady_square_wave square_wave_example 0 2 (by decide) (by decide) (by decide)
    rfl rfl
  ⟨by decide, rfl, rfl, h.2.1, h.2.2.2.1, h.2.2.2.2.2.1⟩

/-! ## The cycles of the noise shift register -/

theorem strict_iterate_succ (f : Nat → Nat) (n x : Nat) :
    strict_iterate f (n + 1) x = strict_iterate f n (f x) := by
  show (match f x with
    | 0 => strict_iterate f n 0
    | y + 1 => strict_iterate f n (y + 1)) = _
  cases f x <;> rfl

theorem strict_iterate_eq (f : Nat → Nat) (n : Nat) : ∀ x, strict_iterate f n x = f^[n] x := by
  induction n with
  | zero => intro x; rfl
  | succ n ih =>
    intro x
    rw [Function.iterate_succ_apply, ← ih (f x), strict_iterate_succ]

/-- The white advance in arithmetic. -/
theorem white_advance_arith (n : Nat) (h : n < 32768) :
    noise_rng_advance 1 n = 16384 * ((n % 2 + n / 2 % 2) % 2) + n / 2 := by
  unfold noise_rng_advance
  rw [if_neg (by decide)]
  exact white_advance_eq n h

/-- The feedback bit of the white advance, by cases on the two low bits. -/
theorem white_bit_cases (n : Nat) :
    (n % 4 = 0 ∧ (n % 2 + n / 2 % 2) % 2 = 0) ∨ (n % 4 = 1 ∧ (n % 2 + n / 2 % 2) % 2 = 1) ∨
      (n % 4 = 2 ∧ (n % 2 + n / 2 % 2) % 2 = 1) ∨ (n % 4 = 3 ∧ (n % 2 + n / 2 % 2) % 2 = 0) := by
  have h : n % 4 = 0 ∨ n % 4 = 1 ∨ n % 4 = 2 ∨ n % 4 = 3 := by omega
  rcases h with h | h | h | h
  · left
    have h0 : n % 2 = 0 := by omega
    have h1 : n / 2 % 2 = 0 := by omega
    exact ⟨h, by rw [h0, h1]⟩
  · right; left
    have h0 : n % 2 = 1 := by omega
    have h1 : n / 2 % 2 = 0 := by omega
    exact ⟨h, by rw [h0, h1]⟩
  · right; right; left
    have h0 : n % 2 = 0 := by omega
    have h1 : n / 2 % 2 = 1 := by omega
    exact ⟨h, by rw [h0, h1]⟩
  · right; right; right
    have h0 : n % 2 = 1 := by omega
    have h1 : n / 2 % 2 = 1 := by omega
    exact ⟨h, by rw [h0, h1]⟩

theorem white_advance_range (n : Nat) (h1 : 1 ≤ n) (h2 : n ≤ 32767) :
    1 ≤ noise_rng_advance 1 n ∧ noise_rng_advance 1 n ≤ 32767 := by
  rw [white_advance_arith n (by omega)]
  rcases white_bit_cases n with ⟨h, hb⟩ | ⟨h, hb⟩ | ⟨h, hb⟩ | ⟨h, hb⟩ <;> rw [hb] <;> omega

theorem white_advance_injective (a b : Nat) (ha : a ≤ 32767) (hb : b ≤ 32767)
    (h : noise_rng_advance 1 a = noise_rng_advance 1 b) : a = b := by
  rw [white_advance_arith a (by omega), white_advance_arith b (by omega)] at h
  rcases white_bit_cases a with ⟨h1, hb1⟩ | ⟨h1, hb1⟩ | ⟨h1, hb1⟩ | ⟨h1, hb1⟩ <;>
    rcases white_bit_cases b with ⟨h2, hb2⟩ | ⟨h2, hb2⟩ | ⟨h2, hb2⟩ | ⟨h2, hb2⟩ <;>
    rw [hb1, hb2] at h <;> omega

theorem white_advance_surjective (m : Nat) (h1 : 1 ≤ m) (h2 : m ≤ 32767) :
    ∃ n, 1 ≤ n ∧ n ≤ 32767 ∧ noise_rng_advance 1 n = m := by
  have key : ∀ n, n ≤ 32767 → 1 ≤ n → 16384 * ((n % 2 + n / 2 % 2) % 2) + n / 2 = m →
      ∃ n, 1 ≤ n ∧ n ≤ 32767 ∧ noise_rng_advance 1 n = m :=
    fun n hn h1n h => ⟨n, h1n, hn, by rw [white_advance_arith n (by omega), h]⟩
  have hc : (m < 16384 ∧ m % 2 = 0) ∨ (m < 16384 ∧ m % 2 = 1) ∨
      (16384 ≤ m ∧ m % 2 = 0) ∨ (16384 ≤ m ∧ m % 2 = 1) := by omega
  rcases hc with ⟨ha, hb⟩ | ⟨ha, hb⟩ | ⟨ha, hb⟩ | ⟨ha, hb⟩
  · refine key (2 * m) (by omega) (by omega) ?_
    rcases white_bit_cases (2 * m) with ⟨h, e⟩ | ⟨h, e⟩ | ⟨h, e⟩ | ⟨h, e⟩ <;> rw [e] <;> omega
  · refine key (2 * m + 1) (by omega) (by omega) ?_
    rcases white_bit_cases (2 * m + 1) with ⟨h, e⟩ | ⟨h, e⟩ | ⟨h, e⟩ | ⟨h, e⟩ <;>
      rw [e] <;> omega
  · refine key (2 * (m - 16384) + 1) (by omega) (by omega) ?_
    rcases white_bit_cases (2 * (m - 16384) + 1) with ⟨h, e⟩ | ⟨h, e⟩ | ⟨h, e⟩ | ⟨h, e⟩ <;>
      rw [e] <;> omega
  · refine key (2 * (m - 16384)) (by omega) (by omega) ?_
    rcases white_bit_cases (2 * (m - 16384)) with ⟨h, e⟩ | ⟨h, e⟩ | ⟨h, e⟩ | ⟨h, e⟩ <;>
      rw [e] <;> omega

theorem white_return : (noise_rng_advance 1)^[32767] 16384 = 16384 := by
  rw [← strict_iterate_eq]
  decide!

theorem white_no_return_4681 : (noise_rng_advance 1)^[4681] 16384 ≠ 16384 := by
  rw [← strict_iterate_eq]
  decide!

theorem white_no_return_1057 : (noise_rng_advance 1)^[1057] 16384 ≠ 16384 := by
  rw [← strict_iterate_eq]
  decide!

theorem white_no_return_217 : (noise_rng_advance 1)^[217] 16384 ≠ 16384 := by
  rw [← strict_iterate_eq]
  decide!

theorem period_of_dvd (d : Nat) (h : d ∣ 32767) (h7 : ¬ d ∣ 4681) (h31 : ¬ d ∣ 1057)
    (h151 : ¬ d ∣ 217) : d = 32767 := by
  have p7 : Nat.Prime 7 := by norm_num
  have p31 : Nat.Prime 31 := by norm_num
  have p151 : Nat.Prime 151 := by norm_num
  have d7 : 7 ∣ d := by
    rcases Nat.coprime_or_dvd_of_prime p7 d with hc | hd
    · exact absurd (hc.symm.dvd_of_dvd_mul_left (by simpa using h)) h7
    · exact hd
  have d31 : 31 ∣ d := by
    rcases Nat.coprime_or_dvd_of_prime p31 d with hc | hd
    · exact absurd (hc.symm.dvd_of_dvd_mul_left (by simpa using h)) h31
    · exact hd
  have d151 : 151 ∣ d := by
    rcases Nat.coprime_or_dvd_of_prime p151 d with hc | hd
    · exact absurd (hc.symm.dvd_of_dvd_mul_left (by simpa using h)) h151
    · exact hd
  have c1 : Nat.Coprime 7 31 := by norm_num
  have c2 : Nat.Coprime (7 * 31) 151 := by norm_num
  have := c2.mul_dvd_of_dvd_of_dvd (c1.mul_dvd_of_dvd_of_dvd d7 d31) d151
  exact Nat.dvd_antisymm h (by simpa using this)

theorem white_minimal_period : Function.minimalPeriod (noise_rng_advance 1) 16384 = 32767 := by
  have hper : Function.IsPeriodicPt (noise_rng_advance 1) 32767 16384 := white_return
  apply period_of_dvd _ hper.minimalPeriod_dvd
  · intro h
    exact white_no_return_4681 (Function.isPeriodicPt_iff_minimalPeriod_dvd.mpr h)
  · intro h
    exact white_no_return_1057 (Function.isPeriodicPt_iff_minimalPeriod_dvd.mpr h)
  · intro h
    exact white_no_return_217 (Function.isPeriodicPt_iff_minimalPeriod_dvd.mpr h)

theorem white_iterate_range (k : Nat) :
    1 ≤ (noise_rng_advance 1)^[k] 16384 ∧ (noise_rng_advance 1)^[k] 16384 ≤ 32767 := by
  induction k with
  | zero => exact ⟨by decide, by decide⟩
  | succ k ih =>
    rw [Function.iterate_succ_apply']
    exact white_advance_range _ ih.1 ih.2

theorem white_orbit_covers (n : Nat) (h1 : 1 ≤ n) (h2 : n ≤ 32767) :
    ∃ k, k < 32767 ∧ (noise_rng_advance 1)^[k] 16384 = n := by
  have hinj : Set.InjOn (fun k => (noise_rng_advance 1)^[k] 16384)
      (Finset.range 32767 : Set Nat) := by
    have := Function.iterate_injOn_Iio_minimalPeriod (f := noise_rng_advance 1) (x := 16384)
    rw [white_minimal_period] at this
    rwa [Finset.coe_range]
  have hsub : (Finset.range 32767).image (fun k => (noise_rng_advance 1)^[k] 16384) ⊆
      Finset.Icc 1 32767 := by
    intro x hx
    obtain ⟨k, _, rfl⟩ := Finset.mem_image.mp hx
    exact Finset.mem_Icc.mpr (white_iterate_range k)
  have hcard : (Finset.Icc 1 32767).card ≤
      ((Finset.range 32767).image (fun k => (noise_rng_advance 1)^[k] 16384)).card := by
    rw [Finset.card_image_of_injOn hinj, Finset.card_range, Nat.card_Icc]
  have heq := Finset.eq_of_subset_of_card_le hsub hcard
  have hn : n ∈ Finset.Icc 1 32767 := Finset.mem_Icc.mpr ⟨h1, h2⟩
  rw [← heq] at hn
  obtain ⟨k, hk, rfl⟩ := Finset.mem_image.mp hn
  exact ⟨k, Finset.mem_range.mp hk, rfl⟩

/-- C21. Periodic noise has period 15: from the re-seed value `1 << 14 = 16384`, the
periodic advance (`noise_type = 0`) gives `2 ^ (14 - k)` after `k <= 14` advances, returns
to `1 << 14` after 15 advances and after no smaller positive number, and bit 0 of the
register is set after exactly one of the 15 advances, the 14th. A tick that advances the
register with `noise_type = 0` applies this advance. -/
theorem C21_periodic_noise_period :
    (1 <<< 14 : Nat) = 16384 ∧
    (noise_rng_advance 0)^[15] 16384 = 16384 ∧
    (∀ k, 1 ≤ k → k < 15 → (noise_rng_advance 0)^[k] 16384 ≠ 16384) ∧
    (∀ k, k < 15 → (noise_rng_advance 0)^[k] 16384 = 2 ^ (14 - k)) ∧
    (∀ k, 1 ≤ k → k < 16 → ((noise_rng_advance 0)^[k] 16384 % 2 = 1 ↔ k = 14)) ∧
    (∀ s : sound_struct, lfsr_advances s → s.noise_type = 0 →
      (sn_tick s).1.noise_rng = noise_rng_advance 0 s.noise_rng) := by
  refine ⟨by decide, by decide, by decide, by decide, by decide, ?_⟩
  intro s ha ht
  rw [sn_tick_noise_rng_advance s ha, ht]

/-- Witness for C21: the 14th advance from the re-seed value sets bit 0, the 3rd does not
return to the re-seed value. -/
theorem C21_periodic_noise_period_witness :
    (noise_rng_advance 0)^[14] 16384 % 2 = 1 ∧ (noise_rng_advance 0)^[3] 16384 ≠ 16384 :=
  ⟨(C21_periodic_noise_period.2.2.2.2.1 14 (by decide) (by decide)).mpr rfl,
    C21_periodic_noise_period.2.2.1 3 (by decide) (by decide)⟩

/-- C22. White noise is a maximal-length sequence. For every non-zero `noise_type` the
advance is `n -> (n >> 1) | (((n & 1) XOR ((n >> 1) & 1)) << 14)`; it is a bijection of the
non-zero 15-bit values `1..32767`; from the re-seed value `1 << 14 = 16384` it returns to
`1 << 14` after 32767 advances and after no smaller positive number; and every value in
`1..32767` is reached after exactly one number `k < 32767` of advances. -/
theorem C22_white_noise_maximal :
    (∀ t : Int, t ≠ 0 → ∀ n, noise_rng_advance t n =
      (n >>> 1) ||| (((n &&& 1) ^^^ ((n >>> 1) &&& 1)) <<< 14)) ∧
    (∀ s : sound_struct, lfsr_advances s → s.noise_type = 1 →
      (sn_tick s).1.noise_rng = noise_rng_advance 1 s.noise_rng) ∧
    Set.BijOn (noise_rng_advance 1) (Set.Icc 1 32767) (Set.Icc 1 32767) ∧
    (1 <<< 14 : Nat) = 16384 ∧
    (noise_rng_advance 1)^[32767] 16384 = 16384 ∧
    (∀ k, 0 < k → k < 32767 → (noise_rng_advance 1)^[k] 16384 ≠ 16384) ∧
    (∀ n, 1 ≤ n → n ≤ 32767 →
      ∃! k, k < 32767 ∧ (noise_rng_advance 1)^[k] 16384 = n) := by
  refine ⟨?_, ?_, ⟨?_, ?_, ?_⟩, by decide, white_return, ?_, ?_⟩
  · intro t ht n
    unfold noise_rng_advance
    rw [if_neg ht]
    have : (n &&& 2) >>> 1 = (n >>> 1) &&& 1 := by
      rw [and_2_shift, Nat.and_one_is_mod, Nat.shiftRight_eq_div_pow, pow_one]
    simp only [this]
  · intro s ha ht
    rw [sn_tick_noise_rng_advance s ha, ht]
  · intro n hn
    exact white_advance_range n hn.1 hn.2
  · intro a ha b hb h
    exact white_advance_injective a b ha.2 hb.2 h
  · intro m hm
    obtain ⟨n, h1, h2, h3⟩ := white_advance_surjective m hm.1 hm.2
    exact ⟨n, ⟨h1, h2⟩, h3⟩
  · intro k hk0 hk h
    have hlt : k < Function.minimalPeriod (noise_rng_advance 1) 16384 := by
      rw [white_minimal_period]; exact hk
    exact Function.not_isPeriodicPt_of_pos_of_lt_minimalPeriod (by omega) hlt h
  · intro n h1 h2
    obtain ⟨k, hk, hn⟩ := white_orbit_covers n h1 h2
    refine ⟨k, ⟨hk, hn⟩, ?_⟩
    rintro j ⟨hj, hjn⟩
    have hinj := Function.iterate_injOn_Iio_minimalPeriod (f := noise_rng_advance 1)
      (x := 16384)
    rw [white_minimal_period] at hinj
    exact hinj hj hk (hjn.trans hn.symm)

/-- Witness for C22: the value 1 is reached after exactly one number of advances, and 100
advances do not return to the re-seed value. -/
theorem C22_white_noise_maximal_witness :
    (∃! k, k < 32767 ∧ (noise_rng_advance 1)^[k] 16384 = 1) ∧
      (noise_rng_advance 1)^[100] 16384 ≠ 16384 :=
  ⟨C22_white_noise_maximal.2.2.2.2.2.2 1 (by decide) (by decide),
    C22_white_noise_maximal.2.2.2.2.2.1 100 (by decide) (by decide)⟩

/-! ## A parameter write with no parameter pending -/

/-- The two embeddings of `intel_fdc_do_command` agree: the one with the failures told
apart succeeds exactly when the other does, with the same state. -/
theorem do_command_checked_eq (p : intel_fdc_struct) :
    intel_fdc_do_command p = (intel_fdc_do_command_checked p).toOption := by
  unfold intel_fdc_do_command intel_fdc_do_command_checked
  by_cases h0 : p.parameters_needed ≠ 0
  · rw [if_pos h0, if_pos h0]; rfl
  rw [if_neg h0, if_neg h0]
  simp only
  split_ifs
  · cases fdc_set_track p (p.parameters 0) <;> rfl
  · cases fdc_set_track p (p.parameters 0) <;> rfl
  all_goals rfl

/-- A write to the parameter register while no parameter is needed: nothing is stored and
the handler is called on the unchanged state. -/
theorem fdc_param_write_idle (p : intel_fdc_struct) (addr val : Nat)
    (ha : addr &&& 0x07 = 1) (h : p.parameters_needed = 0) :
    intel_fdc_write_pre p addr val = some (p, true) ∧
      intel_fdc_write p addr val = intel_fdc_do_command p := by
  have h0 : ¬ (addr &&& 0x07 = 0) := by rw [ha]; decide
  have hn : ¬ (0 < p.parameters_needed) := by rw [h]; decide
  have hpre : intel_fdc_write_pre p addr val = some (p, true) := by
    unfold intel_fdc_write_pre
    rw [if_neg h0, if_pos ha, if_neg hn]
    simp only [h, decide_True]
  refine ⟨hpre, ?_⟩
  unfold intel_fdc_write
  rw [hpre]

/-- The store into `current_track` leaves the parameters, their index and the command
alone. -/
theorem fdc_set_track_params (p q : intel_fdc_struct) (v : Nat)
    (h : fdc_set_track p v = some q) :
    q.parameters = p.parameters ∧ q.parameters_index = p.parameters_index ∧
      q.command = p.command := by
  unfold fdc_set_track at h
  split at h
  · rw [← Option.some.inj h]; exact ⟨rfl, rfl, rfl⟩
  · exact absurd h (by simp only [reduceCtorEq, not_false_eq_true])

/-- The handler leaves the parameters, their index and the command alone. -/
theorem do_command_params (p q : intel_fdc_struct) (h : intel_fdc_do_command p = some q) :
    q.parameters = p.parameters ∧ q.parameters_index = p.parameters_index ∧
      q.command = p.command := by
  unfold intel_fdc_do_command at h
  simp only at h
  split_ifs at h with h0 h1 h2 h3 h4 h5 h6 h7
  · exact fdc_set_track_params p q _ h
  · rw [Option.map_eq_some'] at h
    obtain ⟨t, ht, hq⟩ := h
    obtain ⟨a, b, c⟩ := fdc_set_track_params p t _ ht
    rw [← hq]
    exact ⟨a, b, c⟩
  all_goals (rw [← Option.some.inj h]; exact ⟨rfl, rfl, rfl⟩)

/-- C24. Parameter write with nothing pending. For every controller state with
`parameters_needed = 0`, a write to the parameter register (any address with
`addr & 7 = 1`) stores nothing: the state handed to `intel_fdc_do_command` is the state
before the write, so `parameters[]`, `parameters_index` and the latched command are
unchanged, and the handler is called on it; when the handler returns they are still
unchanged. On the controller made by `intel_fdc_create`
(`parameters_needed = 0`, `command = 0`) the handler passes its first assertion, matches
no `case` and fails in the `default: assert(0)` of the command switch, so the write
fails. -/
theorem C24_fdc_parameter_write_idle (p : intel_fdc_struct) (addr val : Nat)
    (ha : addr &&& 0x07 = 1) (h : p.parameters_needed = 0) :
    (intel_fdc_write_pre p addr val = some (p, true) ∧
      intel_fdc_write p addr val = intel_fdc_do_command p ∧
      intel_fdc_do_command p = (intel_fdc_do_command_checked p).toOption ∧
      ∀ q, intel_fdc_write p addr val = some q →
        q.parameters = p.parameters ∧ q.parameters_index = p.parameters_index ∧
          q.command = p.command) ∧
    (intel_fdc_create.parameters_needed = 0 ∧ intel_fdc_create.command = 0 ∧
      intel_fdc_write_pre intel_fdc_create addr val = some (intel_fdc_create, true) ∧
      intel_fdc_do_command_checked intel_fdc_create =
        Except.error fdc_failure.unknown_command ∧
      intel_fdc_write intel_fdc_create addr val = none) := by
  obtain ⟨h1, h2⟩ := fdc_param_write_idle p addr val ha h
  obtain ⟨c1, c2⟩ := fdc_param_write_idle intel_fdc_create addr val ha rfl
  refine ⟨⟨h1, h2, do_command_checked_eq p,
    fun q hq => do_command_params p q (h2 ▸ hq)⟩, rfl, rfl, c1, rfl, ?_⟩
  rw [c2]
  rfl

/-- Witness for C24: after a completed "specify" command state (command `0x35`, nothing
pending) a byte written to the parameter register runs the handler again. -/
theorem C24_fdc_parameter_write_idle_witness :
    (1 : Nat) &&& 0x07 = 1 ∧ fdc_idle_example.parameters_needed = 0 ∧
      intel_fdc_write_pre fdc_idle_example 1 0x55 = some (fdc_idle_example, true) ∧
      intel_fdc_write fdc_idle_example 1 0x55 = intel_fdc_do_command fdc_idle_example :=
  have h := C24_fdc_parameter_write_idle fdc_idle_example 1 0x55 (by decide) rfl
  ⟨by decide, rfl, h.1.1, h.1.2.1⟩

/-! ## The reads of the resampler -/

/-- The resampler reads once per driver frame. -/
theorem resample_reads_length (step : Nat × Nat) (n : Nat) :
    ∀ x, (resample_reads step n x).length = n := by
  induction n with
  | zero => intro x; rfl
  | succ n ih => intro x; simp only [resample_reads, List.length_cons, ih]

/-- Read `i` of the resampler is at the rounded index reached after `i` additions of the
step. -/
theorem resample_reads_getD (step : Nat × Nat) (n : Nat) :
    ∀ (x : Nat × Nat) (i : Nat), i < n →
      (resample_reads step n x).getD i none =
        double_round_uint32 ((fun a => double_add a step)^[i] x) := by
  induction n with
  | zero => intro x i hi; exact absurd hi (Nat.not_lt_zero i)
  | succ n ih =>
    intro x i hi
    cases i with
    | zero => rfl
    | succ i =>
      simp only [resample_reads, List.getD_cons_succ, Function.iterate_succ_apply]
      exact ih _ i (by omega)

/-- The scale found by `double_exponent` is the only one that puts the quotient in
`[2^52, 2^53)`. -/
theorem double_exponent_unique (b : Nat) (fuel : Nat) :
    ∀ a k, k ≤ fuel → 2 ^ 52 * b ≤ a * 2 ^ k → a * 2 ^ k < 2 ^ 53 * b →
      double_exponent a b fuel = k := by
  induction fuel with
  | zero =>
    intro a k hk _ _
    have : k = 0 := by omega
    subst this
    rfl
  | succ fuel ih =>
    intro a k hk h1 h2
    unfold double_exponent
    by_cases h0 : 2 ^ 52 * b ≤ a
    · rw [if_pos h0]
      rcases Nat.eq_zero_or_pos k with hk0 | hk0
      · exact hk0.symm
      · exfalso
        have h3 : 2 ≤ 2 ^ k := by
          calc 2 = 2 ^ 1 := by norm_num
            _ ≤ 2 ^ k := Nat.pow_le_pow_right (by norm_num) hk0
        have h4 : a * 2 ≤ a * 2 ^ k := Nat.mul_le_mul_left a h3
        have h5 : (2 : Nat) ^ 53 * b = 2 * (2 ^ 52 * b) := by ring
        omega
    · rw [if_neg h0]
      rcases Nat.eq_zero_or_pos k with hk0 | hk0
      · subst hk0
        simp only [pow_zero, Nat.mul_one] at h1
        exact absurd h1 h0
      · obtain ⟨j, rfl⟩ : ∃ j, k = j + 1 := ⟨k - 1, by omega⟩
        have e : a * 2 ^ (j + 1) = 2 * a * 2 ^ j := by ring
        rw [e] at h1 h2
        rw [ih (2 * a) j (by omega) h1 h2]
        omega

/-- Rounding a quotient does not depend on a common factor. -/
theorem round_half_even_scale (t x y : Nat) (ht : 0 < t) :
    round_half_even (t * x) (t * y) = round_half_even x y := by
  unfold round_half_even
  rw [Nat.mul_div_mul_left x y ht, Nat.mul_mod_mul_left]
  have e1 : (2 * (t * (x % y)) < t * y) = (2 * (x % y) < y) := by
    rw [show 2 * (t * (x % y)) = t * (2 * (x % y)) by ring]
    exact propext (Nat.mul_lt_mul_left ht)
  have e2 : (t * y < 2 * (t * (x % y))) = (y < 2 * (x % y)) := by
    rw [show 2 * (t * (x % y)) = t * (2 * (x % y)) by ring]
    exact propext (Nat.mul_lt_mul_left ht)
  simp only [e1, e2]

/-- Rounding `M + m / U` moves the whole part `M` out when `m / U` is not a tie. -/
theorem round_half_even_add_mul (M m U : Nat) (hU : 0 < U) (hnt : 2 * (m % U) ≠ U) :
    round_half_even (M * U + m) U = M + round_half_even m U := by
  have hd : (M * U + m) / U = M + m / U := by
    rw [Nat.add_comm, Nat.add_mul_div_right _ _ hU, Nat.add_comm]
  have hm : (M * U + m) % U = m % U := by
    rw [Nat.add_comm, Nat.add_mul_mod_self_right]
  unfold round_half_even
  rw [hd, hm]
  split_ifs <;> omega

/-- One `double` addition of the step `m / 2^e` to an accumulator `M / 2^k` of a coarser
grid, when the sum stays in the binade and the step is not a tie on that grid: the
significand moves by the step rounded to the grid. -/
theorem double_add_step (M k m e : Nat) (hke : k ≤ e) (hk : k ≤ 128) (hM : 2 ^ 52 ≤ M)
    (hnt : 2 * (m % 2 ^ (e - k)) ≠ 2 ^ (e - k))
    (hlt : M + round_half_even m (2 ^ (e - k)) < 2 ^ 53) :
    double_add (M, k) (m, e) = (M + round_half_even m (2 ^ (e - k)), k) := by
  have hU : (0 : Nat) < 2 ^ (e - k) := by positivity
  have hT : (0 : Nat) < 2 ^ k * 2 ^ k := by positivity
  have he : (2 : Nat) ^ e = 2 ^ k * 2 ^ (e - k) := by
    rw [← pow_add]; congr 1; omega
  have ha : (M * 2 ^ e + m * 2 ^ k) * 2 ^ k = 2 ^ k * 2 ^ k * (M * 2 ^ (e - k) + m) := by
    rw [he]; ring
  have hb : (2 : Nat) ^ (k + e) = 2 ^ k * 2 ^ k * 2 ^ (e - k) := by
    rw [pow_add, he]; ring
  have hr := round_half_even_bound m (2 ^ (e - k)) hU
  have hexp : double_exponent (M * 2 ^ e + m * 2 ^ k) (2 ^ (k + e)) 128 = k := by
    apply double_exponent_unique _ 128 _ k hk
    · rw [ha, hb]
      calc 2 ^ 52 * (2 ^ k * 2 ^ k * 2 ^ (e - k))
          = 2 ^ k * 2 ^ k * (2 ^ 52 * 2 ^ (e - k)) := by ring
        _ ≤ 2 ^ k * 2 ^ k * (M * 2 ^ (e - k) + m) :=
          Nat.mul_le_mul_left _
            (Nat.le_trans (Nat.mul_le_mul_right _ hM) (Nat.le_add_right _ _))
    · rw [ha, hb]
      have h1 : M * 2 ^ (e - k) + m < 2 ^ 53 * 2 ^ (e - k) := by
        have h2 : (M + round_half_even m (2 ^ (e - k)) + 1) * 2 ^ (e - k) ≤
            2 ^ 53 * 2 ^ (e - k) := Nat.mul_le_mul_right _ hlt
        have h3 : (M + round_half_even m (2 ^ (e - k)) + 1) * 2 ^ (e - k) =
            M * 2 ^ (e - k) + round_half_even m (2 ^ (e - k)) * 2 ^ (e - k) +
              2 ^ (e - k) := by ring
        omega
      calc 2 ^ k * 2 ^ k * (M * 2 ^ (e - k) + m)
          < 2 ^ k * 2 ^ k * (2 ^ 53 * 2 ^ (e - k)) := Nat.mul_lt_mul_of_pos_left h1 hT
        _ = 2 ^ 53 * (2 ^ k * 2 ^ k * 2 ^ (e - k)) := by ring
  show double_of_quotient (M * 2 ^ e + m * 2 ^ k) (2 ^ (k + e)) = _
  unfold double_of_quotient
  simp only [hexp]
  rw [ha, hb, round_half_even_scale _ _ _ hT, round_half_even_add_mul M m _ hU hnt]

/-- A run of `double` additions of the step inside one binade: the significand moves by
the rounded step each time. -/
theorem double_add_run (k m e : Nat) (hke : k ≤ e) (hk : k ≤ 128)
    (hnt : 2 * (m % 2 ^ (e - k)) ≠ 2 ^ (e - k)) (n : Nat) :
    ∀ M M', 2 ^ 52 ≤ M → M' = M + n * round_half_even m (2 ^ (e - k)) → M' < 2 ^ 53 →
      (fun a => double_add a (m, e))^[n] (M, k) = (M', k) := by
  induction n with
  | zero =>
    intro M M' _ h _
    rw [h, Nat.zero_mul, Nat.add_zero]
    rfl
  | succ n ih =>
    intro M M' hM h hlt
    have hc : M + round_half_even m (2 ^ (e - k)) < 2 ^ 53 := by
      have : M + round_half_even m (2 ^ (e - k)) ≤ M' := by
        rw [h, Nat.succ_mul]; omega
      omega
    rw [Function.iterate_succ_apply, double_add_step M k m e hke hk hM hnt hc]
    exact ih _ M' (by omega) (by rw [h, Nat.succ_mul]; omega) hlt

/-- The `double` accumulator of the resampler at 499999 Hz after 499998 additions of the
step `250000.0 / 499999`: in each binade the significand moves by the step rounded to the
grid of the binade, and the steps that cross into the next binade are evaluated one by
one. The accumulated value is `249999.5000009...`, above the exact `249999.4999990...`. -/
theorem resample_index_499998 :
    (fun a => double_add a (4503608634587765, 53))^[499998] (0, 0) = (8589917412162166, 35) := by
  have h0 : (fun a => double_add a (4503608634587765, 53))^[0] (0, 0) = (0, 0) := rfl
  have h1 : (fun a => double_add a (4503608634587765, 53))^[1] (0, 0) = (4503608634587765, 53) := by
    rw [show (1 : Nat) = 1 + 0 from rfl, Function.iterate_add_apply, h0]
    rfl
  have h2 : (fun a => double_add a (4503608634587765, 53))^[2] (0, 0) = (4503608634587765, 52) := by
    rw [show (2 : Nat) = 1 + 1 from rfl, Function.iterate_add_apply, h1]
    rfl
  have h3 : (fun a => double_add a (4503608634587765, 53))^[3] (0, 0) = (6755412951881648, 52) := by
    rw [show (3 : Nat) = 1 + 2 from rfl, Function.iterate_add_apply, h2]
    rfl
  have h4 : (fun a => double_add a (4503608634587765, 53))^[4] (0, 0) = (4503608634587765, 51) := by
    rw [show (4 : Nat) = 1 + 3 from rfl, Function.iterate_add_apply, h3]
    rfl
  have h5 : (fun a => double_add a (4503608634587765, 53))^[7] (0, 0) = (7881315110528588, 51) := by
    rw [show (7 : Nat) = 3 + 4 from rfl, Function.iterate_add_apply, h4]
    exact double_add_run 51 4503608634587765 53 (by decide) (by decide) (by decide) 3
      4503608634587765 7881315110528588 (by decide) (by decide) (by decide)
  have h6 : (fun a => double_add a (4503608634587765, 53))^[8] (0, 0) = (4503608634587765, 50) := by
    rw [show (8 : Nat) = 1 + 7 from rfl, Function.iterate_add_apply, h5]
    rfl
  have h7 : (fun a => double_add a (4503608634587765, 53))^[15] (0, 0) = (8444266189852062, 50) := by
    rw [show (15 : Nat) = 7 + 8 from rfl, Function.iterate_add_apply, h6]
    exact double_add_run 50 4503608634587765 53 (by decide) (by decide) (by decide) 7
      4503608634587765 8444266189852062 (by decide) (by decide) (by decide)
  have h8 : (fun a => double_add a (4503608634587765, 53))^[16] (0, 0) = (4503608634587766, 49) := by
    rw [show (16 : Nat) = 1 + 15 from rfl, Function.iterate_add_apply, h7]
    rfl
  have h9 : (fun a => double_add a (4503608634587765, 53))^[31] (0, 0) = (8725741729513791, 49) := by
    rw [show (31 : Nat) = 15 + 16 from rfl, Function.iterate_add_apply, h8]
    exact double_add_run 49 4503608634587765 53 (by decide) (by decide) (by decide) 15
      4503608634587766 8725741729513791 (by decide) (by decide) (by decide)
  have h10 : (fun a => double_add a (4503608634587765, 53))^[32] (0, 0) = (4503608634587763, 48) := by
    rw [show (32 : Nat) = 1 + 31 from rfl, Function.iterate_add_apply, h9]
    rfl
  have h11 : (fun a => double_add a (4503608634587765, 53))^[63] (0, 0) = (8866479499344671, 48) := by
    rw [show (63 : Nat) = 31 + 32 from rfl, Function.iterate_add_apply, h10]
    exact double_add_run 48 4503608634587765 53 (by decide) (by decide) (by decide) 31
      4503608634587763 8866479499344671 (by decide) (by decide) (by decide)
  have h12 : (fun a => double_add a (4503608634587765, 53))^[64] (0, 0) = (4503608634587769, 47) := by
    rw [show (64 : Nat) = 1 + 63 from rfl, Function.iterate_add_apply, h11]
    rfl
  have h13 : (fun a => double_add a (4503608634587765, 53))^[127] (0, 0) = (8936848384260111, 47) := by
    rw [show (127 : Nat) = 63 + 64 from rfl, Function.iterate_add_apply, h12]
    exact double_add_run 47 4503608634587765 53 (by decide) (by decide) (by decide) 63
      4503608634587769 8936848384260111 (by decide) (by decide) (by decide)
  have h14 : (fun a => double_add a (4503608634587765, 53))^[128] (0, 0) = (4503608634587772, 46) := by
    rw [show (128 : Nat) = 1 + 127 from rfl, Function.iterate_add_apply, h13]
    rfl
  have h15 : (fun a => double_add a (4503608634587765, 53))^[255] (0, 0) = (8972032826717831, 46) := by
    rw [show (255 : Nat) = 127 + 128 from rfl, Function.iterate_add_apply, h14]
    exact double_add_run 46 4503608634587765 53 (by decide) (by decide) (by decide) 127
      4503608634587772 8972032826717831 (by decide) (by decide) (by decide)
  have h16 : (fun a => double_add a (4503608634587765, 53))^[256] (0, 0) = (4503608634587774, 45) := by
    rw [show (256 : Nat) = 1 + 255 from rfl, Function.iterate_add_apply, h15]
    rfl
  have h17 : (fun a => double_add a (4503608634587765, 53))^[511] (0, 0) = (8989625047946564, 45) := by
    rw [show (511 : Nat) = 255 + 256 from rfl, Function.iterate_add_apply, h16]
    exact double_add_run 45 4503608634587765 53 (by decide) (by decide) (by decide) 255
      4503608634587774 8989625047946564 (by decide) (by decide) (by decide)
  have h18 : (fun a => double_add a (4503608634587765, 53))^[512] (0, 0) = (4503608634587711, 44) := by
    rw [show (512 : Nat) = 1 + 511 from rfl, Function.iterate_add_apply, h17]
    rfl
  have h19 : (fun a => double_add a (4503608634587765, 53))^[1023] (0, 0) = (8998421158560930, 44) := by
    rw [show (1023 : Nat) = 511 + 512 from rfl, Function.iterate_add_apply, h18]
    exact double_add_run 44 4503608634587765 53 (by decide) (by decide) (by decide) 511
      4503608634587711 8998421158560930 (by decide) (by decide) (by decide)
  have h20 : (fun a => double_add a (4503608634587765, 53))^[1024] (0, 0) = (4503608634587680, 43) := by
    rw [show (1024 : Nat) = 1 + 1023 from rfl, Function.iterate_add_apply, h19]
    rfl
  have h21 : (fun a => double_add a (4503608634587765, 53))^[2047] (0, 0) = (9002819213868625, 43) := by
    rw [show (2047 : Nat) = 1023 + 1024 from rfl, Function.iterate_add_apply, h20]
    exact double_add_run 43 4503608634587765 53 (by decide) (by decide) (by decide) 1023
      4503608634587680 9002819213868625 (by decide) (by decide) (by decide)
  have h22 : (fun a => double_add a (4503608634587765, 53))^[2048] (0, 0) = (4503608634587920, 42) := by
    rw [show (2048 : Nat) = 1 + 2047 from rfl, Function.iterate_add_apply, h21]
    rfl
  have h23 : (fun a => double_add a (4503608634587765, 53))^[4095] (0, 0) = (9005018241521449, 42) := by
    rw [show (4095 : Nat) = 2047 + 2048 from rfl, Function.iterate_add_apply, h22]
    exact double_add_run 42 4503608634587765 53 (by decide) (by decide) (by decide) 2047
      4503608634587920 9005018241521449 (by decide) (by decide) (by decide)
  have h24 : (fun a => double_add a (4503608634587765, 53))^[4096] (0, 0) = (4503608634587528, 41) := by
    rw [show (4096 : Nat) = 1 + 4095 from rfl, Function.iterate_add_apply, h23]
    rfl
  have h25 : (fun a => double_add a (4503608634587765, 53))^[8191] (0, 0) = (9006117755349908, 41) := by
    rw [show (8191 : Nat) = 4095 + 4096 from rfl, Function.iterate_add_apply, h24]
    exact double_add_run 41 4503608634587765 53 (by decide) (by decide) (by decide) 4095
      4503608634587528 9006117755349908 (by decide) (by decide) (by decide)
  have h26 : (fun a => double_add a (4503608634587765, 53))^[8192] (0, 0) = (4503608634588356, 40) := by
    rw [show (8192 : Nat) = 1 + 8191 from rfl, Function.iterate_add_apply, h25]
    rfl
  have h27 : (fun a => double_add a (4503608634587765, 53))^[16383] (0, 0) = (9006667512264138, 40) := by
    rw [show (16383 : Nat) = 8191 + 8192 from rfl, Function.iterate_add_apply, h26]
    exact double_add_run 40 4503608634587765 53 (by decide) (by decide) (by decide) 8191
      4503608634588356 9006667512264138 (by decide) (by decide) (by decide)
  have h28 : (fun a => double_add a (4503608634587765, 53))^[16384] (0, 0) = (4503608634588770, 39) := by
    rw [show (16384 : Nat) = 1 + 16383 from rfl, Function.iterate_add_apply, h27]
    rfl
  have h29 : (fun a => double_add a (4503608634587765, 53))^[32767] (0, 0) = (9006942390721253, 39) := by
    rw [show (32767 : Nat) = 16383 + 16384 from rfl, Function.iterate_add_apply, h28]
    exact double_add_run 39 4503608634587765 53 (by decide) (by decide) (by decide) 16383
      4503608634588770 9006942390721253 (by decide) (by decide) (by decide)
  have h30 : (fun a => double_add a (4503608634587765, 53))^[32768] (0, 0) = (4503608634588977, 38) := by
    rw [show (32768 : Nat) = 1 + 32767 from rfl, Function.iterate_add_apply, h29]
    rfl
  have h31 : (fun a => double_add a (4503608634587765, 53))^[65535] (0, 0) = (9007079829933427, 38) := by
    rw [show (65535 : Nat) = 32767 + 32768 from rfl, Function.iterate_add_apply, h30]
    exact double_add_run 38 4503608634587765 53 (by decide) (by decide) (by decide) 32767
      4503608634588977 9007079829933427 (by decide) (by decide) (by decide)
  have h32 : (fun a => double_add a (4503608634587765, 53))^[65536] (0, 0) = (4503608634580889, 37) := by
    rw [show (65536 : Nat) = 1 + 65535 from rfl, Function.iterate_add_apply, h31]
    rfl
  have h33 : (fun a => double_add a (4503608634587765, 53))^[131071] (0, 0) = (9007148549539514, 37) := by
    rw [show (131071 : Nat) = 65535 + 65536 from rfl, Function.iterate_add_apply, h32]
    exact double_add_run 37 4503608634587765 53 (by decide) (by decide) (by decide) 65535
      4503608634580889 9007148549539514 (by decide) (by decide) (by decide)
  have h34 : (fun a => double_add a (4503608634587765, 53))^[131072] (0, 0) = (4503608634576845, 36) := by
    rw [show (131072 : Nat) = 1 + 131071 from rfl, Function.iterate_add_apply, h33]
    rfl
  have h35 : (fun a => double_add a (4503608634587765, 53))^[262143] (0, 0) = (9007182909408093, 36) := by
    rw [show (262143 : Nat) = 131071 + 131072 from rfl, Function.iterate_add_apply, h34]
    exact double_add_run 36 4503608634587765 53 (by decide) (by decide) (by decide) 131071
      4503608634576845 9007182909408093 (by decide) (by decide) (by decide)
  have h36 : (fun a => double_add a (4503608634587765, 53))^[262144] (0, 0) = (4503608634607590, 35) := by
    rw [show (262144 : Nat) = 1 + 262143 from rfl, Function.iterate_add_apply, h35]
    rfl
  have h37 : (fun a => double_add a (4503608634587765, 53))^[499998] (0, 0) = (8589917412162166, 35) := by
    rw [show (499998 : Nat) = 237854 + 262144 from rfl, Function.iterate_add_apply, h36]
    exact double_add_run 35 4503608634587765 53 (by decide) (by decide) (by decide) 237854
      4503608634607590 8589917412162166 (by decide) (by decide) (by decide)
  exact h37

/-- For a non-negative value `round` is non-negative and within one half of the value. -/
theorem c_round_bounds (x : ℚ) (hx : 0 ≤ x) :
    0 ≤ c_round x ∧ (c_round x : ℚ) ≤ x + 1 / 2 ∧ x - 1 / 2 < c_round x := by
  unfold c_round
  rw [if_pos hx]
  refine ⟨Int.floor_nonneg.mpr (by linarith), Int.floor_le _, ?_⟩
  have := Int.lt_floor_add_one (x + 1 / 2)
  linarith

/-- In exact arithmetic, with a step above one half, the index of frame `i < n` is below the
ceiling of `n` steps. -/
theorem exact_resample_index_lt (n r i : Nat) (hr0 : 0 < r) (hr : r < 500000) (hi : i < n) :
    0 ≤ exact_resample_index i r ∧ exact_resample_index i r < exact_ticks_per_chunk n r := by
  have hrq : (0 : ℚ) < r := by exact_mod_cast hr0
  have hr5 : (r : ℚ) < 500000 := by exact_mod_cast hr
  have hq : (1 : ℚ) / 2 < 250000 / r := by
    rw [lt_div_iff₀ hrq]; linarith
  have hx0 : (0 : ℚ) ≤ (i : ℚ) * 250000 / r := by positivity
  obtain ⟨b0, b1, _⟩ := c_round_bounds _ hx0
  refine ⟨b0, ?_⟩
  have hin : (i : ℚ) + 1 ≤ n := by exact_mod_cast hi
  have hq0 : (0 : ℚ) < 250000 / r := by positivity
  have h1 : (i : ℚ) * 250000 / r + 1 / 2 < (n : ℚ) * 250000 / r := by
    have e1 : (i : ℚ) * 250000 / r = i * (250000 / r) := by ring
    have e2 : (n : ℚ) * 250000 / r = n * (250000 / r) := by ring
    rw [e1, e2]
    nlinarith
  have h2 : (n : ℚ) * 250000 / r ≤ (exact_ticks_per_chunk n r : ℚ) := by
    unfold exact_ticks_per_chunk
    exact Int.le_ceil _
  have h3 : (c_round ((i : ℚ) * 250000 / r) : ℚ) < (exact_ticks_per_chunk n r : ℚ) := by
    linarith
  have h4 : c_round ((i : ℚ) * 250000 / r) < exact_ticks_per_chunk n r := by
    exact_mod_cast h3
  exact h4

/-- C23. The reads of the resampler against the native buffer. In exact rational
arithmetic the claim holds: for `0 < r < 500000` and `i < n` the index
`round(i * 250000 / r)` is at least 0 and below `ceil(n * 250000 / r)`. The code computes
in `double`: the step is the rounded quotient `250000.0 / sample_rate`, `resample_index`
is accumulated by repeated addition, and the buffer has the length stored by
`sound_set_driver`. For `sample_rate = 44100` and `driver_chunk_size = 512` all 512 reads
are below the stored length 2903. For `sample_rate = 499999` and
`driver_chunk_size = 499999` the stored length is 250000 and the last of the 499999 reads
is at index 250000, one past the end of the buffer, while the exact index is 249999. -/
theorem C23_resampler_read_out_of_bounds :
    (∀ n r i : Nat, 0 < r → r < 500000 → i < n →
      0 ≤ exact_resample_index i r ∧ exact_resample_index i r < exact_ticks_per_chunk n r) ∧
    (sn_frames_per_driver_chunk_size 512 44100 = some 2903 ∧
      (sound_fill_buffer_reads 512 44100).length = 512 ∧
      ∀ o ∈ sound_fill_buffer_reads 512 44100, ∃ k, o = some k ∧ k < 2903) ∧
    (sn_frames_per_driver_frame 499999 = (4503608634587765, 53) ∧
      sn_frames_per_driver_chunk_size 499999 499999 = some 250000 ∧
      (sound_fill_buffer_reads 499999 499999).length = 499999 ∧
      (sound_fill_buffer_reads 499999 499999).getD 499998 none = some 250000 ∧
      exact_resample_index 499998 499999 = 249999 ∧
      exact_ticks_per_chunk 499999 499999 = 250000) := by
  refine ⟨fun n r i h0 h1 hi => exact_resample_index_lt n r i h0 h1 hi,
    ⟨by rfl, resample_reads_length _ _ _, ?_⟩,
    by rfl, by rfl, resample_reads_length _ _ _, ?_, ?_, ?_⟩
  · have hall : (sound_fill_buffer_reads 512 44100).all
        (fun o => match o with
          | some k => decide (k < 2903)
          | none => false) = true := by decide!
    intro o ho
    have := List.all_eq_true.mp hall o ho
    cases o with
    | none => exact absurd this (by simp)
    | some k => exact ⟨k, rfl, of_decide_eq_true this⟩
  · unfold sound_fill_buffer_reads
    rw [resample_reads_getD _ _ _ _ (by decide)]
    have hs : sn_frames_per_driver_frame 499999 = (4503608634587765, 53) := by rfl
    rw [hs, resample_index_499998]
    rfl
  · unfold exact_resample_index c_round
    rw [if_pos (by positivity), Int.floor_eq_iff]
    norm_num
  · unfold exact_ticks_per_chunk
    rw [Int.ceil_eq_iff]
    norm_num

end Beebjit
